import Mathlib

/-!
Shallow embedding of the eVTOL fleet simulator (event-driven kernel) and
proofs about it.  Times, distances and probabilities are modelled as exact
rationals standing in for C++ `double`; every branch condition exercised by
the concrete scenarios below is far from a rounding knife edge, so the
rational model and the floating-point program take the same branches there.
Aircraft ids are `Int` (C++ `int`, including the `-1` sentinel of
`ChargerManager::get_next_from_queue`).
-/

namespace Evtol

/-! ### Aircraft types and the spec table (src/aircraft.h, src/aircraft_types.h) -/

inductive AircraftType where
  | ALPHA | BETA | CHARLIE | DELTA | ECHO
deriving DecidableEq, Repr

open AircraftType

def cruise_speed_mph : AircraftType → ℚ
  | ALPHA => 120 | BETA => 100 | CHARLIE => 160 | DELTA => 90 | ECHO => 30

def battery_capacity_kwh : AircraftType → ℚ
  | ALPHA => 320 | BETA => 100 | CHARLIE => 220 | DELTA => 120 | ECHO => 150

def time_to_charge_hours : AircraftType → ℚ
  | ALPHA => 0.6 | BETA => 0.2 | CHARLIE => 0.8 | DELTA => 0.62 | ECHO => 0.3

def passenger_count : AircraftType → Int
  | ALPHA => 4 | BETA => 5 | CHARLIE => 3 | DELTA => 2 | ECHO => 2

def fault_probability_per_hour : AircraftType → ℚ
  | ALPHA => 0.25 | BETA => 0.10 | CHARLIE => 0.05 | DELTA => 0.22 | ECHO => 0.61

def energy_consumption_per_mile : AircraftType → ℚ
  | ALPHA => 1.6 | BETA => 1.5 | CHARLIE => 2.2 | DELTA => 0.8 | ECHO => 5.8

/-- Per-aircraft mutable state: id, type, battery level, sticky fault bit
(src/aircraft.h `Aircraft`). -/
structure AircraftState where
  aircraft_id : Int
  ty : AircraftType
  battery_level : ℚ
  is_faulty : Bool
deriving DecidableEq, Repr

namespace AircraftState

/-- `Aircraft::get_flight_time_hours`. -/
def get_flight_time_hours (a : AircraftState) : ℚ :=
  a.battery_level * battery_capacity_kwh a.ty /
    (cruise_speed_mph a.ty * energy_consumption_per_mile a.ty)

/-- `Aircraft::get_flight_distance_miles`. -/
def get_flight_distance_miles (a : AircraftState) : ℚ :=
  a.get_flight_time_hours * cruise_speed_mph a.ty

/-- `Aircraft::discharge_battery`. -/
def discharge_battery (a : AircraftState) : AircraftState := { a with battery_level := 0 }

/-- `Aircraft::charge_battery`. -/
def charge_battery (a : AircraftState) : AircraftState := { a with battery_level := 1 }

/-- `Aircraft::get_charge_time_hours`. -/
def get_charge_time_hours (a : AircraftState) : ℚ := time_to_charge_hours a.ty

/-- `Aircraft::set_faulty`. -/
def set_faulty (a : AircraftState) (b : Bool) : AircraftState := { a with is_faulty := b }

end AircraftState

/-- `Aircraft::check_fault_during_flight`, with the `mt19937`-backed
`uniform_real_distribution<double>{0.0, 1.0}` modelled as an explicit stream
`draws : ℕ → ℚ` of uniform draws read at a running index.  Returns the fault
time into the flight (`-1` meaning no fault, as in the source) together with
the next unread index.  A draw is consumed exactly where the source calls
`fault_dist(rng)`. -/
def check_fault_during_flight (a : AircraftState) (flight_time_hours : ℚ)
    (draws : ℕ → ℚ) (k : ℕ) : ℚ × ℕ :=
  let fault_rate := fault_probability_per_hour a.ty
  if fault_rate ≤ 0 then (-1, k)
  else
    let flight_fault_probability := fault_rate * flight_time_hours
    if draws k < flight_fault_probability then
      ((draws (k + 1)) * flight_time_hours, k + 2)
    else (-1, k + 1)

/-! ### Per-type running statistics (src/aircraft.h `FlightStats`) -/

structure FlightStats where
  total_flight_time_hours : ℚ := 0
  total_distance_miles : ℚ := 0
  total_charging_time_hours : ℚ := 0
  total_waiting_time_hours : ℚ := 0
  total_faults : Int := 0
  total_passenger_miles : ℚ := 0
  flight_count : Int := 0
  charge_count : Int := 0
  partial_flight_time_hours : ℚ := 0
  partial_distance_miles : ℚ := 0
  partial_charging_time_hours : ℚ := 0
  partial_passenger_miles : ℚ := 0
  partial_flight_count : Int := 0
  partial_charge_count : Int := 0
deriving DecidableEq, Repr

namespace FlightStats

/-- `FlightStats::add_flight`. -/
def add_flight (s : FlightStats) (flight_time distance : ℚ) (passengers : Int) : FlightStats :=
  { s with
    total_flight_time_hours := s.total_flight_time_hours + flight_time
    total_distance_miles := s.total_distance_miles + distance
    total_passenger_miles := s.total_passenger_miles + passengers * distance
    flight_count := s.flight_count + 1 }

/-- `FlightStats::add_charge_session(charge_time, waiting_time)`. -/
def add_charge_session (s : FlightStats) (charge_time waiting_time : ℚ) : FlightStats :=
  { s with
    total_charging_time_hours := s.total_charging_time_hours + charge_time
    total_waiting_time_hours := s.total_waiting_time_hours + waiting_time
    charge_count := s.charge_count + 1 }

/-- `FlightStats::add_waiting_time`. -/
def add_waiting_time (s : FlightStats) (waiting_time : ℚ) : FlightStats :=
  { s with total_waiting_time_hours := s.total_waiting_time_hours + waiting_time }

/-- `FlightStats::add_fault`. -/
def add_fault (s : FlightStats) : FlightStats :=
  { s with total_faults := s.total_faults + 1 }

/-- `FlightStats::add_partial_flight`: adds into the partial fields and the
matching totals, and increments both counts. -/
def add_partial_flight (s : FlightStats) (flight_time distance : ℚ) (passengers : Int) :
    FlightStats :=
  { s with
    partial_flight_time_hours := s.partial_flight_time_hours + flight_time
    partial_distance_miles := s.partial_distance_miles + distance
    partial_passenger_miles := s.partial_passenger_miles + passengers * distance
    partial_flight_count := s.partial_flight_count + 1
    total_flight_time_hours := s.total_flight_time_hours + flight_time
    total_distance_miles := s.total_distance_miles + distance
    total_passenger_miles := s.total_passenger_miles + passengers * distance
    flight_count := s.flight_count + 1 }

/-- `FlightStats::add_partial_charge`. -/
def add_partial_charge (s : FlightStats) (charge_time : ℚ) : FlightStats :=
  { s with
    partial_charging_time_hours := s.partial_charging_time_hours + charge_time
    partial_charge_count := s.partial_charge_count + 1
    total_charging_time_hours := s.total_charging_time_hours + charge_time
    charge_count := s.charge_count + 1 }

end FlightStats

/-- `StatisticsCollector` keeps one `FlightStats` record per type
(src/statistics_engine.h); the `unordered_map` keyed by the five types is a
total function here. -/
def StatsMap := AircraftType → FlightStats

def StatsMap.init : StatsMap := fun _ => {}

namespace StatsMap

def update (m : StatsMap) (t : AircraftType) (f : FlightStats → FlightStats) : StatsMap :=
  fun t' => if t' = t then f (m t) else m t'

/-- `StatisticsCollector::record_flight`. -/
def record_flight (m : StatsMap) (t : AircraftType) (flight_time distance : ℚ)
    (passengers : Int) : StatsMap :=
  m.update t (·.add_flight flight_time distance passengers)

/-- `StatisticsCollector::record_charge_session(type, charge_time, waiting_time)`. -/
def record_charge_session (m : StatsMap) (t : AircraftType) (charge_time waiting_time : ℚ) :
    StatsMap :=
  m.update t (·.add_charge_session charge_time waiting_time)

/-- `StatisticsCollector::record_fault`. -/
def record_fault (m : StatsMap) (t : AircraftType) : StatsMap :=
  m.update t (·.add_fault)

/-- `StatisticsCollector::record_partial_flight`. -/
def record_partial_flight (m : StatsMap) (t : AircraftType) (flight_time distance : ℚ)
    (passengers : Int) : StatsMap :=
  m.update t (·.add_partial_flight flight_time distance passengers)

/-- `StatisticsCollector::record_partial_charge`. -/
def record_partial_charge (m : StatsMap) (t : AircraftType) (charge_time : ℚ) : StatsMap :=
  m.update t (·.add_partial_charge charge_time)

end StatsMap

/-! ### Charger manager (src/charger_manager.h)

`available_chargers_` is a `std::unordered_set<int>`.  Its iteration order is
modelled from libstdc++'s hashtable for small distinct `int` keys (identity
hash, one element per bucket, no colliding rehash): each freshly inserted
element is linked at the *head* of the container, so `*begin()` is the most
recently inserted element and `erase(*begin())` removes the head.  The
constructor's inserts of 0, 1, 2 therefore leave the iteration order
`[2, 1, 0]`.  (Observed behaviour of the library the program is built
against; nothing in the C++ standard pins the order down.)
`aircraft_to_charger_map_` is an association list with
`operator[]`-style overwrite-or-insert, and `waiting_queue_` a FIFO list. -/

def listInsertHead (l : List Int) (x : Int) : List Int :=
  if x ∈ l then l else x :: l

def listErase (l : List Int) (x : Int) : List Int := l.filter (· ≠ x)

def mapLookup (l : List (Int × ℚ)) (k : Int) : Option ℚ :=
  (l.find? (·.1 = k)).map (·.2)

/-- `unordered_map` `operator[] =`: assign in place when the key is present,
insert otherwise. -/
def mapInsert : List (Int × ℚ) → Int → ℚ → List (Int × ℚ)
  | [], k, v => [(k, v)]
  | p :: rest, k, v => if p.1 = k then (k, v) :: rest else p :: mapInsert rest k v

def mapErase (l : List (Int × ℚ)) (k : Int) : List (Int × ℚ) := l.filter (·.1 ≠ k)

def imapLookup (l : List (Int × Int)) (k : Int) : Option Int :=
  (l.find? (·.1 = k)).map (·.2)

def imapInsert : List (Int × Int) → Int → Int → List (Int × Int)
  | [], k, v => [(k, v)]
  | p :: rest, k, v => if p.1 = k then (k, v) :: rest else p :: imapInsert rest k v

def imapErase (l : List (Int × Int)) (k : Int) : List (Int × Int) := l.filter (·.1 ≠ k)

structure ChargerManager where
  waiting_queue : List Int
  available_chargers : List Int
  aircraft_to_charger_map : List (Int × Int)
  active_chargers : Int
deriving DecidableEq, Repr

namespace ChargerManager

def NUM_CHARGERS : Int := 3

/-- The constructor inserts chargers 0, 1, 2 into the unordered set; under the
modelled iteration order the head ends up being the last one inserted. -/
def init : ChargerManager :=
  { waiting_queue := []
    available_chargers := ((listInsertHead (listInsertHead (listInsertHead [] 0) 1) 2))
    aircraft_to_charger_map := []
    active_chargers := 0 }

/-- `ChargerManager::request_charger`: if the set of available chargers is
nonempty, take `*available_chargers_.begin()` (the head), map the aircraft to
it, bump the active counter, return true; else return false. -/
def request_charger (m : ChargerManager) (aircraft_id : Int) : Bool × ChargerManager :=
  match m.available_chargers with
  | [] => (false, m)
  | charger_id :: _ =>
      (true,
        { m with
          available_chargers := listErase m.available_chargers charger_id
          aircraft_to_charger_map := imapInsert m.aircraft_to_charger_map aircraft_id charger_id
          active_chargers := m.active_chargers + 1 })

/-- `ChargerManager::release_charger`: frees the slot held by the aircraft;
no-op if it holds none. -/
def release_charger (m : ChargerManager) (aircraft_id : Int) : ChargerManager :=
  match imapLookup m.aircraft_to_charger_map aircraft_id with
  | none => m
  | some charger_id =>
      { m with
        available_chargers := listInsertHead m.available_chargers charger_id
        aircraft_to_charger_map := imapErase m.aircraft_to_charger_map aircraft_id
        active_chargers := m.active_chargers - 1 }

/-- `ChargerManager::add_to_queue`. -/
def add_to_queue (m : ChargerManager) (aircraft_id : Int) : ChargerManager :=
  { m with waiting_queue := m.waiting_queue ++ [aircraft_id] }

/-- `ChargerManager::get_next_from_queue`: pops the FIFO head, `-1` when
empty. -/
def get_next_from_queue (m : ChargerManager) : Int × ChargerManager :=
  match m.waiting_queue with
  | [] => (-1, m)
  | aircraft_id :: rest => (aircraft_id, { m with waiting_queue := rest })

/-- `ChargerManager::assign_charger` simply delegates to `request_charger`. -/
def assign_charger (m : ChargerManager) (aircraft_id : Int) : Bool × ChargerManager :=
  m.request_charger aircraft_id

/-- `ChargerManager::get_queue_size`. -/
def get_queue_size (m : ChargerManager) : Int := m.waiting_queue.length

/-- `ChargerManager::get_active_chargers`. -/
def get_active_chargers (m : ChargerManager) : Int := m.active_chargers

/-- `ChargerManager::get_available_chargers`. -/
def get_available_chargers (m : ChargerManager) : Int := m.available_chargers.length

/-- `ChargerManager::get_charger_id`. -/
def get_charger_id (m : ChargerManager) (aircraft_id : Int) : Int :=
  match imapLookup m.aircraft_to_charger_map aircraft_id with
  | some c => c
  | none => -1

end ChargerManager

/-! ### Events and the event queue (src/event_driven_simulation.h)

`Event::operator<` compares **only** `time_hours` (reversed, so the
`std::priority_queue` max-heap pops the earliest time); the struct carries no
insertion sequence number.  The queue itself is `std::priority_queue` over
`std::vector`; its push/pop are modelled from libstdc++'s
`__push_heap`/`__adjust_heap` (hole-bubbling pop), which is what the binary
the program links against executes.  The model was checked against that
library's observable pop order, including its order on equal keys. -/

inductive EventType where
  | FLIGHT_COMPLETE | CHARGING_COMPLETE | FAULT_OCCURRED
deriving DecidableEq, Repr

structure FlightCompleteData where
  aircraft_id : Int
  flight_time : ℚ
  distance : ℚ
  fault_occurred : Bool
deriving DecidableEq, Repr

structure ChargingCompleteData where
  aircraft_id : Int
  charge_time : ℚ
  waiting_time : ℚ
deriving DecidableEq, Repr

structure FaultData where
  aircraft_id : Int
  fault_time : ℚ
deriving DecidableEq, Repr

inductive EventData where
  | flightComplete (d : FlightCompleteData)
  | chargingComplete (d : ChargingCompleteData)
  | fault (d : FaultData)
deriving DecidableEq, Repr

/-- The aircraft id carried by an event payload (the `std::visit` in
`schedule_event`). -/
def EventData.aircraft_id : EventData → Int
  | .flightComplete d => d.aircraft_id
  | .chargingComplete d => d.aircraft_id
  | .fault d => d.aircraft_id

structure SimEvent where
  ty : EventType
  time_hours : ℚ
  data : EventData
deriving DecidableEq, Repr

instance : Inhabited SimEvent :=
  ⟨{ ty := .FAULT_OCCURRED, time_hours := 0, data := .fault ⟨-1, 0⟩ }⟩

/-- `Event::operator<`: `time_hours > other.time_hours` — nothing else. -/
def eventLess (a b : SimEvent) : Bool := a.time_hours > b.time_hours

/-- Element read used by the heap routines (`*(first + i)`). -/
def getE (a : List SimEvent) (i : ℕ) : SimEvent := a.getD i default

/-- libstdc++ `std::__push_heap`: bubble the hole up from `hole` toward
`top` while the parent compares less than `value`, then drop `value` in.
`fuel ≥ hole + 1` makes the fuel irrelevant. -/
def push_heap_loop : ℕ → List SimEvent → ℕ → ℕ → SimEvent → List SimEvent
  | 0, a, hole, _, value => a.set hole value
  | fuel + 1, a, hole, top, value =>
      if top < hole ∧ eventLess (getE a ((hole - 1) / 2)) value then
        push_heap_loop fuel (a.set hole (getE a ((hole - 1) / 2))) ((hole - 1) / 2) top value
      else a.set hole value

/-- First loop of libstdc++ `std::__adjust_heap`: push the hole down,
always promoting the child that is not less than its sibling, until the hole
has no right child.  Returns the array, the hole, and the final
`secondChild`. -/
def adjust_loop : ℕ → List SimEvent → ℕ → ℕ → ℕ → List SimEvent × ℕ × ℕ
  | 0, a, hole, second, _ => (a, hole, second)
  | fuel + 1, a, hole, second, len =>
      if second < (len - 1) / 2 then
        let s1 := 2 * (second + 1)
        let s2 := if eventLess (getE a s1) (getE a (s1 - 1)) then s1 - 1 else s1
        adjust_loop fuel (a.set hole (getE a s2)) s2 s2 len
      else (a, hole, second)

/-- libstdc++ `std::__adjust_heap` with `topIndex = holeIndex`: the two
descent phases followed by `__push_heap` from the leaf the hole reached. -/
def adjust_heap (a : List SimEvent) (holeIndex len : ℕ) (value : SimEvent) : List SimEvent :=
  let t := adjust_loop len a holeIndex holeIndex len
  let a1 := t.1
  let hole1 := t.2.1
  let second1 := t.2.2
  let p :=
    if len % 2 = 0 ∧ second1 = (len - 2) / 2 then
      let s := 2 * (second1 + 1)
      (a1.set hole1 (getE a1 (s - 1)), s - 1)
    else (a1, hole1)
  push_heap_loop (p.2 + 1) p.1 p.2 holeIndex value

/-- `priority_queue::push`: `push_back` then `std::push_heap`. -/
def heap_push (q : List SimEvent) (e : SimEvent) : List SimEvent :=
  push_heap_loop (q.length + 1) (q ++ [e]) q.length 0 e

/-- `priority_queue::top`. -/
def heap_top (q : List SimEvent) : SimEvent := getE q 0

/-- `priority_queue::pop`: `std::pop_heap` (which for size > 1 saves the
last element as `value`, copies the top into the last slot, and runs
`__adjust_heap` over the first `size - 1` slots) then `pop_back`. -/
def heap_pop (q : List SimEvent) : List SimEvent :=
  match q.length with
  | 0 => []
  | 1 => []
  | n + 2 =>
      let value := getE q (n + 1)
      let a := q.set (n + 1) (getE q 0)
      (adjust_heap a 0 (n + 1) value).take (n + 1)

/-! ### The event-driven simulation kernel (src/event_driven_simulation.h)

The `std::mt19937` owned by `Aircraft` is modelled as the stream
`draws : ℕ → ℚ` with a running read index, threaded through the state. -/

structure SimState where
  event_queue : List SimEvent
  current_time_hours : ℚ
  simulation_duration_hours : ℚ
  stats : StatsMap
  waiting_start_times : List (Int × ℚ)
  flight_start_times : List (Int × ℚ)
  charging_start_times : List (Int × ℚ)
  enable_partial_flights : Bool
  fleet : List AircraftState
  charger : ChargerManager
  draws : ℕ → ℚ
  draw_index : ℕ

/-- Fresh simulation state, as built by the constructor and
`run_simulation`'s entry (empty queue, `current_time_hours_ = 0`,
partial-activity recording at its default `true`). -/
def SimState.init (fleet : List AircraftState) (duration_hours : ℚ) (draws : ℕ → ℚ) :
    SimState :=
  { event_queue := []
    current_time_hours := 0
    simulation_duration_hours := duration_hours
    stats := StatsMap.init
    waiting_start_times := []
    flight_start_times := []
    charging_start_times := []
    enable_partial_flights := true
    fleet := fleet
    charger := ChargerManager.init
    draws := draws
    draw_index := 0 }

/-- `std::find_if` over the fleet by aircraft id. -/
def findAircraft (fleet : List AircraftState) (id : Int) : Option AircraftState :=
  fleet.find? (fun a => a.aircraft_id == id)

/-- Mutation through the pointer `find_if` produced: update the first
list entry with the given id. -/
def updateFirst : List AircraftState → Int → (AircraftState → AircraftState) →
    List AircraftState
  | [], _, _ => []
  | a :: rest, id, f =>
      if a.aircraft_id == id then f a :: rest else a :: updateFirst rest id f

/-- `EventDrivenSimulation::schedule_event`: flight/charging events beyond
the horizon are re-timed to the horizon (partial events) when partial
recording is enabled; an event is queued only if its scheduled time is
within the horizon. -/
def schedule_event (s : SimState) (ty : EventType) (time_hours : ℚ) (data : EventData) :
    SimState :=
  let scheduled_time := time_hours
  let scheduled_time :=
    if time_hours > s.simulation_duration_hours ∧ ty = .FLIGHT_COMPLETE ∧
        s.enable_partial_flights then s.simulation_duration_hours
    else scheduled_time
  let scheduled_time :=
    if time_hours > s.simulation_duration_hours ∧ ty = .CHARGING_COMPLETE ∧
        s.enable_partial_flights then s.simulation_duration_hours
    else scheduled_time
  if scheduled_time ≤ s.simulation_duration_hours then
    { s with event_queue := heap_push s.event_queue ⟨ty, scheduled_time, data⟩ }
  else s

/-- `EventDrivenSimulation::schedule_flight`. -/
def schedule_flight (s : SimState) (aircraft : AircraftState) : SimState :=
  let distance := aircraft.get_flight_distance_miles
  let flight_time := aircraft.get_flight_time_hours
  let s := { s with
    flight_start_times :=
      mapInsert s.flight_start_times aircraft.aircraft_id s.current_time_hours }
  let r := check_fault_during_flight aircraft flight_time s.draws s.draw_index
  let fault_time := r.1
  let s := { s with draw_index := r.2 }
  let fault_occurred : Bool := fault_time ≥ 0
  let s :=
    if fault_occurred then
      schedule_event s .FAULT_OCCURRED (s.current_time_hours + fault_time)
        (.fault ⟨aircraft.aircraft_id, fault_time⟩)
    else s
  schedule_event s .FLIGHT_COMPLETE (s.current_time_hours + flight_time)
    (.flightComplete ⟨aircraft.aircraft_id, flight_time, distance, fault_occurred⟩)

/-- `EventDrivenSimulation::schedule_charging`. -/
def schedule_charging (s : SimState) (aircraft : AircraftState) (waiting_time : ℚ) :
    SimState :=
  let charge_time := aircraft.get_charge_time_hours
  let s := { s with
    charging_start_times :=
      mapInsert s.charging_start_times aircraft.aircraft_id s.current_time_hours }
  schedule_event s .CHARGING_COMPLETE (s.current_time_hours + charge_time)
    (.chargingComplete ⟨aircraft.aircraft_id, charge_time, waiting_time⟩)

/-- `EventDrivenSimulation::handle_flight_complete`. -/
def handle_flight_complete (s : SimState) (data : FlightCompleteData) : SimState :=
  match findAircraft s.fleet data.aircraft_id with
  | none => s
  | some aircraft0 =>
      let aircraft := aircraft0.discharge_battery
      let s := { s with
        fleet := updateFirst s.fleet data.aircraft_id AircraftState.discharge_battery }
      let s := { s with
        stats := s.stats.record_flight aircraft.ty data.flight_time data.distance
          (passenger_count aircraft.ty) }
      let s := { s with
        flight_start_times := mapErase s.flight_start_times data.aircraft_id }
      if ¬ aircraft.is_faulty then
        let r := s.charger.request_charger aircraft.aircraft_id
        let s := { s with charger := r.2 }
        if r.1 then
          schedule_charging s aircraft 0
        else
          { s with
            charger := s.charger.add_to_queue aircraft.aircraft_id
            waiting_start_times :=
              mapInsert s.waiting_start_times aircraft.aircraft_id s.current_time_hours }
      else s

/-- `EventDrivenSimulation::handle_charging_complete` — note: no
`release_charger` call appears anywhere in it. -/
def handle_charging_complete (s : SimState) (data : ChargingCompleteData) : SimState :=
  match findAircraft s.fleet data.aircraft_id with
  | none => s
  | some aircraft0 =>
      let aircraft := aircraft0.charge_battery
      let s := { s with
        fleet := updateFirst s.fleet data.aircraft_id AircraftState.charge_battery }
      let s := { s with
        stats := s.stats.record_charge_session aircraft.ty data.charge_time
          data.waiting_time }
      let s := { s with
        charging_start_times := mapErase s.charging_start_times data.aircraft_id }
      let s :=
        if s.current_time_hours < s.simulation_duration_hours ∧ ¬ aircraft.is_faulty then
          schedule_flight s aircraft
        else s
      let rq := s.charger.get_next_from_queue
      let next_aircraft_id := rq.1
      let s := { s with charger := rq.2 }
      if next_aircraft_id ≠ -1 then
        match findAircraft s.fleet next_aircraft_id with
        | none => s
        | some next_aircraft =>
            let ra := s.charger.assign_charger next_aircraft_id
            let s := { s with charger := ra.2 }
            let waiting_time :=
              match mapLookup s.waiting_start_times next_aircraft_id with
              | some w => s.current_time_hours - w
              | none => 0
            let s :=
              match mapLookup s.waiting_start_times next_aircraft_id with
              | some _ => { s with
                  waiting_start_times := mapErase s.waiting_start_times next_aircraft_id }
              | none => s
            schedule_charging s next_aircraft waiting_time
      else s

/-- `EventDrivenSimulation::handle_fault`. -/
def handle_fault (s : SimState) (data : FaultData) : SimState :=
  match findAircraft s.fleet data.aircraft_id with
  | none => s
  | some aircraft =>
      let s := { s with
        fleet := updateFirst s.fleet data.aircraft_id (·.set_faulty true) }
      { s with stats := s.stats.record_fault aircraft.ty }

/-- `EventDrivenSimulation::process_event` (`std::visit` dispatch on the
payload variant). -/
def process_event (s : SimState) (event : SimEvent) : SimState :=
  match event.data with
  | .flightComplete d => handle_flight_complete s d
  | .chargingComplete d => handle_charging_complete s d
  | .fault d => handle_fault s d

/-- One iteration of the main loop of `run_simulation`: `none` when the loop
exits without popping (empty queue or time already at the horizon).  When the
popped event's time is at or past the horizon the event is discarded and the
next call returns `none`. -/
def loop_step (s : SimState) : Option SimState :=
  if s.event_queue ≠ [] ∧ s.current_time_hours < s.simulation_duration_hours then
    let event := heap_top s.event_queue
    let s1 := { s with
      event_queue := heap_pop s.event_queue
      current_time_hours := event.time_hours }
    if s1.current_time_hours ≥ s1.simulation_duration_hours then some s1
    else some (process_event s1 event)
  else none

/-- The main loop, with enough fuel to cover the run. -/
def run_loop : ℕ → SimState → SimState
  | 0, s => s
  | n + 1, s =>
      match loop_step s with
      | none => s
      | some s' => run_loop n s'

/-- `EventDrivenSimulation::handle_partial_flight`. -/
def handle_partial_flight (s : SimState) (data : FlightCompleteData) : SimState :=
  match findAircraft s.fleet data.aircraft_id with
  | none => s
  | some aircraft =>
      match mapLookup s.flight_start_times data.aircraft_id with
      | none => s
      | some flight_start_time =>
          let partial_flight_time := s.simulation_duration_hours - flight_start_time
          let partial_distance := partial_flight_time / data.flight_time * data.distance
          { s with
            stats := s.stats.record_partial_flight aircraft.ty partial_flight_time
              partial_distance (passenger_count aircraft.ty) }

/-- `EventDrivenSimulation::handle_partial_charge`. -/
def handle_partial_charge (s : SimState) (data : ChargingCompleteData) : SimState :=
  match findAircraft s.fleet data.aircraft_id with
  | none => s
  | some aircraft =>
      match mapLookup s.charging_start_times data.aircraft_id with
      | none => s
      | some charge_start_time =>
          let partial_charge_time := s.simulation_duration_hours - charge_start_time
          { s with
            stats := s.stats.record_partial_charge aircraft.ty partial_charge_time }

/-- The drain loop of `finalize_simulation`. -/
def finalize_drain : ℕ → SimState → SimState
  | 0, s => s
  | n + 1, s =>
      match s.event_queue with
      | [] => s
      | _ =>
          let event := heap_top s.event_queue
          let s1 := { s with event_queue := heap_pop s.event_queue }
          let s2 :=
            match event.data with
            | .flightComplete d => handle_partial_flight s1 d
            | .chargingComplete d => handle_partial_charge s1 d
            | .fault _ => s1
          finalize_drain n s2

/-- `EventDrivenSimulation::finalize_simulation`: set the clock to the
horizon, then drain remaining events as partial activities. -/
def finalize_simulation (s : SimState) : SimState :=
  finalize_drain s.event_queue.length
    { s with current_time_hours := s.simulation_duration_hours }

/-- `EventDrivenSimulation::schedule_initial_flights` (fleet in id order). -/
def schedule_initial_flights (s : SimState) : SimState :=
  s.fleet.foldl (fun st a => schedule_flight st a) s

/-- `EventDrivenSimulation::run_simulation`. -/
def run_simulation (fuel : ℕ) (s : SimState) : SimState :=
  finalize_simulation (run_loop fuel (schedule_initial_flights s))

/-! ### Concrete scenarios

`no_fault_draws` models an RNG whose uniform draws all come out `0.9`: every
per-flight Bernoulli test in the scenarios below has probability below `0.9`,
so no fault fires. -/

def no_fault_draws : ℕ → ℚ := fun _ => 9 / 10

def alpha0 : AircraftState := ⟨0, .ALPHA, 1, false⟩

def alpha_fleet : List AircraftState := [alpha0]

/-- Four Beta aircraft: their initial flights all complete at `2/3` h, so
with three chargers one of them must queue. -/
def beta4_fleet : List AircraftState :=
  [⟨0, .BETA, 1, false⟩, ⟨1, .BETA, 1, false⟩, ⟨2, .BETA, 1, false⟩, ⟨3, .BETA, 1, false⟩]

/-- Charlie, Beta, Echo, Alpha: four distinct flight times (5/8, 2/3, 25/29,
5/3 hours), so no two events of this run ever tie. -/
def mixed_fleet : List AircraftState :=
  [⟨0, .CHARLIE, 1, false⟩, ⟨1, .BETA, 1, false⟩, ⟨2, .ECHO, 1, false⟩, ⟨3, .ALPHA, 1, false⟩]

/-- Single Alpha, horizon 3 h: its flight completes at `5/3` and its charge at
`34/15 < 3`, both inside the loop. -/
def c1_states (n : ℕ) : SimState :=
  run_loop n (schedule_initial_flights (SimState.init alpha_fleet 3 no_fault_draws))

/-- Four Betas, horizon 3 h, observed just before/after the first
ChargingComplete dispatch. -/
def c2_states (n : ℕ) : SimState :=
  run_loop n (schedule_initial_flights (SimState.init beta4_fleet 3 no_fault_draws))

def c2_run : SimState := run_simulation 14 (SimState.init beta4_fleet 3 no_fault_draws)

/-- Scenario 1 of the spec: a single Alpha with a 2-hour horizon. -/
def c3_run : SimState := run_simulation 4 (SimState.init alpha_fleet 2 no_fault_draws)

/-- The mixed fleet run up to the dispatch at `t = 23/15` (aircraft 1's
second FlightComplete). -/
def c4_state7 : SimState :=
  run_loop 7 (schedule_initial_flights (SimState.init mixed_fleet 3 no_fault_draws))

/-! ### Event-queue order helpers -/

/-- Push a batch of events in the given insertion order. -/
def heap_push_all (evs : List SimEvent) : List SimEvent := evs.foldl heap_push []

/-- The dispatch order: repeatedly take `top` and `pop`. -/
def pop_order : ℕ → List SimEvent → List SimEvent
  | 0, _ => []
  | _ + 1, [] => []
  | n + 1, q => heap_top q :: pop_order n (heap_pop q)

/-- Four events with equal scheduled times, tagged 0..3 through their fault
payloads, inserted in tag order. -/
def tied_event (tag : Int) : SimEvent := ⟨.FAULT_OCCURRED, 1, .fault ⟨tag, 0⟩⟩

/-! ### Statistics-operation traces (for the partial-vs-total invariant)

A run touches one type's `FlightStats` record only through the five
`StatisticsCollector::record_*` entry points (plus `record_waiting_time`);
a trace of those calls is a list of `StatsOp`. -/

inductive StatsOp where
  | flight (flight_time distance : ℚ) (passengers : Int)
  | chargeSession (charge_time waiting_time : ℚ)
  | waitingTime (waiting_time : ℚ)
  | fault
  | partialFlight (flight_time distance : ℚ) (passengers : Int)
  | partialCharge (charge_time : ℚ)

def StatsOp.apply (s : FlightStats) : StatsOp → FlightStats
  | .flight ft d p => s.add_flight ft d p
  | .chargeSession ct wt => s.add_charge_session ct wt
  | .waitingTime wt => s.add_waiting_time wt
  | .fault => s.add_fault
  | .partialFlight ft d p => s.add_partial_flight ft d p
  | .partialCharge ct => s.add_partial_charge ct

def applyOps (s : FlightStats) (ops : List StatsOp) : FlightStats :=
  ops.foldl StatsOp.apply s

/-- The arguments a simulation run feeds the recorders are nonnegative
(durations, distances, passenger counts). -/
def StatsOp.Nonneg : StatsOp → Prop
  | .flight ft d p => 0 ≤ ft ∧ 0 ≤ d ∧ 0 ≤ p
  | .chargeSession ct wt => 0 ≤ ct ∧ 0 ≤ wt
  | .waitingTime wt => 0 ≤ wt
  | .fault => True
  | .partialFlight ft d p => 0 ≤ ft ∧ 0 ≤ d ∧ 0 ≤ p
  | .partialCharge ct => 0 ≤ ct

/-- The partial fields bounded by their totals (the Partial ⊆ Total
invariant), together with nonnegativity of each side's gap witness. -/
def PartialWithinTotal (s : FlightStats) : Prop :=
  s.partial_flight_time_hours ≤ s.total_flight_time_hours ∧
  s.partial_distance_miles ≤ s.total_distance_miles ∧
  s.partial_charging_time_hours ≤ s.total_charging_time_hours ∧
  s.partial_passenger_miles ≤ s.total_passenger_miles ∧
  s.partial_flight_count ≤ s.flight_count ∧
  s.partial_charge_count ≤ s.charge_count

/-- Min-heap-on-time property of the first `len` slots: every parent's time
is at most its child's (`Event::operator<` reversed by the max-heap). -/
def HeapUpTo (a : List SimEvent) (len : ℕ) : Prop :=
  ∀ i, 0 < i → i < len → (getE a ((i - 1) / 2)).time_hours ≤ (getE a i).time_hours

def IsHeap (a : List SimEvent) : Prop := HeapUpTo a a.length

/-- Classifiers of events by kind and target aircraft. -/
def isFlightCompleteFor (id : Int) (e : SimEvent) : Bool :=
  match e.data with
  | .flightComplete d => d.aircraft_id == id
  | _ => false

def isChargingCompleteFor (id : Int) (e : SimEvent) : Bool :=
  match e.data with
  | .chargingComplete d => d.aircraft_id == id
  | _ => false

def isFaultFor (id : Int) (e : SimEvent) : Bool :=
  match e.data with
  | .fault d => d.aircraft_id == id
  | _ => false

def isEventFor (id : Int) (e : SimEvent) : Bool := e.data.aircraft_id == id

/-- The sticky fault bit of aircraft `id`, read off the fleet. -/
def isFaultedIn (s : SimState) (id : Int) : Bool :=
  match findAircraft s.fleet id with
  | some a => a.is_faulty
  | none => false

/-- The kernel's reachable-state invariant: the queue is a heap of events no
earlier than the clock; per aircraft at most one pending event of each kind;
pending fault events target unfaulted, non-queued aircraft with no pending
charge and only later (or horizon-clamped) flight completions; pending
charge completions target unfaulted aircraft with no pending flight
completion; queued aircraft are unfaulted, duplicate-free and have no
pending completions; and the RNG draws are uniform in `[0, 1)`. -/
structure Inv (s : SimState) : Prop where
  heap : IsHeap s.event_queue
  times : ∀ e ∈ s.event_queue, s.current_time_hours ≤ e.time_hours
  fc_unique : ∀ id, s.event_queue.countP (isFlightCompleteFor id) ≤ 1
  cc_unique : ∀ id, s.event_queue.countP (isChargingCompleteFor id) ≤ 1
  fault_unique : ∀ id, s.event_queue.countP (isFaultFor id) ≤ 1
  fault_ok : ∀ e ∈ s.event_queue, ∀ id, isFaultFor id e = true →
      isFaultedIn s id = false ∧ id ∉ s.charger.waiting_queue ∧
      (∀ c ∈ s.event_queue, isChargingCompleteFor id c = false) ∧
      (∀ c ∈ s.event_queue, isFlightCompleteFor id c = true →
        e.time_hours < c.time_hours ∨ c.time_hours = s.simulation_duration_hours)
  cc_ok : ∀ e ∈ s.event_queue, ∀ id, isChargingCompleteFor id e = true →
      isFaultedIn s id = false ∧
      (∀ c ∈ s.event_queue, isFlightCompleteFor id c = false)
  waiting_ok : ∀ id ∈ s.charger.waiting_queue, isFaultedIn s id = false ∧
      (∀ c ∈ s.event_queue, isFlightCompleteFor id c = false) ∧
      (∀ c ∈ s.event_queue, isChargingCompleteFor id c = false)
  waiting_nodup : s.charger.waiting_queue.Nodup
  draws_range : ∀ n, 0 ≤ s.draws n ∧ s.draws n < 1

/-- An RNG whose uniform draws all come out `0`: the very first per-flight
Bernoulli test fires and the fault lands at time `0` into the flight. -/
def zero_draws : ℕ → ℚ := fun _ => 0

/-! ## Theorems -/

theorem imapLookup_imapInsert_self (l : List (Int × Int)) (k v : Int) :
    imapLookup (imapInsert l k v) k = some v := by
  induction l with
  | nil => simp [imapInsert, imapLookup, List.find?]
  | cons p rest ih =>
      by_cases h : p.1 = k
      · simp [imapInsert, h, imapLookup, List.find?]
      · simpa [imapInsert, h, imapLookup, List.find?] using ih

/-- C10: an event handler given an aircraft id that matches nothing in the
fleet is a total no-op: the state — statistics, charger manager, fleet
(fault bits), start-time maps and event queue — is returned unchanged, for
each of the three event kinds. -/
theorem c10_unknown_aircraft_handlers_no_op (s : SimState)
    (fc : FlightCompleteData) (cc : ChargingCompleteData) (fd : FaultData)
    (hfc : findAircraft s.fleet fc.aircraft_id = none)
    (hcc : findAircraft s.fleet cc.aircraft_id = none)
    (hfd : findAircraft s.fleet fd.aircraft_id = none) :
    handle_flight_complete s fc = s ∧
    handle_charging_complete s cc = s ∧
    handle_fault s fd = s := by
  refine ⟨?_, ?_, ?_⟩
  · unfold handle_flight_complete
    rw [hfc]
  · unfold handle_charging_complete
    rw [hcc]
  · unfold handle_fault
    rw [hfd]

/-- Witness for C10 at a concrete state: a one-Alpha fleet and events
carrying the absent id 5. -/
theorem c10_witness :
    handle_flight_complete (SimState.init alpha_fleet 2 no_fault_draws) ⟨5, 1, 1, false⟩
        = SimState.init alpha_fleet 2 no_fault_draws ∧
    handle_charging_complete (SimState.init alpha_fleet 2 no_fault_draws) ⟨5, 1, 0⟩
        = SimState.init alpha_fleet 2 no_fault_draws ∧
    handle_fault (SimState.init alpha_fleet 2 no_fault_draws) ⟨5, 1⟩
        = SimState.init alpha_fleet 2 no_fault_draws :=
  c10_unknown_aircraft_handlers_no_op _ _ _ _
    (by simp [findAircraft, SimState.init, alpha_fleet, alpha0, List.find?])
    (by simp [findAircraft, SimState.init, alpha_fleet, alpha0, List.find?])
    (by simp [findAircraft, SimState.init, alpha_fleet, alpha0, List.find?])

set_option maxRecDepth 10000 in
/-- C1: evaluation of the code at the failing input.  Single Alpha, 3-hour
horizon: after the FlightComplete at `5/3` the aircraft holds charger 2
(map `[(0, 2)]`, free set `[1, 0]`); after the ChargingComplete dispatch at
`34/15` the charge session is recorded but the handler — which calls
`get_next_from_queue` and `assign_charger` only — has released nothing: the
map and free set are identical, so no release happens before the
dequeue/acquire, contradicting the claimed release-then-dequeue-then-acquire
order. -/
theorem c1_charging_complete_never_releases :
    (c1_states 1).charger.aircraft_to_charger_map = [(0, 2)] ∧
    (c1_states 1).charger.available_chargers = [1, 0] ∧
    (c1_states 2).current_time_hours = 34 / 15 ∧
    ((c1_states 2).stats .ALPHA).charge_count = 1 ∧
    (c1_states 2).charger.aircraft_to_charger_map = [(0, 2)] ∧
    (c1_states 2).charger.available_chargers = [1, 0] ∧
    (c1_states 2).charger.active_chargers = 1 :=
  of_decide_eq_true (by with_unfolding_all rfl)

set_option maxRecDepth 10000 in
/-- C2: evaluation of the code at the failing input.  Four Betas, three
chargers: all four flights end at `2/3`; three aircraft acquire, aircraft 1
queues.  When the first ChargingComplete is dispatched (the next event, at
`13/15`), the queue holds aircraft 1 and the free set is empty — the held
slot was never released — so the dequeue returns aircraft 1 and the
`assign_charger` that the claim says must succeed returns false.  The
handler ignores that and schedules aircraft 1's charge anyway (one
ChargingComplete event for id 1 sits in the queue afterwards), and the full
run books 4 charge sessions against 3 chargers: no abort happens. -/
theorem c2_promotion_acquire_fails_without_abort :
    (heap_top (c2_states 4).event_queue).ty = .CHARGING_COMPLETE ∧
    (heap_top (c2_states 4).event_queue).time_hours = 13 / 15 ∧
    (c2_states 4).charger.waiting_queue = [1] ∧
    (c2_states 4).charger.available_chargers = [] ∧
    ((c2_states 4).charger.get_next_from_queue).1 = 1 ∧
    (((c2_states 4).charger.get_next_from_queue).2.request_charger 1).1 = false ∧
    ((c2_states 5).event_queue.filter
        (fun e => e.ty == EventType.CHARGING_COMPLETE && e.data.aircraft_id == 1)).length
      = 1 ∧
    (c2_run.stats .BETA).charge_count = 4 ∧
    ChargerManager.NUM_CHARGERS = 3 :=
  of_decide_eq_true (by with_unfolding_all rfl)

set_option maxRecDepth 10000 in
/-- C3: evaluation of the code at the failing input (the spec's scenario 1:
one Alpha, horizon 2 h).  The ChargingComplete re-timed to the horizon is
popped, the clock is set to 2, and the loop breaks *discarding* the popped
event instead of pushing it back, so finalization sees an empty queue: the
run records the completed flight (count 1, `5/3` h) but no charge of any
kind — total and partial charge counts and hours are all 0, where the claim
expects a total charge count of 1 and `partial_charge_hours ≈ 1/3`. -/
theorem c3_horizon_event_dropped :
    (c3_run.stats .ALPHA).flight_count = 1 ∧
    (c3_run.stats .ALPHA).total_flight_time_hours = 5 / 3 ∧
    (c3_run.stats .ALPHA).charge_count = 0 ∧
    (c3_run.stats .ALPHA).partial_charge_count = 0 ∧
    (c3_run.stats .ALPHA).partial_charging_time_hours = 0 ∧
    (c3_run.stats .ALPHA).total_charging_time_hours = 0 :=
  of_decide_eq_true (by with_unfolding_all rfl)

set_option maxRecDepth 10000 in
/-- C4: evaluation of the code at the failing input.  Mixed fleet (Charlie,
Beta, Echo, Alpha), three chargers, horizon 3 h: at the dispatch at
`t = 23/15` aircraft 1 finishes its second flight, finds no free charger
(none was ever released) and is enqueued — while it still holds charger 1
from its first charge.  The assigned-aircraft set and the waiting queue then
intersect, refuting the claimed disjointness invariant. -/
theorem c4_assigned_aircraft_also_queued :
    c4_state7.current_time_hours = 23 / 15 ∧
    c4_state7.charger.waiting_queue = [1] ∧
    imapLookup c4_state7.charger.aircraft_to_charger_map 1 = some 1 :=
  of_decide_eq_true (by with_unfolding_all rfl)

/-- C6 counterexample: in the freshly constructed `ChargerManager` the free
set iterates as `[2, 1, 0]`, and the first `request_charger` assigns charger
2 — not the lowest-numbered free slot 0 — so the claimed lowest-numbered
selection rule is false at the very first acquisition. -/
theorem c6_counterexample_not_lowest_slot :
    ChargerManager.init.available_chargers = [2, 1, 0] ∧
    (0 : Int) ∈ ChargerManager.init.available_chargers ∧
    (ChargerManager.init.request_charger 7).1 = true ∧
    imapLookup (ChargerManager.init.request_charger 7).2.aircraft_to_charger_map 7
      = some 2 :=
  of_decide_eq_true (by with_unfolding_all rfl)

/-- C6 (amended): `request_charger` succeeds exactly when some slot is free;
on success it assigns the *head of the unordered set's iteration order* (the
most recently freed or inserted free slot, not the lowest-numbered one),
records the mapping, removes that slot from the free set and bumps the
active counter, leaving the waiting queue alone; with no free slot it
returns false and changes nothing. -/
theorem c6_request_charger_takes_iteration_head (m : ChargerManager)
    (aircraft_id : Int) :
    ((m.request_charger aircraft_id).1 = true ↔ m.available_chargers ≠ []) ∧
    (m.available_chargers = [] → (m.request_charger aircraft_id).2 = m) ∧
    (∀ c rest, m.available_chargers = c :: rest →
      imapLookup (m.request_charger aircraft_id).2.aircraft_to_charger_map aircraft_id
          = some c ∧
      (m.request_charger aircraft_id).2.available_chargers
          = listErase m.available_chargers c ∧
      (m.request_charger aircraft_id).2.active_chargers = m.active_chargers + 1 ∧
      (m.request_charger aircraft_id).2.waiting_queue = m.waiting_queue) := by
  refine ⟨?_, ?_, ?_⟩
  · cases h : m.available_chargers with
    | nil => simp [ChargerManager.request_charger, h]
    | cons c rest => simp [ChargerManager.request_charger, h]
  · intro h
    simp [ChargerManager.request_charger, h]
  · intro c rest h
    simp [ChargerManager.request_charger, h, imapLookup_imapInsert_self]

set_option maxRecDepth 10000 in
/-- C5 counterexample: four events with equal scheduled times, inserted in
tag order 0, 1, 2, 3, are dispatched by the queue in the order 0, 2, 1, 3 —
`Event::operator<` carries no insertion sequence number, so equal-time
events are *not* popped earlier-inserted-first. -/
theorem c5_counterexample_ties_not_fifo :
    (pop_order 4 (heap_push_all
        [tied_event 0, tied_event 1, tied_event 2, tied_event 3])).map
          (fun e => e.data.aircraft_id)
      = [0, 2, 1, 3] ∧
    [(0 : Int), 2, 1, 3] ≠ [0, 1, 2, 3] ∧
    eventLess (tied_event 0) (tied_event 1) = false ∧
    eventLess (tied_event 1) (tied_event 0) = false :=
  of_decide_eq_true (by with_unfolding_all rfl)

/-- C9 counterexample: with draws `u1 = 0, u2 = 0` on an Alpha (fault rate
`1/4 > 0`) and a 1-hour flight, the sampler reports a fault (`u1 < 1/4·1`)
at time `u2 · 1 = 0` — a reported fault time that is *not* positive, against
the claim's "is positive". -/
theorem c9_counterexample_fault_time_zero :
    (check_fault_during_flight alpha0 1 (fun _ => 0) 0).1 = 0 ∧
    0 ≤ (check_fault_during_flight alpha0 1 (fun _ => 0) 0).1 ∧
    ¬ 0 < (check_fault_during_flight alpha0 1 (fun _ => 0) 0).1 :=
  of_decide_eq_true (by with_unfolding_all rfl)

/-- C9 (amended): for fault rate `r` and flight duration `d > 0`, with the
stream supplying uniform draws `u1` (at the read index) and `u2` (next), the
sampler reports a fault — a nonnegative return, as its caller tests — iff
`u1 < r·d`, equivalently iff `u1 < min 1 (r·d)` (a single Bernoulli draw);
when it does, the returned time into the flight equals `u2·d` and lies in
`[0, d)` — nonnegative but possibly exactly 0, not strictly positive; and
with `r ≤ 0` it never reports a fault. -/
theorem c9_fault_sampler_bernoulli (a : AircraftState) (d : ℚ) (draws : ℕ → ℚ)
    (k : ℕ) (hd : 0 < d) (hu1l : 0 ≤ draws k) (hu1u : draws k < 1)
    (hu2l : 0 ≤ draws (k + 1)) (hu2u : draws (k + 1) < 1) :
    (fault_probability_per_hour a.ty ≤ 0 →
      (check_fault_during_flight a d draws k).1 = -1) ∧
    (0 < fault_probability_per_hour a.ty →
      ((0 ≤ (check_fault_during_flight a d draws k).1 ↔
          draws k < fault_probability_per_hour a.ty * d) ∧
       (0 ≤ (check_fault_during_flight a d draws k).1 ↔
          draws k < min 1 (fault_probability_per_hour a.ty * d)) ∧
       (draws k < fault_probability_per_hour a.ty * d →
          (check_fault_during_flight a d draws k).1 = draws (k + 1) * d ∧
          0 ≤ (check_fault_during_flight a d draws k).1 ∧
          (check_fault_during_flight a d draws k).1 < d))) := by
  constructor
  · intro hr
    simp [check_fault_during_flight, hr]
  · intro hr
    have hnr : ¬ fault_probability_per_hour a.ty ≤ 0 := not_le.mpr hr
    constructor
    · by_cases hb : draws k < fault_probability_per_hour a.ty * d
      · simp only [check_fault_during_flight, if_neg hnr, if_pos hb]
        constructor
        · intro _; exact hb
        · intro _; exact mul_nonneg hu2l hd.le
      · simp only [check_fault_during_flight, if_neg hnr, if_neg hb]
        constructor
        · intro h; norm_num at h
        · intro h; exact absurd h hb
    constructor
    · by_cases hb : draws k < fault_probability_per_hour a.ty * d
      · simp only [check_fault_during_flight, if_neg hnr, if_pos hb]
        constructor
        · intro _; exact lt_min (by linarith) hb
        · intro _; exact mul_nonneg hu2l hd.le
      · simp only [check_fault_during_flight, if_neg hnr, if_neg hb]
        constructor
        · intro h; norm_num at h
        · intro h; exact absurd (h.trans_le (min_le_right _ _)) hb
    · intro hb
      have heq : (check_fault_during_flight a d draws k).1 = draws (k + 1) * d := by
        simp [check_fault_during_flight, hnr, hb]
      refine ⟨heq, ?_, ?_⟩
      · rw [heq]; exact mul_nonneg hu2l hd.le
      · rw [heq]
        calc draws (k + 1) * d < 1 * d := mul_lt_mul_of_pos_right hu2u hd
          _ = d := one_mul d

theorem statsOp_preserves_partial_within_total {s : FlightStats} {op : StatsOp}
    (hop : op.Nonneg) (hs : PartialWithinTotal s) : PartialWithinTotal (op.apply s) := by
  obtain ⟨h1, h2, h3, h4, h5, h6⟩ := hs
  cases op with
  | flight ft d p =>
      obtain ⟨hft, hd, hp⟩ := hop
      have hpd : (0 : ℚ) ≤ (p : ℚ) * d :=
        mul_nonneg (by exact_mod_cast hp) hd
      refine ⟨?_, ?_, ?_, ?_, ?_, ?_⟩ <;>
        simp only [StatsOp.apply, FlightStats.add_flight] <;> linarith
  | chargeSession ct wt =>
      obtain ⟨hct, hwt⟩ := hop
      refine ⟨?_, ?_, ?_, ?_, ?_, ?_⟩ <;>
        simp only [StatsOp.apply, FlightStats.add_charge_session] <;> linarith
  | waitingTime wt =>
      refine ⟨?_, ?_, ?_, ?_, ?_, ?_⟩ <;>
        simp only [StatsOp.apply, FlightStats.add_waiting_time] <;> linarith
  | fault =>
      refine ⟨?_, ?_, ?_, ?_, ?_, ?_⟩ <;>
        simp only [StatsOp.apply, FlightStats.add_fault] <;> linarith
  | partialFlight ft d p =>
      refine ⟨?_, ?_, ?_, ?_, ?_, ?_⟩ <;>
        simp only [StatsOp.apply, FlightStats.add_partial_flight] <;> linarith
  | partialCharge ct =>
      refine ⟨?_, ?_, ?_, ?_, ?_, ?_⟩ <;>
        simp only [StatsOp.apply, FlightStats.add_partial_charge] <;> linarith

theorem applyOps_preserves_partial_within_total {s : FlightStats} (ops : List StatsOp)
    (h : ∀ op ∈ ops, op.Nonneg) (hs : PartialWithinTotal s) :
    PartialWithinTotal (applyOps s ops) := by
  induction ops generalizing s with
  | nil => exact hs
  | cons op rest ih =>
      exact ih (fun o ho => h o (List.mem_cons_of_mem _ ho))
        (statsOp_preserves_partial_within_total (h op (List.mem_cons_self _ _)) hs)

/-- C8: partial statistics never exceed the totals.  Every `FlightStats`
record a run produces is `applyOps` of some trace of `record_*` calls with
nonnegative arguments starting from the zero record; for every such trace,
`partial_flight_hours ≤ total_flight_hours`,
`partial_miles ≤ total_miles`, `partial_charge_hours ≤ total_charge_hours`,
`partial_passenger_miles ≤ total_passenger_miles`,
`partial_flight_count ≤ flight_count` and
`partial_charge_count ≤ charge_count` — because the partial recorders add
the same quantities to both the partial fields and the totals and increment
both counters, while the others only grow the totals. -/
theorem c8_partial_within_total (ops : List StatsOp)
    (h : ∀ op ∈ ops, op.Nonneg) : PartialWithinTotal (applyOps {} ops) :=
  applyOps_preserves_partial_within_total ops h
    ⟨le_refl 0, le_refl 0, le_refl 0, le_refl 0, le_refl 0, le_refl 0⟩

/-- Witness for C8 on a concrete trace: a completed flight, a charge with
waiting, a fault, a partial flight and a partial charge. -/
theorem c8_witness :
    PartialWithinTotal (applyOps {}
      [.flight (5/3) 200 4, .chargeSession (3/5) (1/5), .fault,
       .partialFlight (1/3) 40 4, .partialCharge (1/3)]) :=
  c8_partial_within_total _ (by
    intro op hop
    rcases List.mem_cons.mp hop with rfl | hop
    · exact ⟨by norm_num, by norm_num, by norm_num⟩
    rcases List.mem_cons.mp hop with rfl | hop
    · exact ⟨by norm_num, by norm_num⟩
    rcases List.mem_cons.mp hop with rfl | hop
    · exact trivial
    rcases List.mem_cons.mp hop with rfl | hop
    · exact ⟨by norm_num, by norm_num, by norm_num⟩
    rcases List.mem_cons.mp hop with rfl | hop
    · exact (by norm_num : (0:ℚ) ≤ 1/3)
    · cases hop)

/-- Witness for C9 on an Alpha with a 1-hour flight and draws `0.2, 0.5`:
the fault is reported (`0.2 < 1/4`) at time `1/2 ∈ [0, 1)`. -/
theorem c9_witness :
    (check_fault_during_flight alpha0 1 (fun n => if n = 0 then 1/5 else 1/2) 0).1
        = 1/2 ∧
    0 ≤ (check_fault_during_flight alpha0 1 (fun n => if n = 0 then 1/5 else 1/2) 0).1 ∧
    (check_fault_during_flight alpha0 1 (fun n => if n = 0 then 1/5 else 1/2) 0).1 < 1 := by
  have h := c9_fault_sampler_bernoulli alpha0 1
      (fun n => if n = 0 then 1/5 else 1/2) 0 (by norm_num) (by norm_num)
      (by norm_num) (by norm_num) (by norm_num)
  have hb : (fun n => if n = 0 then (1:ℚ)/5 else 1/2) 0 <
      fault_probability_per_hour alpha0.ty * 1 := by
    norm_num [alpha0, fault_probability_per_hour]
  have hr : (0:ℚ) < fault_probability_per_hour alpha0.ty := by
    norm_num [alpha0, fault_probability_per_hour]
  obtain ⟨heq, hge, hlt⟩ := (h.2 hr).2.2 hb
  refine ⟨by rw [heq]; norm_num, hge, hlt⟩

end Evtol

namespace Evtol

theorem getE_set_self (a : List SimEvent) (i : ℕ) (x : SimEvent) (h : i < a.length) :
    getE (a.set i x) i = x := by
  simp [getE, List.getD_eq_getElem?_getD, List.getElem?_set_self', List.getElem?_eq_getElem h]

theorem getE_set_ne (a : List SimEvent) (i j : ℕ) (x : SimEvent) (h : i ≠ j) :
    getE (a.set i x) j = getE a j := by
  simp [getE, List.getD_eq_getElem?_getD, List.getElem?_set_ne h]

theorem getE_mem (a : List SimEvent) (i : ℕ) (h : i < a.length) : getE a i ∈ a := by
  rw [getE, List.getD_eq_getElem?_getD, List.getElem?_eq_getElem h]
  exact List.getElem_mem h

theorem getE_append_lt (q : List SimEvent) (e : SimEvent) (i : ℕ) (h : i < q.length) :
    getE (q ++ [e]) i = getE q i := by
  simp [getE, List.getD_eq_getElem?_getD, List.getElem?_append_left h]

theorem getE_take (a : List SimEvent) (m i : ℕ) (h : i < m) :
    getE (a.take m) i = getE a i := by
  by_cases hi : i < a.length
  · simp [getE, List.getD_eq_getElem?_getD, List.getElem?_take_of_lt h]
  · have h1 : a.length ≤ i := Nat.le_of_not_lt hi
    have h2 : (a.take m).length ≤ i := le_trans (by simp [List.length_take]; omega) (le_refl i)
    simp [getE, List.getD_eq_getElem?_getD, List.getElem?_eq_none h1,
      List.getElem?_eq_none h2]

/-- Sift-up (`__push_heap` with `topIndex = 0`): starting from a hole below
`len` in a list that is a heap except at the hole, with the sifted value and
the hole's parent both dominating the hole's children, the result is a heap
up to `len`, of unchanged length, whose elements are the old ones plus the
value. -/
theorem push_heap_loop_spec : ∀ (fuel : ℕ) (a : List SimEvent) (hole : ℕ)
    (value : SimEvent) (len : ℕ),
    hole < len → len ≤ a.length → hole + 1 ≤ fuel →
    (∀ i, 0 < i → i < len → i ≠ hole →
      (getE a ((i - 1) / 2)).time_hours ≤ (getE a i).time_hours) →
    (∀ c, 0 < c → c < len → (c - 1) / 2 = hole →
      value.time_hours ≤ (getE a c).time_hours) →
    (∀ c, 0 < c → c < len → (c - 1) / 2 = hole → 0 < hole →
      (getE a ((hole - 1) / 2)).time_hours ≤ (getE a c).time_hours) →
    (push_heap_loop fuel a hole 0 value).length = a.length ∧
    HeapUpTo (push_heap_loop fuel a hole 0 value) len ∧
    (∀ x ∈ push_heap_loop fuel a hole 0 value, x = value ∨ x ∈ a) := by
  intro fuel
  induction fuel with
  | zero => intro a hole value len h1 h2 h3; omega
  | succ n ih =>
      intro a hole value len hlt hlen hfuel ha hb hc
      by_cases hcond : 0 < hole ∧ eventLess (getE a ((hole - 1) / 2)) value
      · rw [push_heap_loop, if_pos hcond]
        obtain ⟨hpos, hless⟩ := hcond
        have hplt : (hole - 1) / 2 < hole := by omega
        set ph := (hole - 1) / 2 with hph
        set pv := getE a ph with hpv
        have hlt' : ph < len := lt_trans hplt hlt
        have hlen' : len ≤ (a.set hole pv).length := by
          rw [List.length_set]; exact hlen
        have hvlt : value.time_hours < pv.time_hours := by
          simpa [eventLess, hpv] using hless
        have hsetph : getE (a.set hole pv) ph = getE a ph :=
          getE_set_ne a hole ph pv (by omega)
        have hsethole : getE (a.set hole pv) hole = pv :=
          getE_set_self a hole pv (lt_of_lt_of_le hlt hlen)
        have hHa : ∀ i, 0 < i → i < len → i ≠ ph →
            (getE (a.set hole pv) ((i - 1) / 2)).time_hours
              ≤ (getE (a.set hole pv) i).time_hours := by
          intro i hi0 hilen hiph
          by_cases hih : i = hole
          · subst hih
            rw [hsethole]
            rw [show (i - 1) / 2 = ph from rfl] at *
            rw [hsetph]
          · have hgi : getE (a.set hole pv) i = getE a i :=
              getE_set_ne a hole i pv (fun h => hih h.symm)
            by_cases hpih : (i - 1) / 2 = hole
            · rw [hgi, hpih, hsethole]
              exact hc i hi0 hilen hpih hpos
            · have : getE (a.set hole pv) ((i - 1) / 2) = getE a ((i - 1) / 2) :=
                getE_set_ne a hole _ pv (fun h => hpih h.symm)
              rw [hgi, this]
              exact ha i hi0 hilen hih
        have hHb : ∀ c, 0 < c → c < len → (c - 1) / 2 = ph →
            value.time_hours ≤ (getE (a.set hole pv) c).time_hours := by
          intro c hc0 hclen hcp
          by_cases hch : c = hole
          · subst hch
            rw [hsethole]
            exact le_of_lt hvlt
          · have hgc : getE (a.set hole pv) c = getE a c :=
              getE_set_ne a hole c pv (fun h => hch h.symm)
            rw [hgc]
            have hpair : pv.time_hours ≤ (getE a c).time_hours := by
              have := ha c hc0 hclen hch
              rwa [hcp] at this
            exact le_trans (le_of_lt hvlt) hpair
        have hHc : ∀ c, 0 < c → c < len → (c - 1) / 2 = ph → 0 < ph →
            (getE (a.set hole pv) ((ph - 1) / 2)).time_hours
              ≤ (getE (a.set hole pv) c).time_hours := by
          intro c hc0 hclen hcp hpp
          have hgph : getE (a.set hole pv) ((ph - 1) / 2) = getE a ((ph - 1) / 2) :=
            getE_set_ne a hole _ pv (by omega)
          have hgp : (getE a ((ph - 1) / 2)).time_hours ≤ pv.time_hours := by
            have := ha ph hpp hlt' (by omega)
            rwa [← hpv] at this
          by_cases hch : c = hole
          · subst hch
            rw [hgph, hsethole]
            exact hgp
          · have hgc : getE (a.set hole pv) c = getE a c :=
              getE_set_ne a hole c pv (fun h => hch h.symm)
            rw [hgph, hgc]
            have hpair : pv.time_hours ≤ (getE a c).time_hours := by
              have := ha c hc0 hclen hch
              rwa [hcp] at this
            exact le_trans hgp hpair
        obtain ⟨hL, hH, hM⟩ := ih (a.set hole pv) ph value len hlt' hlen' (by omega)
          hHa hHb hHc
        refine ⟨by rwa [List.length_set] at hL, hH, ?_⟩
        intro x hx
        rcases hM x hx with h | h
        · exact Or.inl h
        · rcases List.mem_or_eq_of_mem_set h with h1 | h1
          · exact Or.inr h1
          · rw [h1, hpv]
            exact Or.inr (getE_mem a ph (lt_of_lt_of_le hlt' hlen))
      · rw [push_heap_loop, if_neg hcond]
        have hsetlen : (a.set hole value).length = a.length := List.length_set a hole value
        refine ⟨hsetlen, ?_, ?_⟩
        · intro i hi0 hilen
          have hsethole : getE (a.set hole value) hole = value :=
            getE_set_self a hole value (lt_of_lt_of_le hlt hlen)
          by_cases hih : i = hole
          · subst hih
            have hple : ¬ ((getE a ((i - 1) / 2)).time_hours > value.time_hours) := by
              intro hgt
              exact hcond ⟨hi0, by simp [eventLess, hgt]⟩
            have hgp : getE (a.set i value) ((i - 1) / 2) = getE a ((i - 1) / 2) :=
              getE_set_ne a i _ value (by omega)
            rw [hsethole, hgp]
            exact le_of_not_lt hple
          · have hgi : getE (a.set hole value) i = getE a i :=
              getE_set_ne a hole i value (fun h => hih h.symm)
            by_cases hpih : (i - 1) / 2 = hole
            · rw [hgi, hpih, hsethole]
              exact hb i hi0 hilen hpih
            · have hgp : getE (a.set hole value) ((i - 1) / 2) = getE a ((i - 1) / 2) :=
                getE_set_ne a hole _ value (fun h => hpih h.symm)
              rw [hgi, hgp]
              exact ha i hi0 hilen hih
        · intro x hx
          rcases List.mem_or_eq_of_mem_set hx with hx1 | hx1
          · exact Or.inr hx1
          · exact Or.inl hx1

/-- `priority_queue::push` keeps the heap property and adds exactly the new
element. -/
theorem isHeap_heap_push (q : List SimEvent) (e : SimEvent) (h : IsHeap q) :
    IsHeap (heap_push q e) ∧ (heap_push q e).length = q.length + 1 ∧
    (∀ x ∈ heap_push q e, x = e ∨ x ∈ q) := by
  have hlen : (q ++ [e]).length = q.length + 1 := by simp
  obtain ⟨hL, hH, hM⟩ := push_heap_loop_spec (q.length + 1) (q ++ [e]) q.length e
    (q.length + 1) (by omega) (by omega) (by omega)
    (fun i hi0 hilen hih => by
      have hi : i < q.length := by omega
      have hp : (i - 1) / 2 < q.length := by omega
      rw [getE_append_lt q e i hi, getE_append_lt q e _ hp]
      exact h i hi0 hi)
    (fun c hc0 hclen hcp => by omega)
    (fun c hc0 hclen hcp hp => by omega)
  rw [hlen] at hL
  unfold heap_push IsHeap
  refine ⟨?_, hL, ?_⟩
  · rw [hL]
    exact hH
  · intro x hx
    rcases hM x hx with h1 | h1
    · exact Or.inl h1
    · rcases List.mem_append.mp h1 with h2 | h2
      · exact Or.inr h2
      · exact Or.inl (by simpa using h2)

/-- First phase of `__adjust_heap`: bubbling the hole down along the
not-less child keeps the heap property (the hole always duplicates its
parent), lands strictly below `len` with its exit condition false, and only
rearranges existing elements. -/
theorem adjust_loop_spec : ∀ (fuel : ℕ) (a : List SimEvent) (h len : ℕ),
    h < len → len ≤ a.length → len ≤ fuel + h →
    HeapUpTo a len →
    (h = 0 ∨ getE a ((h - 1) / 2) = getE a h) →
    (adjust_loop fuel a h h len).1.length = a.length ∧
    HeapUpTo (adjust_loop fuel a h h len).1 len ∧
    (adjust_loop fuel a h h len).2.1 = (adjust_loop fuel a h h len).2.2 ∧
    (adjust_loop fuel a h h len).2.2 < len ∧
    ((adjust_loop fuel a h h len).2.2 = 0 ∨
      getE (adjust_loop fuel a h h len).1 (((adjust_loop fuel a h h len).2.2 - 1) / 2)
        = getE (adjust_loop fuel a h h len).1 (adjust_loop fuel a h h len).2.2) ∧
    ¬ ((adjust_loop fuel a h h len).2.2 < (len - 1) / 2) ∧
    (∀ x ∈ (adjust_loop fuel a h h len).1, x ∈ a) := by
  intro fuel
  induction fuel with
  | zero => intro a h len h1 h2 h3; omega
  | succ n ih =>
      intro a h len hlt hlen hfuel hheap hdup
      by_cases hcond : h < (len - 1) / 2
      · rw [adjust_loop]
        simp only [if_pos hcond]
        set s1 := 2 * (h + 1) with hs1
        set s2 := if eventLess (getE a s1) (getE a (s1 - 1)) then s1 - 1 else s1 with hs2
        have hs2cases : s2 = 2 * h + 1 ∨ s2 = 2 * h + 2 := by
          rw [hs2]
          split <;> omega
        have hs2lt : s2 < len := by
          rcases hs2cases with h1 | h1 <;> omega
        have hs2gt : h < s2 := by rcases hs2cases with h1 | h1 <;> omega
        have hs2par : (s2 - 1) / 2 = h := by rcases hs2cases with h1 | h1 <;> omega
        have hchosen : (getE a s2).time_hours ≤ (getE a (2 * h + 1)).time_hours ∧
            (getE a s2).time_hours ≤ (getE a (2 * h + 2)).time_hours := by
          have e1 : s1 = 2 * h + 2 := by omega
          have e2 : s1 - 1 = 2 * h + 1 := by omega
          rw [hs2, e2, e1]
          by_cases hless : eventLess (getE a (2 * h + 2)) (getE a (2 * h + 1))
          · rw [if_pos hless]
            have hlt2 : (getE a (2 * h + 1)).time_hours
                < (getE a (2 * h + 2)).time_hours := by
              simpa [eventLess] using hless
            exact ⟨le_refl _, le_of_lt hlt2⟩
          · rw [if_neg hless]
            have hle2 : (getE a (2 * h + 2)).time_hours
                ≤ (getE a (2 * h + 1)).time_hours := by
              have hnot : ¬ (getE a (2 * h + 1)).time_hours
                  < (getE a (2 * h + 2)).time_hours := by
                simpa [eventLess] using hless
              exact le_of_not_lt hnot
            exact ⟨hle2, le_refl _⟩
        set a2 := a.set h (getE a s2) with ha2
        have ha2len : len ≤ a2.length := by rw [ha2, List.length_set]; exact hlen
        have hga2_h : getE a2 h = getE a s2 :=
          getE_set_self a h _ (lt_of_lt_of_le hlt hlen)
        have hga2_ne : ∀ j, j ≠ h → getE a2 j = getE a j := by
          intro j hj
          exact getE_set_ne a h j _ (fun hh => hj hh.symm)
        have hheap2 : HeapUpTo a2 len := by
          intro i hi0 hilen
          by_cases hih : i = h
          · subst hih
            rcases hdup with hd | hd
            · omega
            · rw [hga2_h, hga2_ne _ (by omega), hd]
              have := hheap s2 (by omega) hs2lt
              rwa [hs2par] at this
          · by_cases hpih : (i - 1) / 2 = h
            · rw [hga2_ne i hih, hpih, hga2_h]
              have hi12 : i = 2 * h + 1 ∨ i = 2 * h + 2 := by omega
              rcases hi12 with h1 | h1
              · rw [h1]; exact hchosen.1
              · rw [h1]; exact hchosen.2
            · rw [hga2_ne i hih, hga2_ne _ (fun hh => hpih hh)]
              exact hheap i hi0 hilen
        have hdup2 : s2 = 0 ∨ getE a2 ((s2 - 1) / 2) = getE a2 s2 := by
          right
          rw [hs2par, hga2_h, hga2_ne s2 (by omega)]
        obtain ⟨hL, hH, hE, hltr, hdupr, hexit, hM⟩ :=
          ih a2 s2 len hs2lt ha2len (by omega) hheap2 hdup2
        refine ⟨by rwa [ha2, List.length_set] at hL, hH, hE, hltr, hdupr, hexit, ?_⟩
        intro x hx
        have := hM x hx
        rcases List.mem_or_eq_of_mem_set this with h1 | h1
        · exact h1
        · rw [h1]
          exact getE_mem a s2 (lt_of_lt_of_le hs2lt hlen)
      · have heq : adjust_loop (n + 1) a h h len = (a, h, h) := by
          rw [adjust_loop]
          simp only [if_neg hcond]
        rw [heq]
        exact ⟨rfl, hheap, rfl, hlt, hdup, hcond, fun x hx => hx⟩

/-- `__adjust_heap` from the root: both descent phases then the sift-up
restore the heap property over the first `len` slots; the result has the old
length and its elements are the old ones plus the sifted value. -/
theorem adjust_heap_spec (a : List SimEvent) (len : ℕ) (value : SimEvent)
    (h0 : 0 < len) (hlen : len ≤ a.length) (hheap : HeapUpTo a len) :
    (adjust_heap a 0 len value).length = a.length ∧
    HeapUpTo (adjust_heap a 0 len value) len ∧
    (∀ x ∈ adjust_heap a 0 len value, x = value ∨ x ∈ a) := by
  obtain ⟨hL, hH, hE, hltr, hdupr, hexit, hM⟩ :=
    adjust_loop_spec len a 0 len h0 hlen (by omega) hheap (Or.inl rfl)
  rw [adjust_heap]
  set t := adjust_loop len a 0 0 len with ht
  set a1 := t.1 with ha1
  set h1 := t.2.1 with hh1
  set s1 := t.2.2 with hs1
  have hE' : h1 = s1 := hE
  by_cases hsp : len % 2 = 0 ∧ s1 = (len - 2) / 2
  · simp only [if_pos hsp]
    obtain ⟨heven, hs1v⟩ := hsp
    set s := 2 * (s1 + 1) with hs
    have hslen : s = len := by omega
    have hs1lt : s - 1 < len := by omega
    have hs1par : (s - 1 - 1) / 2 = s1 := by omega
    have hs1ne : s - 1 ≠ s1 := by omega
    set a2 := a1.set h1 (getE a1 (s - 1)) with ha2
    have ha2len : a2.length = a1.length := List.length_set a1 h1 _
    have hga2_h : getE a2 h1 = getE a1 (s - 1) := by
      rw [ha2]
      exact getE_set_self a1 h1 _ (by omega)
    have hga2_ne : ∀ j, j ≠ h1 → getE a2 j = getE a1 j := by
      intro j hj
      exact getE_set_ne a1 h1 j _ (fun hh => hj hh.symm)
    have hheap2 : HeapUpTo a2 len := by
      intro i hi0 hilen
      by_cases hih : i = h1
      · subst hih
        rcases hdupr with hd | hd
        · omega
        · rw [hga2_h, hga2_ne _ (by rw [hE']; omega), hE', hd]
          have := hH (s - 1) (by omega) hs1lt
          rwa [hs1par] at this
      · by_cases hpih : (i - 1) / 2 = h1
        · rw [hga2_ne i hih, hpih, hga2_h]
          have : i = 2 * s1 + 1 ∨ i = 2 * s1 + 2 := by omega
          rcases this with h2 | h2
          · have : i = s - 1 := by omega
            rw [this]
          · omega
        · rw [hga2_ne i hih, hga2_ne _ (fun hh => hpih hh)]
          exact hH i hi0 hilen
    obtain ⟨hL2, hH2, hM2⟩ := push_heap_loop_spec (s - 1 + 1) a2 (s - 1) value len
      (by omega) (by omega) (by omega)
      (fun i hi0 hilen hih => hheap2 i hi0 hilen)
      (fun c hc0 hclen hcp => by omega)
      (fun c hc0 hclen hcp hp => by omega)
    refine ⟨by rw [hL2, ha2len, hL], hH2, ?_⟩
    intro x hx
    rcases hM2 x hx with hx1 | hx1
    · exact Or.inl hx1
    · rcases List.mem_or_eq_of_mem_set hx1 with hx2 | hx2
      · exact Or.inr (hM x hx2)
      · rw [hx2]
        exact Or.inr (hM _ (getE_mem a1 (s - 1) (by omega)))
  · simp only [if_neg hsp]
    have hchildless : ∀ c, 0 < c → c < len → (c - 1) / 2 ≠ h1 := by
      intro c hc0 hclen
      rw [hE']
      intro hcp
      rcases Nat.lt_or_ge len 2 with hl2 | hl2
      · omega
      · have : c = 2 * s1 + 1 ∨ c = 2 * s1 + 2 := by omega
        have hnsp : ¬ (len % 2 = 0 ∧ s1 = (len - 2) / 2) := hsp
        omega
    obtain ⟨hL2, hH2, hM2⟩ := push_heap_loop_spec (h1 + 1) a1 h1 value len
      (by rw [hE']; exact hltr) (by omega) (by omega)
      (fun i hi0 hilen hih => hH i hi0 hilen)
      (fun c hc0 hclen hcp => absurd hcp (hchildless c hc0 hclen))
      (fun c hc0 hclen hcp hp => absurd hcp (hchildless c hc0 hclen))
    refine ⟨by rw [hL2, hL], hH2, ?_⟩
    intro x hx
    rcases hM2 x hx with hx1 | hx1
    · exact Or.inl hx1
    · exact Or.inr (hM x hx1)

/-- `priority_queue::pop` keeps the heap property and removes elements only. -/
theorem isHeap_heap_pop (q : List SimEvent) (h : IsHeap q) :
    IsHeap (heap_pop q) ∧ (∀ x ∈ heap_pop q, x ∈ q) := by
  match q with
  | [] =>
      refine ⟨?_, ?_⟩
      · intro i hi0 hilen
        simp [heap_pop] at hilen
      · intro x hx
        simp [heap_pop] at hx
  | [e] =>
      refine ⟨?_, ?_⟩
      · intro i hi0 hilen
        simp [heap_pop] at hilen
      · intro x hx
        simp [heap_pop] at hx
  | e1 :: e2 :: rest =>
      set q2 : List SimEvent := e1 :: e2 :: rest with hq2
      set n := rest.length with hn
      have hq2len : q2.length = n + 2 := by simp [hq2, hn]
      have hpop : heap_pop q2 =
          (adjust_heap (q2.set (n + 1) (getE q2 0)) 0 (n + 1)
            (getE q2 (n + 1))).take (n + 1) := rfl
      rw [hpop]
      set value := getE q2 (n + 1) with hvalue
      set a := q2.set (n + 1) (getE q2 0) with ha
      have halen : a.length = n + 2 := by rw [ha, List.length_set, hq2len]
      have hheapa : HeapUpTo a (n + 1) := by
        intro i hi0 hilen
        have h1 : getE a i = getE q2 i := by
          rw [ha]
          exact getE_set_ne q2 (n + 1) i _ (by omega)
        have h2 : getE a ((i - 1) / 2) = getE q2 ((i - 1) / 2) := by
          rw [ha]
          exact getE_set_ne q2 (n + 1) _ _ (by omega)
        rw [h1, h2]
        exact h i hi0 (by omega)
      obtain ⟨hL, hH, hM⟩ := adjust_heap_spec a (n + 1) value (by omega) (by omega) hheapa
      constructor
      · intro i hi0 hilen
        have htlen : ((adjust_heap a 0 (n + 1) value).take (n + 1)).length = n + 1 := by
          rw [List.length_take, hL, halen]
          omega
        rw [htlen] at hilen
        rw [getE_take _ _ _ hilen, getE_take _ _ _ (by omega : (i - 1) / 2 < n + 1)]
        exact hH i hi0 hilen
      · intro x hx
        have hx1 : x ∈ adjust_heap a 0 (n + 1) value := List.take_subset _ _ hx
        rcases hM x hx1 with h1 | h1
        · rw [h1, hvalue]
          exact getE_mem q2 (n + 1) (by omega)
        · rcases List.mem_or_eq_of_mem_set (by rwa [ha] at h1) with h2 | h2
          · exact h2
          · rw [h2]
            exact getE_mem q2 0 (by omega)

/-- In a heap the top's time is minimal. -/
theorem isHeap_top_le (q : List SimEvent) (h : IsHeap q) :
    ∀ x ∈ q, (heap_top q).time_hours ≤ x.time_hours := by
  have haux : ∀ i, i < q.length → (getE q 0).time_hours ≤ (getE q i).time_hours := by
    intro i
    induction i using Nat.strong_induction_on with
    | _ i ih =>
        intro hi
        rcases Nat.eq_zero_or_pos i with h0 | h0
        · rw [h0]
        · have hp : (i - 1) / 2 < i := by omega
          exact le_trans (ih _ hp (lt_trans hp hi)) (h i h0 hi)
  intro x hx
  obtain ⟨i, hi, rfl⟩ := List.mem_iff_getElem.mp hx
  have : getE q i = q[i] := by
    rw [getE, List.getD_eq_getElem?_getD, List.getElem?_eq_getElem hi]
    rfl
  rw [heap_top, ← this]
  exact haux i hi

/-- Everything the dispatch order lists is (or was) in the queue. -/
theorem pop_order_subset : ∀ (n : ℕ) (q : List SimEvent), IsHeap q →
    ∀ x ∈ pop_order n q, x ∈ q := by
  intro n
  induction n with
  | zero => intro q _ x hx; simp [pop_order] at hx
  | succ m ih =>
      intro q hq x hx
      match q, hx with
      | [], hx => simp [pop_order] at hx
      | e :: rest, hx =>
          have hpo : pop_order (m + 1) (e :: rest)
              = heap_top (e :: rest) :: pop_order m (heap_pop (e :: rest)) := rfl
          rw [hpo] at hx
          rcases List.mem_cons.mp hx with h1 | h1
          · rw [h1, heap_top]
            exact getE_mem _ 0 (by simp)
          · obtain ⟨hpopheap, hpopmem⟩ := isHeap_heap_pop (e :: rest) hq
            exact hpopmem x (ih (heap_pop (e :: rest)) hpopheap x h1)

/-- The dispatch order is nondecreasing in scheduled time. -/
theorem pop_order_pairwise : ∀ (n : ℕ) (q : List SimEvent), IsHeap q →
    List.Pairwise (fun x y => x.time_hours ≤ y.time_hours) (pop_order n q) := by
  intro n
  induction n with
  | zero => intro q _; simp [pop_order]
  | succ m ih =>
      intro q hq
      match q with
      | [] => simp [pop_order]
      | e :: rest =>
          have hpo : pop_order (m + 1) (e :: rest)
              = heap_top (e :: rest) :: pop_order m (heap_pop (e :: rest)) := rfl
          rw [hpo]
          obtain ⟨hpopheap, hpopmem⟩ := isHeap_heap_pop (e :: rest) hq
          refine List.Pairwise.cons ?_ (ih _ hpopheap)
          intro y hy
          exact isHeap_top_le (e :: rest) hq y
            (hpopmem y (pop_order_subset m _ hpopheap y hy))

/-- Pushing a batch starting from the empty queue yields a heap. -/
theorem isHeap_heap_push_all (evs : List SimEvent) : IsHeap (heap_push_all evs) := by
  rw [heap_push_all]
  have : ∀ q, IsHeap q → IsHeap (evs.foldl heap_push q) := by
    induction evs with
    | nil => intro q hq; exact hq
    | cons e rest ih =>
        intro q hq
        exact ih _ (isHeap_heap_push q e hq).1
  exact this [] (by intro i hi0 hilen; simp at hilen)

/-- C5 (amended): the event queue pops events in ascending scheduled-time
order — for any batch of events inserted from empty, every dispatch order
prefix is nondecreasing in `time_hours` — but ties between equal-time events
are resolved by the binary-heap layout of `std::priority_queue`, not by an
insertion sequence number (`Event::operator<` compares times only), so
equal-time events need not pop in insertion order. -/
theorem c5_pops_in_ascending_time_order (evs : List SimEvent) (n : ℕ) :
    List.Pairwise (fun x y => x.time_hours ≤ y.time_hours)
      (pop_order n (heap_push_all evs)) :=
  pop_order_pairwise n (heap_push_all evs) (isHeap_heap_push_all evs)

theorem list_set_perm (a : List SimEvent) (i : ℕ) (x : SimEvent) (h : i < a.length) :
    (↑(a.set i x) : Multiset SimEvent) + {getE a i} = ↑a + {x} := by
  have hgi : getE a i = a[i] := by
    rw [getE, List.getD_eq_getElem?_getD, List.getElem?_eq_getElem h]
    rfl
  rw [List.set_eq_take_append_cons_drop, if_pos h, hgi]
  conv_rhs =>
    rw [show a = a.take i ++ a[i] :: a.drop (i + 1) by
      conv_lhs => rw [← List.take_append_drop i a]
      rw [List.drop_eq_getElem_cons h]]
  simp only [← Multiset.coe_add, ← Multiset.cons_coe]
  simp only [← Multiset.singleton_add, ← Multiset.coe_add]
  abel

/-- Untouched-region and element-accounting for the sift-up: positions at or
above `bound` (with the hole below it) are unchanged, and the result plus
the hole's old content is the input plus the value. -/
theorem push_heap_loop_maps : ∀ (fuel : ℕ) (a : List SimEvent) (hole : ℕ)
    (value : SimEvent),
    hole < a.length → hole + 1 ≤ fuel →
    (↑(push_heap_loop fuel a hole 0 value) : Multiset SimEvent) + {getE a hole}
        = ↑a + {value} ∧
    (∀ j, hole < j → getE (push_heap_loop fuel a hole 0 value) j = getE a j) := by
  intro fuel
  induction fuel with
  | zero => intro a hole value h1 h2; omega
  | succ n ih =>
      intro a hole value hlt hfuel
      by_cases hcond : 0 < hole ∧ eventLess (getE a ((hole - 1) / 2)) value
      · rw [push_heap_loop, if_pos hcond]
        obtain ⟨hpos, _⟩ := hcond
        set ph := (hole - 1) / 2 with hph
        set pv := getE a ph with hpv
        have hplt : ph < hole := by omega
        have hlen2 : ph < (a.set hole pv).length := by
          rw [List.length_set]; omega
        obtain ⟨hperm, huntouched⟩ := ih (a.set hole pv) ph value hlen2 (by omega)
        have hgph : getE (a.set hole pv) ph = getE a ph :=
          getE_set_ne a hole ph pv (by omega)
        constructor
        · have hset : (↑(a.set hole pv) : Multiset SimEvent) + {getE a hole}
              = ↑a + {pv} := list_set_perm a hole pv hlt
          have hmid : (↑(push_heap_loop n (a.set hole pv) ph 0 value) : Multiset SimEvent)
                + {pv} + {getE a hole}
              = ↑a + {pv} + {value} := by
            calc (↑(push_heap_loop n (a.set hole pv) ph 0 value) : Multiset SimEvent)
                  + {pv} + {getE a hole}
                = ↑(push_heap_loop n (a.set hole pv) ph 0 value)
                    + {getE (a.set hole pv) ph} + {getE a hole} := by rw [hgph, ← hpv]
              _ = ↑(a.set hole pv) + {value} + {getE a hole} := by rw [hperm]
              _ = ↑(a.set hole pv) + {getE a hole} + {value} := by abel
              _ = ↑a + {pv} + {value} := by rw [hset]
          have h2 : (↑(push_heap_loop n (a.set hole pv) ph 0 value) : Multiset SimEvent)
                + {getE a hole} + {pv} = ↑a + {value} + {pv} := by
            calc (↑(push_heap_loop n (a.set hole pv) ph 0 value) : Multiset SimEvent)
                  + {getE a hole} + {pv}
                = ↑(push_heap_loop n (a.set hole pv) ph 0 value) + {pv} + {getE a hole} := by
                  abel
              _ = ↑a + {pv} + {value} := hmid
              _ = ↑a + {value} + {pv} := by abel
          exact add_right_cancel h2
        · intro j hj
          rw [huntouched j (by omega)]
          exact getE_set_ne a hole j pv (by omega)
      · rw [push_heap_loop, if_neg hcond]
        constructor
        · exact list_set_perm a hole value hlt
        · intro j hj
          exact getE_set_ne a hole j value (by omega)

/-- Element accounting for the hole-descent phase: the array plus its
original hole content equals the input plus the final hole's content, the
hole stays below `len`, and positions at or beyond `len` are unchanged. -/
theorem adjust_loop_maps : ∀ (fuel : ℕ) (a : List SimEvent) (h len : ℕ),
    h < len → len ≤ a.length →
    (↑(adjust_loop fuel a h h len).1 : Multiset SimEvent) + {getE a h}
        = ↑a + {getE (adjust_loop fuel a h h len).1 (adjust_loop fuel a h h len).2.1} ∧
    (adjust_loop fuel a h h len).2.1 < len ∧
    (∀ j, len ≤ j → getE (adjust_loop fuel a h h len).1 j = getE a j) ∧
    (adjust_loop fuel a h h len).1.length = a.length ∧
    (adjust_loop fuel a h h len).2.1 = (adjust_loop fuel a h h len).2.2 := by
  intro fuel
  induction fuel with
  | zero => intro a h len hlt hlen; exact ⟨rfl, hlt, fun j _ => rfl, rfl, rfl⟩
  | succ n ih =>
      intro a h len hlt hlen
      by_cases hcond : h < (len - 1) / 2
      · rw [adjust_loop]
        simp only [if_pos hcond]
        set s1 := 2 * (h + 1) with hs1
        set s2 := if eventLess (getE a s1) (getE a (s1 - 1)) then s1 - 1 else s1 with hs2
        have hs2cases : s2 = 2 * h + 1 ∨ s2 = 2 * h + 2 := by
          rw [hs2]
          split <;> omega
        have hs2lt : s2 < len := by rcases hs2cases with h1 | h1 <;> omega
        have hs2ne : s2 ≠ h := by rcases hs2cases with h1 | h1 <;> omega
        set a2 := a.set h (getE a s2) with ha2
        have ha2len : a2.length = a.length := List.length_set a h _
        obtain ⟨hperm, hhole, huntouched, hL, hE2⟩ := ih a2 s2 len hs2lt (by omega)
        have hga2s2 : getE a2 s2 = getE a s2 :=
          getE_set_ne a h s2 _ (fun hh => hs2ne hh.symm)
        have hset : (↑a2 : Multiset SimEvent) + {getE a h} = ↑a + {getE a s2} :=
          list_set_perm a h (getE a s2) (by omega)
        refine ⟨?_, hhole, ?_, by rw [hL, ha2len], hE2⟩
        · rw [hga2s2] at hperm
          have hmid : (↑(adjust_loop n a2 s2 s2 len).1 : Multiset SimEvent)
                + {getE a s2} + {getE a h}
              = ↑a + {getE a s2}
                + {getE (adjust_loop n a2 s2 s2 len).1 (adjust_loop n a2 s2 s2 len).2.1} := by
            calc (↑(adjust_loop n a2 s2 s2 len).1 : Multiset SimEvent)
                  + {getE a s2} + {getE a h}
                = ↑a2 + {getE (adjust_loop n a2 s2 s2 len).1
                    (adjust_loop n a2 s2 s2 len).2.1} + {getE a h} := by rw [hperm]
              _ = ↑a2 + {getE a h} + {getE (adjust_loop n a2 s2 s2 len).1
                    (adjust_loop n a2 s2 s2 len).2.1} := by abel
              _ = ↑a + {getE a s2} + {getE (adjust_loop n a2 s2 s2 len).1
                    (adjust_loop n a2 s2 s2 len).2.1} := by rw [hset]
          have h2 : (↑(adjust_loop n a2 s2 s2 len).1 : Multiset SimEvent)
                + {getE a h} + {getE a s2}
              = ↑a + {getE (adjust_loop n a2 s2 s2 len).1
                  (adjust_loop n a2 s2 s2 len).2.1} + {getE a s2} := by
            calc (↑(adjust_loop n a2 s2 s2 len).1 : Multiset SimEvent)
                  + {getE a h} + {getE a s2}
                = ↑(adjust_loop n a2 s2 s2 len).1 + {getE a s2} + {getE a h} := by abel
              _ = ↑a + {getE a s2} + {getE (adjust_loop n a2 s2 s2 len).1
                    (adjust_loop n a2 s2 s2 len).2.1} := hmid
              _ = ↑a + {getE (adjust_loop n a2 s2 s2 len).1
                    (adjust_loop n a2 s2 s2 len).2.1} + {getE a s2} := by abel
          exact add_right_cancel h2
        · intro j hj
          rw [huntouched j hj]
          exact getE_set_ne a h j _ (by omega)
      · have heq : adjust_loop (n + 1) a h h len = (a, h, h) := by
          rw [adjust_loop]
          simp only [if_neg hcond]
        rw [heq]
        exact ⟨rfl, hlt, fun j _ => rfl, rfl, rfl⟩

theorem push_heap_loop_length : ∀ (fuel : ℕ) (a : List SimEvent) (hole top : ℕ)
    (value : SimEvent), (push_heap_loop fuel a hole top value).length = a.length := by
  intro fuel
  induction fuel with
  | zero => intro a hole top value; exact List.length_set a hole value
  | succ n ih =>
      intro a hole top value
      rw [push_heap_loop]
      split
      · rw [ih, List.length_set]
      · exact List.length_set a hole value

/-- Element accounting for `__adjust_heap` from the root. -/
theorem adjust_heap_maps (a : List SimEvent) (len : ℕ) (value : SimEvent)
    (h0 : 0 < len) (hlen : len ≤ a.length) :
    (↑(adjust_heap a 0 len value) : Multiset SimEvent) + {getE a 0} = ↑a + {value} ∧
    (∀ j, len ≤ j → getE (adjust_heap a 0 len value) j = getE a j) ∧
    (adjust_heap a 0 len value).length = a.length := by
  obtain ⟨hperm, hhole, huntouched, hL, hE⟩ := adjust_loop_maps len a 0 len h0 hlen
  rw [adjust_heap]
  set t := adjust_loop len a 0 0 len with ht
  set a1 := t.1 with ha1
  set h1 := t.2.1 with hh1
  by_cases hsp : len % 2 = 0 ∧ t.2.2 = (len - 2) / 2
  · simp only [if_pos hsp]
    obtain ⟨heven, hs1v⟩ := hsp
    have hh1v : h1 = (len - 2) / 2 := by omega
    have hlen2 : 2 ≤ len := by omega
    set s := 2 * (t.2.2 + 1) with hs
    have hsv : s = len := by omega
    have hs1lt : s - 1 < len := by omega
    have hs1ne : s - 1 ≠ h1 := by omega
    set a2 := a1.set h1 (getE a1 (s - 1)) with ha2
    have ha2len : a2.length = a1.length := List.length_set a1 h1 _
    have hga2 : getE a2 (s - 1) = getE a1 (s - 1) :=
      getE_set_ne a1 h1 (s - 1) _ (fun hh => hs1ne hh.symm)
    have hset : (↑a2 : Multiset SimEvent) + {getE a1 h1} = ↑a1 + {getE a1 (s - 1)} :=
      list_set_perm a1 h1 _ (by omega)
    obtain ⟨hperm3, huntouched3⟩ := push_heap_loop_maps (s - 1 + 1) a2 (s - 1) value
      (by omega) (by omega)
    rw [hga2] at hperm3
    refine ⟨?_, ?_, ?_⟩
    · have step1 : (↑(push_heap_loop (s - 1 + 1) a2 (s - 1) 0 value) : Multiset SimEvent)
          + {getE a1 (s - 1)} + {getE a1 h1} + {getE a 0}
          = ↑a + {getE a1 h1} + {getE a1 (s - 1)} + {value} := by
        calc (↑(push_heap_loop (s - 1 + 1) a2 (s - 1) 0 value) : Multiset SimEvent)
              + {getE a1 (s - 1)} + {getE a1 h1} + {getE a 0}
            = ↑a2 + {value} + {getE a1 h1} + {getE a 0} := by rw [hperm3]
          _ = ↑a2 + {getE a1 h1} + {value} + {getE a 0} := by abel
          _ = ↑a1 + {getE a1 (s - 1)} + {value} + {getE a 0} := by rw [hset]
          _ = ↑a1 + {getE a 0} + {getE a1 (s - 1)} + {value} := by abel
          _ = ↑a + {getE a1 h1} + {getE a1 (s - 1)} + {value} := by rw [hperm]
      have step2 : (↑(push_heap_loop (s - 1 + 1) a2 (s - 1) 0 value) : Multiset SimEvent)
          + {getE a 0} + ({getE a1 (s - 1)} + {getE a1 h1})
          = ↑a + {value} + ({getE a1 (s - 1)} + {getE a1 h1}) := by
        calc (↑(push_heap_loop (s - 1 + 1) a2 (s - 1) 0 value) : Multiset SimEvent)
              + {getE a 0} + ({getE a1 (s - 1)} + {getE a1 h1})
            = ↑(push_heap_loop (s - 1 + 1) a2 (s - 1) 0 value)
                + {getE a1 (s - 1)} + {getE a1 h1} + {getE a 0} := by abel
          _ = ↑a + {getE a1 h1} + {getE a1 (s - 1)} + {value} := step1
          _ = ↑a + {value} + ({getE a1 (s - 1)} + {getE a1 h1}) := by abel
      exact add_right_cancel step2
    · intro j hj
      rw [huntouched3 j (by omega)]
      rw [ha2]
      rw [getE_set_ne a1 h1 j _ (by omega)]
      exact huntouched j hj
    · rw [push_heap_loop_length, ha2len, hL]
  · simp only [if_neg hsp]
    obtain ⟨hperm2, huntouched2⟩ := push_heap_loop_maps (h1 + 1) a1 h1 value
      (by rw [hL]; omega) (by omega)
    constructor
    · have hmid : (↑(push_heap_loop (h1 + 1) a1 h1 0 value) : Multiset SimEvent)
          + {getE a1 h1} + {getE a 0} = ↑a + {getE a1 h1} + {value} := by
        calc (↑(push_heap_loop (h1 + 1) a1 h1 0 value) : Multiset SimEvent)
              + {getE a1 h1} + {getE a 0}
            = ↑a1 + {value} + {getE a 0} := by rw [hperm2]
          _ = ↑a1 + {getE a 0} + {value} := by abel
          _ = ↑a + {getE a1 h1} + {value} := by rw [hperm]
      have h2 : (↑(push_heap_loop (h1 + 1) a1 h1 0 value) : Multiset SimEvent)
            + {getE a 0} + {getE a1 h1} = ↑a + {value} + {getE a1 h1} := by
        calc (↑(push_heap_loop (h1 + 1) a1 h1 0 value) : Multiset SimEvent)
              + {getE a 0} + {getE a1 h1}
            = ↑(push_heap_loop (h1 + 1) a1 h1 0 value) + {getE a1 h1} + {getE a 0} := by
              abel
          _ = ↑a + {getE a1 h1} + {value} := hmid
          _ = ↑a + {value} + {getE a1 h1} := by abel
      exact add_right_cancel h2
    constructor
    · intro j hj
      rw [huntouched2 j (by omega), huntouched j hj]
    · rw [push_heap_loop_length, hL]

/-- `push` adds exactly the pushed event. -/
theorem heap_push_perm (q : List SimEvent) (e : SimEvent) :
    (↑(heap_push q e) : Multiset SimEvent) = ↑q + {e} := by
  rw [heap_push]
  obtain ⟨hperm, _⟩ := push_heap_loop_maps (q.length + 1) (q ++ [e]) q.length e
    (by simp) (by omega)
  have hge : getE (q ++ [e]) q.length = e := by
    rw [getE, List.getD_eq_getElem?_getD]
    rw [List.getElem?_concat_length]
    rfl
  rw [hge] at hperm
  have h2 : (↑(push_heap_loop (q.length + 1) (q ++ [e]) q.length 0 e) : Multiset SimEvent)
      = ↑(q ++ [e]) := add_right_cancel hperm
  rw [h2]
  simp only [← Multiset.coe_add, ← Multiset.cons_coe]
  simp only [← Multiset.singleton_add, ← Multiset.coe_add]
  abel

/-- `pop` removes exactly the top. -/
theorem heap_pop_perm (q : List SimEvent) (h : q ≠ []) :
    (↑q : Multiset SimEvent) = ↑(heap_pop q) + {heap_top q} := by
  match q with
  | [e] =>
      have h1 : heap_pop [e] = [] := rfl
      have h2 : heap_top [e] = e := rfl
      rw [h1, h2]
      rfl
  | e1 :: e2 :: rest =>
      set q2 : List SimEvent := e1 :: e2 :: rest with hq2
      set n := rest.length with hn
      have hq2len : q2.length = n + 2 := by simp [hq2, hn]
      have hpop : heap_pop q2 =
          (adjust_heap (q2.set (n + 1) (getE q2 0)) 0 (n + 1)
            (getE q2 (n + 1))).take (n + 1) := rfl
      set value := getE q2 (n + 1) with hvalue
      set a := q2.set (n + 1) (getE q2 0) with ha
      have halen : a.length = n + 2 := by rw [ha, List.length_set, hq2len]
      obtain ⟨hperm, huntouched, hlenr⟩ :=
        adjust_heap_maps a (n + 1) value (by omega) (by omega)
      have hga0 : getE a 0 = getE q2 0 := by
        rw [ha]
        exact getE_set_ne q2 (n + 1) 0 _ (by omega)
      have hsetp : (↑a : Multiset SimEvent) + {getE q2 (n + 1)} = ↑q2 + {getE q2 0} :=
        list_set_perm q2 (n + 1) (getE q2 0) (by omega)
      have hadj : (↑(adjust_heap a 0 (n + 1) value) : Multiset SimEvent) = ↑q2 := by
        have step : (↑(adjust_heap a 0 (n + 1) value) : Multiset SimEvent) + {getE q2 0}
            = ↑q2 + {getE q2 0} := by
          calc (↑(adjust_heap a 0 (n + 1) value) : Multiset SimEvent) + {getE q2 0}
              = ↑(adjust_heap a 0 (n + 1) value) + {getE a 0} := by rw [hga0]
            _ = ↑a + {value} := hperm
            _ = ↑q2 + {getE q2 0} := by rw [hvalue]; exact hsetp
        exact add_right_cancel step
      set r := adjust_heap a 0 (n + 1) value with hr
      have hrlast : getE r (n + 1) = getE q2 0 := by
        rw [huntouched (n + 1) (le_refl _), ha]
        exact getE_set_self q2 (n + 1) _ (by omega)
      have hrlen : r.length = n + 2 := by rw [hlenr, halen]
      have hrdecomp : r = r.take (n + 1) ++ [getE r (n + 1)] := by
        conv_lhs => rw [← List.take_append_drop (n + 1) r]
        congr 1
        rw [List.drop_eq_getElem_cons (by omega)]
        congr 1
        · rw [getE, List.getD_eq_getElem?_getD, List.getElem?_eq_getElem (by omega)]
          rfl
        · apply List.eq_nil_of_length_eq_zero
          rw [List.length_drop]
          omega
      rw [hpop]
      have htop : heap_top q2 = getE q2 0 := rfl
      rw [htop, ← hadj]
      conv_lhs => rw [hrdecomp]
      rw [hrlast]
      simp only [← Multiset.coe_add, ← Multiset.cons_coe]
      simp only [← Multiset.singleton_add, ← Multiset.coe_add]
      abel

theorem heap_push_perm_list (q : List SimEvent) (e : SimEvent) :
    (heap_push q e).Perm (q ++ [e]) := by
  rw [← Multiset.coe_eq_coe, heap_push_perm]
  rw [← Multiset.coe_singleton, ← Multiset.coe_add]

theorem heap_pop_perm_list (q : List SimEvent) (h : q ≠ []) :
    q.Perm (heap_top q :: heap_pop q) := by
  have h1 : q.Perm (heap_pop q ++ [heap_top q]) := by
    rw [← Multiset.coe_eq_coe, heap_pop_perm q h]
    rw [← Multiset.coe_singleton, ← Multiset.coe_add]
  exact h1.trans (List.perm_append_singleton _ _)

/-- Counting corollaries used by the kernel invariant. -/
theorem countP_heap_push (q : List SimEvent) (e : SimEvent) (p : SimEvent → Bool) :
    (heap_push q e).countP p = q.countP p + if p e then 1 else 0 := by
  rw [(heap_push_perm_list q e).countP_eq, List.countP_append, List.countP_cons,
    List.countP_nil]
  omega

theorem countP_heap_pop (q : List SimEvent) (p : SimEvent → Bool) (h : q ≠ []) :
    q.countP p = (heap_pop q).countP p + if p (heap_top q) then 1 else 0 := by
  rw [(heap_pop_perm_list q h).countP_eq, List.countP_cons]

theorem mem_heap_push (q : List SimEvent) (e x : SimEvent) (h : x ∈ heap_push q e) :
    x = e ∨ x ∈ q := by
  have h2 := heap_push_perm q e
  have h3 : x ∈ (↑(heap_push q e) : Multiset SimEvent) := by simpa using h
  rw [h2] at h3
  rcases Multiset.mem_add.mp h3 with h4 | h4
  · exact Or.inr (by simpa using h4)
  · exact Or.inl (by simpa using h4)

theorem mem_heap_pop (q : List SimEvent) (x : SimEvent) (h : x ∈ heap_pop q) : x ∈ q := by
  match q with
  | [] => simp [heap_pop] at h
  | e :: rest =>
      have h2 := heap_pop_perm (e :: rest) (by simp)
      have h3 : x ∈ (↑(heap_pop (e :: rest)) : Multiset SimEvent) := by simpa using h
      have h4 : x ∈ (↑(e :: rest) : Multiset SimEvent) := by
        rw [h2]
        exact Multiset.mem_add.mpr (Or.inl h3)
      simpa using h4

theorem findAircraft_updateFirst_ne (fleet : List AircraftState) (id id' : Int)
    (f : AircraftState → AircraftState) (hne : id' ≠ id)
    (hf : ∀ a, (f a).aircraft_id = a.aircraft_id) :
    findAircraft (updateFirst fleet id f) id' = findAircraft fleet id' := by
  induction fleet with
  | nil => rfl
  | cons a rest ih =>
      rw [updateFirst]
      by_cases h : a.aircraft_id = id
      · rw [if_pos (beq_iff_eq.mpr h)]
        rw [findAircraft, findAircraft]
        rw [List.find?]
        rw [List.find?]
        have h1 : (a.aircraft_id == id') = false := by
          rw [h]
          exact beq_eq_false_iff_ne.mpr (Ne.symm hne)
        have h2 : ((f a).aircraft_id == id') = false := by
          rw [hf]
          exact h1
        rw [h1, h2]
      · rw [if_neg (by simpa using h)]
        rw [findAircraft, findAircraft]
        rw [List.find?]
        rw [List.find?]
        by_cases h3 : a.aircraft_id = id'
        · rw [beq_iff_eq.mpr h3]
        · rw [beq_eq_false_iff_ne.mpr h3]
          exact ih

theorem findAircraft_updateFirst_self (fleet : List AircraftState) (id : Int)
    (f : AircraftState → AircraftState) (hf : ∀ a, (f a).aircraft_id = a.aircraft_id) :
    findAircraft (updateFirst fleet id f) id = (findAircraft fleet id).map f := by
  induction fleet with
  | nil => rfl
  | cons a rest ih =>
      rw [updateFirst]
      by_cases h : a.aircraft_id = id
      · rw [if_pos (beq_iff_eq.mpr h)]
        rw [findAircraft, findAircraft]
        rw [List.find?]
        rw [List.find?]
        have h2 : ((f a).aircraft_id == id) = true := by
          rw [hf]
          exact beq_iff_eq.mpr h
        rw [beq_iff_eq.mpr h, h2]
        rfl
      · rw [if_neg (by simpa using h)]
        rw [findAircraft, findAircraft]
        rw [List.find?]
        rw [List.find?]
        rw [beq_eq_false_iff_ne.mpr h]
        exact ih

theorem isFaultedIn_congr (s s' : SimState) (h : s'.fleet = s.fleet) :
    ∀ id, isFaultedIn s' id = isFaultedIn s id := by
  intro id
  rw [isFaultedIn, isFaultedIn, h]

theorem isFaultedIn_updateFirst (s s' : SimState) (id0 : Int)
    (f : AircraftState → AircraftState)
    (hfl : s'.fleet = updateFirst s.fleet id0 f)
    (hid : ∀ a, (f a).aircraft_id = a.aircraft_id)
    (hfa : ∀ a, (f a).is_faulty = a.is_faulty) :
    ∀ id, isFaultedIn s' id = isFaultedIn s id := by
  intro id
  rw [isFaultedIn, isFaultedIn, hfl]
  by_cases h : id = id0
  · subst h
    rw [findAircraft_updateFirst_self _ _ _ hid]
    cases findAircraft s.fleet id with
    | none => rfl
    | some a =>
        show (f a).is_faulty = a.is_faulty
        exact hfa a
  · rw [findAircraft_updateFirst_ne _ _ _ _ h hid]

theorem isFaultedIn_set_faulty_mono (s s' : SimState) (id0 : Int)
    (hfl : s'.fleet = updateFirst s.fleet id0 (fun a => a.set_faulty true)) :
    ∀ id, isFaultedIn s id = true → isFaultedIn s' id = true := by
  intro id hid
  rw [isFaultedIn, hfl]
  by_cases h : id = id0
  · subst h
    rw [findAircraft_updateFirst_self s.fleet id (fun a => a.set_faulty true)
      (fun a => rfl)]
    rw [isFaultedIn] at hid
    cases hfind : findAircraft s.fleet id with
    | none => rw [hfind] at hid; exact absurd hid (by simp)
    | some a => rfl
  · rw [findAircraft_updateFirst_ne s.fleet id0 id (fun a => a.set_faulty true) h
      (fun a => rfl)]
    rw [isFaultedIn] at hid
    exact hid

theorem isFaultedIn_set_faulty_ne (s s' : SimState) (id0 : Int)
    (hfl : s'.fleet = updateFirst s.fleet id0 (fun a => a.set_faulty true)) :
    ∀ id, id ≠ id0 → isFaultedIn s' id = isFaultedIn s id := by
  intro id h
  rw [isFaultedIn, isFaultedIn, hfl]
  rw [findAircraft_updateFirst_ne s.fleet id0 id (fun a => a.set_faulty true) h
    (fun a => rfl)]

/-- `Inv` only reads the queue, the clock, the horizon, the waiting queue, the
fault bits and the draw stream; it is antitone in the waiting queue. -/
theorem inv_mono (s s' : SimState)
    (hq : s'.event_queue = s.event_queue)
    (hc : s'.current_time_hours = s.current_time_hours)
    (hd : s'.simulation_duration_hours = s.simulation_duration_hours)
    (hw : ∀ x, x ∈ s'.charger.waiting_queue → x ∈ s.charger.waiting_queue)
    (hnd : s'.charger.waiting_queue.Nodup)
    (hf : ∀ id, isFaultedIn s' id = isFaultedIn s id)
    (hdr : s'.draws = s.draws) (hInv : Inv s) : Inv s' := by
  constructor
  · rw [hq]; exact hInv.heap
  · intro e he
    rw [hq] at he
    rw [hc]
    exact hInv.times e he
  · intro id; rw [hq]; exact hInv.fc_unique id
  · intro id; rw [hq]; exact hInv.cc_unique id
  · intro id; rw [hq]; exact hInv.fault_unique id
  · intro e he id hfe
    rw [hq] at he
    obtain ⟨h1, h2, h3, h4⟩ := hInv.fault_ok e he id hfe
    refine ⟨by rw [hf id]; exact h1, fun hmem => h2 (hw id hmem), ?_, ?_⟩
    · intro c hcm
      rw [hq] at hcm
      exact h3 c hcm
    · intro c hcm hfc
      rw [hq] at hcm
      rw [hd]
      exact h4 c hcm hfc
  · intro e he id hce
    rw [hq] at he
    obtain ⟨h1, h2⟩ := hInv.cc_ok e he id hce
    refine ⟨by rw [hf id]; exact h1, ?_⟩
    intro c hcm
    rw [hq] at hcm
    exact h2 c hcm
  · intro id hmem
    obtain ⟨h1, h2, h3⟩ := hInv.waiting_ok id (hw id hmem)
    refine ⟨by rw [hf id]; exact h1, ?_, ?_⟩
    · intro c hcm
      rw [hq] at hcm
      exact h2 c hcm
    · intro c hcm
      rw [hq] at hcm
      exact h3 c hcm
  · exact hnd
  · rw [hdr]; exact hInv.draws_range

theorem isFlightCompleteFor_data (id : Int) (e : SimEvent)
    (h : isFlightCompleteFor id e = true) : e.data.aircraft_id = id := by
  rcases e with ⟨ty, t, data⟩
  cases data with
  | flightComplete d =>
      rw [isFlightCompleteFor] at h
      exact beq_iff_eq.mp h
  | chargingComplete d => exact absurd h (by rw [isFlightCompleteFor]; simp)
  | fault d => exact absurd h (by rw [isFlightCompleteFor]; simp)

theorem isChargingCompleteFor_data (id : Int) (e : SimEvent)
    (h : isChargingCompleteFor id e = true) : e.data.aircraft_id = id := by
  rcases e with ⟨ty, t, data⟩
  cases data with
  | chargingComplete d =>
      rw [isChargingCompleteFor] at h
      exact beq_iff_eq.mp h
  | flightComplete d => exact absurd h (by rw [isChargingCompleteFor]; simp)
  | fault d => exact absurd h (by rw [isChargingCompleteFor]; simp)

theorem isFaultFor_data (id : Int) (e : SimEvent)
    (h : isFaultFor id e = true) : e.data.aircraft_id = id := by
  rcases e with ⟨ty, t, data⟩
  cases data with
  | fault d =>
      rw [isFaultFor] at h
      exact beq_iff_eq.mp h
  | flightComplete d => exact absurd h (by rw [isFaultFor]; simp)
  | chargingComplete d => exact absurd h (by rw [isFaultFor]; simp)

theorem isEventFor_eq_false (id : Int) (e : SimEvent)
    (h : e.data.aircraft_id ≠ id) : isEventFor id e = false := by
  rw [isEventFor]
  exact beq_eq_false_iff_ne.mpr h

theorem isEventFor_of_classifier (id : Int) (e : SimEvent)
    (h : isFlightCompleteFor id e = true ∨ isChargingCompleteFor id e = true ∨
      isFaultFor id e = true) : isEventFor id e = true := by
  rw [isEventFor]
  rcases h with h | h | h
  · exact beq_iff_eq.mpr (isFlightCompleteFor_data id e h)
  · exact beq_iff_eq.mpr (isChargingCompleteFor_data id e h)
  · exact beq_iff_eq.mpr (isFaultFor_data id e h)

theorem classifier_eq_false_of_eventFor (id : Int) (e : SimEvent)
    (h : isEventFor id e = false) :
    isFlightCompleteFor id e = false ∧ isChargingCompleteFor id e = false ∧
      isFaultFor id e = false := by
  have h1 : isFlightCompleteFor id e = false := by
    cases hc : isFlightCompleteFor id e
    · rfl
    · rw [isEventFor_of_classifier id e (Or.inl hc)] at h
      exact absurd h (by simp)
  have h2 : isChargingCompleteFor id e = false := by
    cases hc : isChargingCompleteFor id e
    · rfl
    · rw [isEventFor_of_classifier id e (Or.inr (Or.inl hc))] at h
      exact absurd h (by simp)
  have h3 : isFaultFor id e = false := by
    cases hc : isFaultFor id e
    · rfl
    · rw [isEventFor_of_classifier id e (Or.inr (Or.inr hc))] at h
      exact absurd h (by simp)
  exact ⟨h1, h2, h3⟩

theorem time_to_charge_pos (ty : AircraftType) : 0 < time_to_charge_hours ty := by
  cases ty <;> norm_num [time_to_charge_hours]

theorem flight_time_pos (a : AircraftState) (hb : a.battery_level = 1) :
    0 < a.get_flight_time_hours := by
  rw [AircraftState.get_flight_time_hours, hb]
  cases a.ty <;>
    norm_num [battery_capacity_kwh, cruise_speed_mph, energy_consumption_per_mile]

/-- Range of `check_fault_during_flight`: the returned fault time is either the
`-1` sentinel or a point of `[0, flight_time)`. -/
theorem check_fault_range (a : AircraftState) (ft : ℚ) (draws : ℕ → ℚ) (k : ℕ)
    (hd : ∀ n, 0 ≤ draws n ∧ draws n < 1) (hft : 0 < ft) :
    (check_fault_during_flight a ft draws k).1 = -1 ∨
      (0 ≤ (check_fault_during_flight a ft draws k).1 ∧
        (check_fault_during_flight a ft draws k).1 < ft) := by
  by_cases h1 : fault_probability_per_hour a.ty ≤ 0
  · left
    rw [check_fault_during_flight, if_pos h1]
  · by_cases h2 : draws k < fault_probability_per_hour a.ty * ft
    · have he : check_fault_during_flight a ft draws k =
          ((draws (k + 1)) * ft, k + 2) := by
        rw [check_fault_during_flight, if_neg h1]
        exact if_pos h2
      rw [he]
      refine Or.inr ⟨mul_nonneg (hd (k + 1)).1 hft.le, ?_⟩
      calc draws (k + 1) * ft < 1 * ft := mul_lt_mul_of_pos_right (hd (k + 1)).2 hft
        _ = ft := one_mul ft
    · left
      have he : check_fault_during_flight a ft draws k = (-1, k + 1) := by
        rw [check_fault_during_flight, if_neg h1]
        exact if_neg h2
      rw [he]

/-- `schedule_event` either leaves the state unchanged, pushes the event at
its requested time (when within the horizon), or pushes a flight/charging
event re-timed to the horizon. -/
theorem schedule_event_cases (s : SimState) (ty : EventType) (t : ℚ)
    (data : EventData) :
    schedule_event s ty t data = s ∨
    (t ≤ s.simulation_duration_hours ∧
      schedule_event s ty t data =
        { s with event_queue := heap_push s.event_queue ⟨ty, t, data⟩ }) ∨
    (t > s.simulation_duration_hours ∧
      (ty = .FLIGHT_COMPLETE ∨ ty = .CHARGING_COMPLETE) ∧
      schedule_event s ty t data =
        { s with event_queue :=
            heap_push s.event_queue ⟨ty, s.simulation_duration_hours, data⟩ }) := by
  rw [schedule_event]
  by_cases ht : t > s.simulation_duration_hours
  · by_cases hp : s.enable_partial_flights = true
    · cases ty with
      | FLIGHT_COMPLETE =>
          have hFC : t > s.simulation_duration_hours ∧
              EventType.FLIGHT_COMPLETE = EventType.FLIGHT_COMPLETE ∧
              s.enable_partial_flights = true := ⟨ht, rfl, hp⟩
          have hCC : ¬(t > s.simulation_duration_hours ∧
              EventType.FLIGHT_COMPLETE = EventType.CHARGING_COMPLETE ∧
              s.enable_partial_flights = true) := by
            rintro ⟨-, h, -⟩
            exact nomatch h
          rw [if_neg hCC, if_pos hFC, if_pos le_rfl]
          exact Or.inr (Or.inr ⟨ht, Or.inl rfl, rfl⟩)
      | CHARGING_COMPLETE =>
          have hCC : t > s.simulation_duration_hours ∧
              EventType.CHARGING_COMPLETE = EventType.CHARGING_COMPLETE ∧
              s.enable_partial_flights = true := ⟨ht, rfl, hp⟩
          rw [if_pos hCC, if_pos le_rfl]
          exact Or.inr (Or.inr ⟨ht, Or.inr rfl, rfl⟩)
      | FAULT_OCCURRED =>
          have hFC : ¬(t > s.simulation_duration_hours ∧
              EventType.FAULT_OCCURRED = EventType.FLIGHT_COMPLETE ∧
              s.enable_partial_flights = true) := by
            rintro ⟨-, h, -⟩
            exact nomatch h
          have hCC : ¬(t > s.simulation_duration_hours ∧
              EventType.FAULT_OCCURRED = EventType.CHARGING_COMPLETE ∧
              s.enable_partial_flights = true) := by
            rintro ⟨-, h, -⟩
            exact nomatch h
          rw [if_neg hCC, if_neg hFC, if_neg (not_le.mpr ht)]
          exact Or.inl rfl
    · have hFC : ¬(t > s.simulation_duration_hours ∧ ty = .FLIGHT_COMPLETE ∧
          s.enable_partial_flights = true) := by
        rintro ⟨-, -, h⟩
        exact hp h
      have hCC : ¬(t > s.simulation_duration_hours ∧ ty = .CHARGING_COMPLETE ∧
          s.enable_partial_flights = true) := by
        rintro ⟨-, -, h⟩
        exact hp h
      rw [if_neg hCC, if_neg hFC, if_neg (not_le.mpr ht)]
      exact Or.inl rfl
  · have hFC : ¬(t > s.simulation_duration_hours ∧ ty = .FLIGHT_COMPLETE ∧
        s.enable_partial_flights = true) := by
      rintro ⟨h, -, -⟩
      exact ht h
    have hCC : ¬(t > s.simulation_duration_hours ∧ ty = .CHARGING_COMPLETE ∧
        s.enable_partial_flights = true) := by
      rintro ⟨h, -, -⟩
      exact ht h
    rw [if_neg hCC, if_neg hFC, if_pos (not_lt.mp ht)]
    exact Or.inr (Or.inl ⟨not_lt.mp ht, rfl⟩)

/-- Pushing a flight-complete event preserves the invariant, provided the
target aircraft has no pending completion of either kind, any pending fault
for it precedes the new event (or the new event sits at the horizon), and it
is not in the waiting queue. -/
theorem inv_push_flightComplete (s : SimState) (d : FlightCompleteData)
    (ty : EventType) (t : ℚ) (hInv : Inv s) (ht : s.current_time_hours ≤ t)
    (hcc : ∀ c ∈ s.event_queue, isChargingCompleteFor d.aircraft_id c = false)
    (hfc : s.event_queue.countP (isFlightCompleteFor d.aircraft_id) = 0)
    (hfaults : ∀ f ∈ s.event_queue, isFaultFor d.aircraft_id f = true →
      f.time_hours < t ∨ t = s.simulation_duration_hours)
    (hwait : d.aircraft_id ∉ s.charger.waiting_queue) :
    Inv { s with
      event_queue := heap_push s.event_queue ⟨ty, t, .flightComplete d⟩ } := by
  constructor
  · exact (isHeap_heap_push _ _ hInv.heap).1
  · intro x hx
    rcases mem_heap_push _ _ _ hx with hx | hx
    · rw [hx]
      exact ht
    · exact hInv.times x hx
  · intro id
    rw [countP_heap_push]
    by_cases hp : isFlightCompleteFor id ⟨ty, t, .flightComplete d⟩ = true
    · have hid : d.aircraft_id = id := beq_iff_eq.mp hp
      rw [if_pos hp]
      subst hid
      rw [hfc]
    · rw [if_neg hp]
      have := hInv.fc_unique id
      omega
  · intro id
    rw [countP_heap_push, if_neg (by simp [isChargingCompleteFor])]
    have := hInv.cc_unique id
    omega
  · intro id
    rw [countP_heap_push, if_neg (by simp [isFaultFor])]
    have := hInv.fault_unique id
    omega
  · intro x hx id hf
    rcases mem_heap_push _ _ _ hx with hx | hx
    · rw [hx] at hf
      exact absurd hf (by simp [isFaultFor])
    · obtain ⟨h1, h2, h3, h4⟩ := hInv.fault_ok x hx id hf
      refine ⟨h1, h2, ?_, ?_⟩
      · intro c hc
        rcases mem_heap_push _ _ _ hc with hc | hc
        · rw [hc]
          rfl
        · exact h3 c hc
      · intro c hc hcf
        rcases mem_heap_push _ _ _ hc with hc | hc
        · rw [hc] at hcf ⊢
          have hid : d.aircraft_id = id := beq_iff_eq.mp hcf
          rw [← hid] at hf
          exact hfaults x hx hf
        · exact h4 c hc hcf
  · intro x hx id hcx
    rcases mem_heap_push _ _ _ hx with hx | hx
    · rw [hx] at hcx
      exact absurd hcx (by simp [isChargingCompleteFor])
    · obtain ⟨h1, h2⟩ := hInv.cc_ok x hx id hcx
      refine ⟨h1, ?_⟩
      intro c hc
      rcases mem_heap_push _ _ _ hc with hc | hc
      · rw [hc]
        show (d.aircraft_id == id) = false
        refine beq_eq_false_iff_ne.mpr ?_
        intro hid
        subst hid
        rw [hcc x hx] at hcx
        exact absurd hcx (by simp)
      · exact h2 c hc
  · intro id hmem
    obtain ⟨h1, h2, h3⟩ := hInv.waiting_ok id hmem
    refine ⟨h1, ?_, ?_⟩
    · intro c hc
      rcases mem_heap_push _ _ _ hc with hc | hc
      · rw [hc]
        show (d.aircraft_id == id) = false
        refine beq_eq_false_iff_ne.mpr ?_
        intro hid
        rw [hid] at hwait
        exact hwait hmem
      · exact h2 c hc
    · intro c hc
      rcases mem_heap_push _ _ _ hc with hc | hc
      · rw [hc]
        rfl
      · exact h3 c hc
  · exact hInv.waiting_nodup
  · exact hInv.draws_range

/-- Pushing a charging-complete event preserves the invariant, provided the
target aircraft is unfaulted, has no pending event of any kind, and is not in
the waiting queue. -/
theorem inv_push_chargingComplete (s : SimState) (d : ChargingCompleteData)
    (ty : EventType) (t : ℚ) (hInv : Inv s) (ht : s.current_time_hours ≤ t)
    (hfaulted : isFaultedIn s d.aircraft_id = false)
    (hfc : ∀ c ∈ s.event_queue, isFlightCompleteFor d.aircraft_id c = false)
    (hcc : s.event_queue.countP (isChargingCompleteFor d.aircraft_id) = 0)
    (hfaults : ∀ c ∈ s.event_queue, isFaultFor d.aircraft_id c = false)
    (hwait : d.aircraft_id ∉ s.charger.waiting_queue) :
    Inv { s with
      event_queue := heap_push s.event_queue ⟨ty, t, .chargingComplete d⟩ } := by
  constructor
  · exact (isHeap_heap_push _ _ hInv.heap).1
  · intro x hx
    rcases mem_heap_push _ _ _ hx with hx | hx
    · rw [hx]
      exact ht
    · exact hInv.times x hx
  · intro id
    rw [countP_heap_push, if_neg (by simp [isFlightCompleteFor])]
    have := hInv.fc_unique id
    omega
  · intro id
    rw [countP_heap_push]
    by_cases hp : isChargingCompleteFor id ⟨ty, t, .chargingComplete d⟩ = true
    · have hid : d.aircraft_id = id := beq_iff_eq.mp hp
      rw [if_pos hp]
      subst hid
      rw [hcc]
    · rw [if_neg hp]
      have := hInv.cc_unique id
      omega
  · intro id
    rw [countP_heap_push, if_neg (by simp [isFaultFor])]
    have := hInv.fault_unique id
    omega
  · intro x hx id hf
    rcases mem_heap_push _ _ _ hx with hx | hx
    · rw [hx] at hf
      exact absurd hf (by simp [isFaultFor])
    · obtain ⟨h1, h2, h3, h4⟩ := hInv.fault_ok x hx id hf
      refine ⟨h1, h2, ?_, ?_⟩
      · intro c hc
        rcases mem_heap_push _ _ _ hc with hc | hc
        · rw [hc]
          show (d.aircraft_id == id) = false
          refine beq_eq_false_iff_ne.mpr ?_
          intro hid
          rw [← hid] at hf
          rw [hfaults x hx] at hf
          exact absurd hf (by simp)
        · exact h3 c hc
      · intro c hc hcf
        rcases mem_heap_push _ _ _ hc with hc | hc
        · rw [hc] at hcf
          exact absurd hcf (by simp [isFlightCompleteFor])
        · exact h4 c hc hcf
  · intro x hx id hcx
    rcases mem_heap_push _ _ _ hx with hx | hx
    · have hid : d.aircraft_id = id := by
        rw [hx] at hcx
        exact beq_iff_eq.mp hcx
      subst hid
      refine ⟨hfaulted, ?_⟩
      intro c hc
      rcases mem_heap_push _ _ _ hc with hc | hc
      · rw [hc]
        rfl
      · exact hfc c hc
    · obtain ⟨h1, h2⟩ := hInv.cc_ok x hx id hcx
      refine ⟨h1, ?_⟩
      intro c hc
      rcases mem_heap_push _ _ _ hc with hc | hc
      · rw [hc]
        rfl
      · exact h2 c hc
  · intro id hmem
    obtain ⟨h1, h2, h3⟩ := hInv.waiting_ok id hmem
    refine ⟨h1, ?_, ?_⟩
    · intro c hc
      rcases mem_heap_push _ _ _ hc with hc | hc
      · rw [hc]
        rfl
      · exact h2 c hc
    · intro c hc
      rcases mem_heap_push _ _ _ hc with hc | hc
      · rw [hc]
        show (d.aircraft_id == id) = false
        refine beq_eq_false_iff_ne.mpr ?_
        intro hid
        rw [hid] at hwait
        exact hwait hmem
      · exact h3 c hc
  · exact hInv.waiting_nodup
  · exact hInv.draws_range

/-- Pushing a fault event preserves the invariant, provided the target
aircraft is unfaulted, outside the waiting queue, has no pending charging
completion or fault, and every pending flight completion for it is later (or
horizon-clamped). -/
theorem inv_push_fault (s : SimState) (d : FaultData)
    (ty : EventType) (t : ℚ) (hInv : Inv s) (ht : s.current_time_hours ≤ t)
    (hfaulted : isFaultedIn s d.aircraft_id = false)
    (hwait : d.aircraft_id ∉ s.charger.waiting_queue)
    (hcc : ∀ c ∈ s.event_queue, isChargingCompleteFor d.aircraft_id c = false)
    (hfa : s.event_queue.countP (isFaultFor d.aircraft_id) = 0)
    (hpair : ∀ c ∈ s.event_queue, isFlightCompleteFor d.aircraft_id c = true →
      t < c.time_hours ∨ c.time_hours = s.simulation_duration_hours) :
    Inv { s with event_queue := heap_push s.event_queue ⟨ty, t, .fault d⟩ } := by
  constructor
  · exact (isHeap_heap_push _ _ hInv.heap).1
  · intro x hx
    rcases mem_heap_push _ _ _ hx with hx | hx
    · rw [hx]
      exact ht
    · exact hInv.times x hx
  · intro id
    rw [countP_heap_push, if_neg (by simp [isFlightCompleteFor])]
    have := hInv.fc_unique id
    omega
  · intro id
    rw [countP_heap_push, if_neg (by simp [isChargingCompleteFor])]
    have := hInv.cc_unique id
    omega
  · intro id
    rw [countP_heap_push]
    by_cases hp : isFaultFor id ⟨ty, t, .fault d⟩ = true
    · have hid : d.aircraft_id = id := beq_iff_eq.mp hp
      rw [if_pos hp]
      subst hid
      rw [hfa]
    · rw [if_neg hp]
      have := hInv.fault_unique id
      omega
  · intro x hx id hf
    rcases mem_heap_push _ _ _ hx with hx | hx
    · have hid : d.aircraft_id = id := by
        rw [hx] at hf
        exact beq_iff_eq.mp hf
      subst hid
      refine ⟨hfaulted, hwait, ?_, ?_⟩
      · intro c hc
        rcases mem_heap_push _ _ _ hc with hc | hc
        · rw [hc]
          rfl
        · exact hcc c hc
      · intro c hc hcf
        rcases mem_heap_push _ _ _ hc with hc | hc
        · rw [hc] at hcf
          exact absurd hcf (by simp [isFlightCompleteFor])
        · rw [hx]
          exact hpair c hc hcf
    · obtain ⟨h1, h2, h3, h4⟩ := hInv.fault_ok x hx id hf
      refine ⟨h1, h2, ?_, ?_⟩
      · intro c hc
        rcases mem_heap_push _ _ _ hc with hc | hc
        · rw [hc]
          rfl
        · exact h3 c hc
      · intro c hc hcf
        rcases mem_heap_push _ _ _ hc with hc | hc
        · rw [hc] at hcf
          exact absurd hcf (by simp [isFlightCompleteFor])
        · exact h4 c hc hcf
  · intro x hx id hcx
    rcases mem_heap_push _ _ _ hx with hx | hx
    · rw [hx] at hcx
      exact absurd hcx (by simp [isChargingCompleteFor])
    · obtain ⟨h1, h2⟩ := hInv.cc_ok x hx id hcx
      refine ⟨h1, ?_⟩
      intro c hc
      rcases mem_heap_push _ _ _ hc with hc | hc
      · rw [hc]
        rfl
      · exact h2 c hc
  · intro id hmem
    obtain ⟨h1, h2, h3⟩ := hInv.waiting_ok id hmem
    refine ⟨h1, ?_, ?_⟩
    · intro c hc
      rcases mem_heap_push _ _ _ hc with hc | hc
      · rw [hc]
        rfl
      · exact h2 c hc
    · intro c hc
      rcases mem_heap_push _ _ _ hc with hc | hc
      · rw [hc]
        rfl
      · exact h3 c hc
  · exact hInv.waiting_nodup
  · exact hInv.draws_range

theorem classifier_of_data_fc (x : SimEvent) (d : FlightCompleteData)
    (h : x.data = .flightComplete d) (id : Int) :
    isFlightCompleteFor id x = (d.aircraft_id == id) ∧
    isChargingCompleteFor id x = false ∧ isFaultFor id x = false ∧
    x.data.aircraft_id = d.aircraft_id := by
  rcases x with ⟨ty, t, data⟩
  subst h
  exact ⟨rfl, rfl, rfl, rfl⟩

theorem classifier_of_data_cc (x : SimEvent) (d : ChargingCompleteData)
    (h : x.data = .chargingComplete d) (id : Int) :
    isFlightCompleteFor id x = false ∧
    isChargingCompleteFor id x = (d.aircraft_id == id) ∧ isFaultFor id x = false ∧
    x.data.aircraft_id = d.aircraft_id := by
  rcases x with ⟨ty, t, data⟩
  subst h
  exact ⟨rfl, rfl, rfl, rfl⟩

theorem classifier_of_data_fault (x : SimEvent) (d : FaultData)
    (h : x.data = .fault d) (id : Int) :
    isFlightCompleteFor id x = false ∧ isChargingCompleteFor id x = false ∧
    isFaultFor id x = (d.aircraft_id == id) ∧
    x.data.aircraft_id = d.aircraft_id := by
  rcases x with ⟨ty, t, data⟩
  subst h
  exact ⟨rfl, rfl, rfl, rfl⟩

/-- `schedule_event` of a flight-complete payload: invariant preservation and
a full account of what changed. -/
theorem schedule_event_flight_inv (s : SimState) (d : FlightCompleteData) (t : ℚ)
    (hInv : Inv s)
    (hcur : s.current_time_hours ≤ s.simulation_duration_hours)
    (ht : s.current_time_hours ≤ t)
    (hcc : ∀ c ∈ s.event_queue, isChargingCompleteFor d.aircraft_id c = false)
    (hfc : s.event_queue.countP (isFlightCompleteFor d.aircraft_id) = 0)
    (hfaults : ∀ f ∈ s.event_queue, isFaultFor d.aircraft_id f = true →
      f.time_hours < t ∨ t = s.simulation_duration_hours)
    (hwait : d.aircraft_id ∉ s.charger.waiting_queue) :
    Inv (schedule_event s .FLIGHT_COMPLETE t (.flightComplete d)) ∧
    (schedule_event s .FLIGHT_COMPLETE t (.flightComplete d)).fleet = s.fleet ∧
    (schedule_event s .FLIGHT_COMPLETE t (.flightComplete d)).charger = s.charger ∧
    (schedule_event s .FLIGHT_COMPLETE t (.flightComplete d)).current_time_hours =
      s.current_time_hours ∧
    (schedule_event s .FLIGHT_COMPLETE t (.flightComplete d)).simulation_duration_hours =
      s.simulation_duration_hours ∧
    (schedule_event s .FLIGHT_COMPLETE t (.flightComplete d)).draws = s.draws ∧
    (∀ x ∈ (schedule_event s .FLIGHT_COMPLETE t (.flightComplete d)).event_queue,
      x ∈ s.event_queue ∨ x.data = .flightComplete d) ∧
    (∀ p : SimEvent → Bool, (∀ x : SimEvent, x.data = .flightComplete d → p x = false) →
      (schedule_event s .FLIGHT_COMPLETE t (.flightComplete d)).event_queue.countP p =
        s.event_queue.countP p) := by
  rcases schedule_event_cases s .FLIGHT_COMPLETE t (.flightComplete d) with
    hcase | ⟨hle, hcase⟩ | ⟨hgt, -, hcase⟩
  · rw [hcase]
    exact ⟨hInv, rfl, rfl, rfl, rfl, rfl, fun x hx => Or.inl hx, fun p hp => rfl⟩
  · rw [hcase]
    refine ⟨inv_push_flightComplete s d .FLIGHT_COMPLETE t hInv ht hcc hfc hfaults hwait,
      rfl, rfl, rfl, rfl, rfl, ?_, ?_⟩
    · intro x hx
      rcases mem_heap_push _ _ _ hx with hx | hx
      · right
        rw [hx]
      · exact Or.inl hx
    · intro p hp
      show (heap_push s.event_queue _).countP p = s.event_queue.countP p
      rw [countP_heap_push, hp _ rfl]
      simp
  · rw [hcase]
    refine ⟨inv_push_flightComplete s d .FLIGHT_COMPLETE s.simulation_duration_hours hInv
      hcur hcc hfc (fun f hf hmem => Or.inr rfl) hwait,
      rfl, rfl, rfl, rfl, rfl, ?_, ?_⟩
    · intro x hx
      rcases mem_heap_push _ _ _ hx with hx | hx
      · right
        rw [hx]
      · exact Or.inl hx
    · intro p hp
      show (heap_push s.event_queue _).countP p = s.event_queue.countP p
      rw [countP_heap_push, hp _ rfl]
      simp

/-- `schedule_event` of a charging-complete payload: invariant preservation
and a full account of what changed. -/
theorem schedule_event_charging_inv (s : SimState) (d : ChargingCompleteData) (t : ℚ)
    (hInv : Inv s)
    (hcur : s.current_time_hours ≤ s.simulation_duration_hours)
    (ht : s.current_time_hours ≤ t)
    (hfaulted : isFaultedIn s d.aircraft_id = false)
    (hfc : ∀ c ∈ s.event_queue, isFlightCompleteFor d.aircraft_id c = false)
    (hcc : s.event_queue.countP (isChargingCompleteFor d.aircraft_id) = 0)
    (hfa : ∀ c ∈ s.event_queue, isFaultFor d.aircraft_id c = false)
    (hwait : d.aircraft_id ∉ s.charger.waiting_queue) :
    Inv (schedule_event s .CHARGING_COMPLETE t (.chargingComplete d)) ∧
    (schedule_event s .CHARGING_COMPLETE t (.chargingComplete d)).fleet = s.fleet ∧
    (schedule_event s .CHARGING_COMPLETE t (.chargingComplete d)).charger = s.charger ∧
    (schedule_event s .CHARGING_COMPLETE t (.chargingComplete d)).current_time_hours =
      s.current_time_hours ∧
    (schedule_event s .CHARGING_COMPLETE t
      (.chargingComplete d)).simulation_duration_hours = s.simulation_duration_hours ∧
    (schedule_event s .CHARGING_COMPLETE t (.chargingComplete d)).draws = s.draws ∧
    (∀ x ∈ (schedule_event s .CHARGING_COMPLETE t (.chargingComplete d)).event_queue,
      x ∈ s.event_queue ∨ x.data = .chargingComplete d) ∧
    (∀ p : SimEvent → Bool, (∀ x : SimEvent, x.data = .chargingComplete d → p x = false) →
      (schedule_event s .CHARGING_COMPLETE t (.chargingComplete d)).event_queue.countP p =
        s.event_queue.countP p) := by
  rcases schedule_event_cases s .CHARGING_COMPLETE t (.chargingComplete d) with
    hcase | ⟨hle, hcase⟩ | ⟨hgt, -, hcase⟩
  · rw [hcase]
    exact ⟨hInv, rfl, rfl, rfl, rfl, rfl, fun x hx => Or.inl hx, fun p hp => rfl⟩
  · rw [hcase]
    refine ⟨inv_push_chargingComplete s d .CHARGING_COMPLETE t hInv ht hfaulted hfc hcc
      hfa hwait, rfl, rfl, rfl, rfl, rfl, ?_, ?_⟩
    · intro x hx
      rcases mem_heap_push _ _ _ hx with hx | hx
      · right
        rw [hx]
      · exact Or.inl hx
    · intro p hp
      show (heap_push s.event_queue _).countP p = s.event_queue.countP p
      rw [countP_heap_push, hp _ rfl]
      simp
  · rw [hcase]
    refine ⟨inv_push_chargingComplete s d .CHARGING_COMPLETE s.simulation_duration_hours
      hInv hcur hfaulted hfc hcc hfa hwait, rfl, rfl, rfl, rfl, rfl, ?_, ?_⟩
    · intro x hx
      rcases mem_heap_push _ _ _ hx with hx | hx
      · right
        rw [hx]
      · exact Or.inl hx
    · intro p hp
      show (heap_push s.event_queue _).countP p = s.event_queue.countP p
      rw [countP_heap_push, hp _ rfl]
      simp

/-- `schedule_event` of a fault payload (never horizon-clamped): invariant
preservation and a full account of what changed. -/
theorem schedule_event_fault_inv (s : SimState) (d : FaultData) (t : ℚ)
    (hInv : Inv s)
    (ht : s.current_time_hours ≤ t)
    (hfaulted : isFaultedIn s d.aircraft_id = false)
    (hwait : d.aircraft_id ∉ s.charger.waiting_queue)
    (hcc : ∀ c ∈ s.event_queue, isChargingCompleteFor d.aircraft_id c = false)
    (hfa : s.event_queue.countP (isFaultFor d.aircraft_id) = 0)
    (hpair : ∀ c ∈ s.event_queue, isFlightCompleteFor d.aircraft_id c = true →
      t < c.time_hours ∨ c.time_hours = s.simulation_duration_hours) :
    Inv (schedule_event s .FAULT_OCCURRED t (.fault d)) ∧
    (schedule_event s .FAULT_OCCURRED t (.fault d)).fleet = s.fleet ∧
    (schedule_event s .FAULT_OCCURRED t (.fault d)).charger = s.charger ∧
    (schedule_event s .FAULT_OCCURRED t (.fault d)).current_time_hours =
      s.current_time_hours ∧
    (schedule_event s .FAULT_OCCURRED t (.fault d)).simulation_duration_hours =
      s.simulation_duration_hours ∧
    (schedule_event s .FAULT_OCCURRED t (.fault d)).draws = s.draws ∧
    (∀ x ∈ (schedule_event s .FAULT_OCCURRED t (.fault d)).event_queue,
      x ∈ s.event_queue ∨ x = ⟨.FAULT_OCCURRED, t, .fault d⟩) ∧
    (∀ p : SimEvent → Bool, p ⟨.FAULT_OCCURRED, t, .fault d⟩ = false →
      (schedule_event s .FAULT_OCCURRED t (.fault d)).event_queue.countP p =
        s.event_queue.countP p) := by
  rcases schedule_event_cases s .FAULT_OCCURRED t (.fault d) with
    hcase | ⟨hle, hcase⟩ | ⟨hgt, hty, hcase⟩
  · rw [hcase]
    exact ⟨hInv, rfl, rfl, rfl, rfl, rfl, fun x hx => Or.inl hx, fun p hp => rfl⟩
  · rw [hcase]
    refine ⟨inv_push_fault s d .FAULT_OCCURRED t hInv ht hfaulted hwait hcc hfa hpair,
      rfl, rfl, rfl, rfl, rfl, ?_, ?_⟩
    · intro x hx
      rcases mem_heap_push _ _ _ hx with hx | hx
      · exact Or.inr hx
      · exact Or.inl hx
    · intro p hp
      show (heap_push s.event_queue _).countP p = s.event_queue.countP p
      rw [countP_heap_push, hp]
      simp
  · rcases hty with hty | hty <;> exact nomatch hty

theorem countP_zero_pointwise (l : List SimEvent) (p : SimEvent → Bool)
    (h : l.countP p = 0) : ∀ c ∈ l, p c = false := by
  intro c hc
  have h2 := List.countP_eq_zero.mp h c hc
  cases hb : p c
  · rfl
  · exact absurd hb h2

theorem pointwise_countP_zero (l : List SimEvent) (p : SimEvent → Bool)
    (h : ∀ c ∈ l, p c = false) : l.countP p = 0 :=
  List.countP_eq_zero.mpr (fun c hc => by simp [h c hc])

/-- `EventDrivenSimulation::schedule_charging` preserves the invariant when
the target aircraft is unfaulted, has no pending events and is not queued;
only the charging-start map and (by one pushed charging event targeting that
aircraft) the event queue change. -/
theorem schedule_charging_inv (s : SimState) (a : AircraftState) (wt : ℚ)
    (hInv : Inv s) (hcur : s.current_time_hours ≤ s.simulation_duration_hours)
    (hfaulted : isFaultedIn s a.aircraft_id = false)
    (hfc : ∀ c ∈ s.event_queue, isFlightCompleteFor a.aircraft_id c = false)
    (hcc : s.event_queue.countP (isChargingCompleteFor a.aircraft_id) = 0)
    (hfa : ∀ c ∈ s.event_queue, isFaultFor a.aircraft_id c = false)
    (hwait : a.aircraft_id ∉ s.charger.waiting_queue) :
    Inv (schedule_charging s a wt) ∧
    (schedule_charging s a wt).fleet = s.fleet ∧
    (schedule_charging s a wt).charger = s.charger ∧
    (schedule_charging s a wt).current_time_hours = s.current_time_hours ∧
    (schedule_charging s a wt).simulation_duration_hours =
      s.simulation_duration_hours ∧
    (schedule_charging s a wt).draws = s.draws ∧
    (∀ x ∈ (schedule_charging s a wt).event_queue,
      x ∈ s.event_queue ∨ x.data.aircraft_id = a.aircraft_id) ∧
    (∀ p : SimEvent → Bool,
      (∀ x : SimEvent, x.data.aircraft_id = a.aircraft_id → p x = false) →
      (schedule_charging s a wt).event_queue.countP p = s.event_queue.countP p) := by
  have hct : (0 : ℚ) < a.get_charge_time_hours := time_to_charge_pos a.ty
  have hInv1 : Inv { s with
      charging_start_times :=
        mapInsert s.charging_start_times a.aircraft_id s.current_time_hours } :=
    inv_mono s _ rfl rfl rfl (fun x h => h) hInv.waiting_nodup (fun id => rfl) rfl hInv
  have heq : schedule_charging s a wt = schedule_event
      { s with
        charging_start_times :=
          mapInsert s.charging_start_times a.aircraft_id s.current_time_hours }
      .CHARGING_COMPLETE (s.current_time_hours + a.get_charge_time_hours)
      (.chargingComplete ⟨a.aircraft_id, a.get_charge_time_hours, wt⟩) := rfl
  have hmain := schedule_event_charging_inv
    { s with
      charging_start_times :=
        mapInsert s.charging_start_times a.aircraft_id s.current_time_hours }
    ⟨a.aircraft_id, a.get_charge_time_hours, wt⟩
    (s.current_time_hours + a.get_charge_time_hours)
    hInv1 hcur (by linarith) hfaulted hfc hcc hfa hwait
  rw [heq]
  obtain ⟨h1, h2, h3, h4, h5, h6, h7, h8⟩ := hmain
  refine ⟨h1, h2, h3, h4, h5, h6, ?_, ?_⟩
  · intro x hx
    rcases h7 x hx with hx | hx
    · exact Or.inl hx
    · exact Or.inr (classifier_of_data_cc x _ hx a.aircraft_id).2.2.2
  · intro p hp
    exact h8 p (fun x hx => hp x (classifier_of_data_cc x _ hx a.aircraft_id).2.2.2)

/-- A fault push followed by a flight-complete push for the same aircraft
(the two `schedule_event` calls `schedule_flight` makes when the sampler
reports a fault): invariant preservation and a full account of the change. -/
theorem schedule_flight_push_pair (s2 : SimState) (aid : Int) (tf ft dist : ℚ)
    (b : Bool) (hInv2 : Inv s2)
    (hcur2 : s2.current_time_hours ≤ s2.simulation_duration_hours)
    (h0 : 0 ≤ tf) (hlt : tf < ft)
    (hfaulted2 : isFaultedIn s2 aid = false)
    (hfc2 : s2.event_queue.countP (isFlightCompleteFor aid) = 0)
    (hcc2 : ∀ c ∈ s2.event_queue, isChargingCompleteFor aid c = false)
    (hfa2 : ∀ c ∈ s2.event_queue, isFaultFor aid c = false)
    (hwait2 : aid ∉ s2.charger.waiting_queue) :
    Inv (schedule_event
      (schedule_event s2 .FAULT_OCCURRED (s2.current_time_hours + tf)
        (.fault ⟨aid, tf⟩))
      .FLIGHT_COMPLETE
      ((schedule_event s2 .FAULT_OCCURRED (s2.current_time_hours + tf)
        (.fault ⟨aid, tf⟩)).current_time_hours + ft)
      (.flightComplete ⟨aid, ft, dist, b⟩)) ∧
    (schedule_event
      (schedule_event s2 .FAULT_OCCURRED (s2.current_time_hours + tf)
        (.fault ⟨aid, tf⟩))
      .FLIGHT_COMPLETE
      ((schedule_event s2 .FAULT_OCCURRED (s2.current_time_hours + tf)
        (.fault ⟨aid, tf⟩)).current_time_hours + ft)
      (.flightComplete ⟨aid, ft, dist, b⟩)).fleet = s2.fleet ∧
    (schedule_event
      (schedule_event s2 .FAULT_OCCURRED (s2.current_time_hours + tf)
        (.fault ⟨aid, tf⟩))
      .FLIGHT_COMPLETE
      ((schedule_event s2 .FAULT_OCCURRED (s2.current_time_hours + tf)
        (.fault ⟨aid, tf⟩)).current_time_hours + ft)
      (.flightComplete ⟨aid, ft, dist, b⟩)).charger = s2.charger ∧
    (schedule_event
      (schedule_event s2 .FAULT_OCCURRED (s2.current_time_hours + tf)
        (.fault ⟨aid, tf⟩))
      .FLIGHT_COMPLETE
      ((schedule_event s2 .FAULT_OCCURRED (s2.current_time_hours + tf)
        (.fault ⟨aid, tf⟩)).current_time_hours + ft)
      (.flightComplete ⟨aid, ft, dist, b⟩)).current_time_hours =
        s2.current_time_hours ∧
    (schedule_event
      (schedule_event s2 .FAULT_OCCURRED (s2.current_time_hours + tf)
        (.fault ⟨aid, tf⟩))
      .FLIGHT_COMPLETE
      ((schedule_event s2 .FAULT_OCCURRED (s2.current_time_hours + tf)
        (.fault ⟨aid, tf⟩)).current_time_hours + ft)
      (.flightComplete ⟨aid, ft, dist, b⟩)).simulation_duration_hours =
        s2.simulation_duration_hours ∧
    (schedule_event
      (schedule_event s2 .FAULT_OCCURRED (s2.current_time_hours + tf)
        (.fault ⟨aid, tf⟩))
      .FLIGHT_COMPLETE
      ((schedule_event s2 .FAULT_OCCURRED (s2.current_time_hours + tf)
        (.fault ⟨aid, tf⟩)).current_time_hours + ft)
      (.flightComplete ⟨aid, ft, dist, b⟩)).draws = s2.draws ∧
    (∀ x ∈ (schedule_event
      (schedule_event s2 .FAULT_OCCURRED (s2.current_time_hours + tf)
        (.fault ⟨aid, tf⟩))
      .FLIGHT_COMPLETE
      ((schedule_event s2 .FAULT_OCCURRED (s2.current_time_hours + tf)
        (.fault ⟨aid, tf⟩)).current_time_hours + ft)
      (.flightComplete ⟨aid, ft, dist, b⟩)).event_queue,
      x ∈ s2.event_queue ∨ x.data.aircraft_id = aid) ∧
    (∀ p : SimEvent → Bool, (∀ x : SimEvent, x.data.aircraft_id = aid → p x = false) →
      (schedule_event
        (schedule_event s2 .FAULT_OCCURRED (s2.current_time_hours + tf)
          (.fault ⟨aid, tf⟩))
        .FLIGHT_COMPLETE
        ((schedule_event s2 .FAULT_OCCURRED (s2.current_time_hours + tf)
          (.fault ⟨aid, tf⟩)).current_time_hours + ft)
        (.flightComplete ⟨aid, ft, dist, b⟩)).event_queue.countP p =
          s2.event_queue.countP p) := by
  have hfc0 : ∀ c ∈ s2.event_queue, isFlightCompleteFor aid c = false :=
    countP_zero_pointwise _ _ hfc2
  obtain ⟨f1, f2, f3, f4, f5, f6, f7, f8⟩ := schedule_event_fault_inv s2 ⟨aid, tf⟩
    (s2.current_time_hours + tf) hInv2 (by linarith) hfaulted2 hwait2 hcc2
    (pointwise_countP_zero _ _ hfa2)
    (fun c hc hfcc => absurd hfcc (by simp [hfc0 c hc]))
  obtain ⟨g1, g2, g3, g4, g5, g6, g7, g8⟩ := schedule_event_flight_inv
    (schedule_event s2 .FAULT_OCCURRED (s2.current_time_hours + tf) (.fault ⟨aid, tf⟩))
    ⟨aid, ft, dist, b⟩
    ((schedule_event s2 .FAULT_OCCURRED (s2.current_time_hours + tf)
      (.fault ⟨aid, tf⟩)).current_time_hours + ft)
    f1
    (by rw [f4, f5]; exact hcur2)
    (by have hft : (0 : ℚ) < ft := lt_of_le_of_lt h0 hlt; linarith)
    (by
      intro c hc
      rcases f7 c hc with hc | hc
      · exact hcc2 c hc
      · rw [hc]
        rfl)
    (by
      rw [f8 (isFlightCompleteFor aid) rfl]
      exact hfc2)
    (by
      intro f hf hfaf
      rcases f7 f hf with hf2 | hf2
      · exact absurd hfaf (by simp [hfa2 f hf2])
      · left
        rw [hf2, f4]
        show s2.current_time_hours + tf < s2.current_time_hours + ft
        linarith)
    (by rw [f3]; exact hwait2)
  refine ⟨g1, ?_, ?_, ?_, ?_, ?_, ?_, ?_⟩
  · rw [g2, f2]
  · rw [g3, f3]
  · rw [g4, f4]
  · rw [g5, f5]
  · rw [g6, f6]
  · intro x hx
    rcases g7 x hx with hx | hx
    · rcases f7 x hx with hx2 | hx2
      · exact Or.inl hx2
      · right
        rw [hx2]
        rfl
    · exact Or.inr (classifier_of_data_fc x _ hx aid).2.2.2
  · intro p hp
    rw [g8 p (fun x hx => hp x (classifier_of_data_fc x _ hx aid).2.2.2)]
    exact f8 p (hp _ rfl)

/-- `EventDrivenSimulation::schedule_flight` preserves the invariant when the
target aircraft is freshly charged, unfaulted, has no pending events and is
not queued; only the flight-start map, the draw index and (by pushed events
targeting that aircraft) the event queue change. -/
theorem schedule_flight_inv (s : SimState) (a : AircraftState)
    (hInv : Inv s) (hcur : s.current_time_hours ≤ s.simulation_duration_hours)
    (hbat : a.battery_level = 1)
    (hfaulted : isFaultedIn s a.aircraft_id = false)
    (hfc : s.event_queue.countP (isFlightCompleteFor a.aircraft_id) = 0)
    (hcc : ∀ c ∈ s.event_queue, isChargingCompleteFor a.aircraft_id c = false)
    (hfa : ∀ c ∈ s.event_queue, isFaultFor a.aircraft_id c = false)
    (hwait : a.aircraft_id ∉ s.charger.waiting_queue) :
    Inv (schedule_flight s a) ∧
    (schedule_flight s a).fleet = s.fleet ∧
    (schedule_flight s a).charger = s.charger ∧
    (schedule_flight s a).current_time_hours = s.current_time_hours ∧
    (schedule_flight s a).simulation_duration_hours = s.simulation_duration_hours ∧
    (schedule_flight s a).draws = s.draws ∧
    (∀ x ∈ (schedule_flight s a).event_queue,
      x ∈ s.event_queue ∨ x.data.aircraft_id = a.aircraft_id) ∧
    (∀ p : SimEvent → Bool,
      (∀ x : SimEvent, x.data.aircraft_id = a.aircraft_id → p x = false) →
      (schedule_flight s a).event_queue.countP p = s.event_queue.countP p) := by
  have hft : (0 : ℚ) < a.get_flight_time_hours := flight_time_pos a hbat
  set r := check_fault_during_flight a a.get_flight_time_hours s.draws s.draw_index
    with hr
  have hrange := check_fault_range a a.get_flight_time_hours s.draws s.draw_index
    hInv.draws_range hft
  rw [← hr] at hrange
  have hInv2 : Inv { s with
      flight_start_times :=
        mapInsert s.flight_start_times a.aircraft_id s.current_time_hours,
      draw_index := r.2 } :=
    inv_mono s _ rfl rfl rfl (fun x h => h) hInv.waiting_nodup (fun id => rfl) rfl hInv
  rcases hrange with hA | ⟨h0, hlt⟩
  · have hb : decide (r.1 ≥ 0) = false := decide_eq_false (by rw [hA]; norm_num)
    have heq : schedule_flight s a = schedule_event
        { s with
          flight_start_times :=
            mapInsert s.flight_start_times a.aircraft_id s.current_time_hours,
          draw_index := r.2 }
        .FLIGHT_COMPLETE (s.current_time_hours + a.get_flight_time_hours)
        (.flightComplete ⟨a.aircraft_id, a.get_flight_time_hours,
          a.get_flight_distance_miles, false⟩) := by
      rw [schedule_flight]
      simp only []
      rw [← hr, hb]
      simp only [Bool.false_eq_true, if_false]
    obtain ⟨h1, h2, h3, h4, h5, h6, h7, h8⟩ := schedule_event_flight_inv
      { s with
        flight_start_times :=
          mapInsert s.flight_start_times a.aircraft_id s.current_time_hours,
        draw_index := r.2 }
      ⟨a.aircraft_id, a.get_flight_time_hours, a.get_flight_distance_miles, false⟩
      (s.current_time_hours + a.get_flight_time_hours)
      hInv2 hcur (by linarith) hcc hfc
      (fun f hf hfaf => absurd hfaf (by simp [hfa f hf])) hwait
    rw [heq]
    refine ⟨h1, h2, h3, h4, h5, h6, ?_, ?_⟩
    · intro x hx
      rcases h7 x hx with hx | hx
      · exact Or.inl hx
      · exact Or.inr (classifier_of_data_fc x _ hx a.aircraft_id).2.2.2
    · intro p hp
      exact h8 p (fun x hx => hp x (classifier_of_data_fc x _ hx a.aircraft_id).2.2.2)
  · have hb : decide (r.1 ≥ 0) = true := decide_eq_true h0
    have heq : schedule_flight s a = schedule_event
        (schedule_event
          { s with
            flight_start_times :=
              mapInsert s.flight_start_times a.aircraft_id s.current_time_hours,
            draw_index := r.2 }
          .FAULT_OCCURRED
          (({ s with
            flight_start_times :=
              mapInsert s.flight_start_times a.aircraft_id s.current_time_hours,
            draw_index := r.2 } : SimState).current_time_hours + r.1)
          (.fault ⟨a.aircraft_id, r.1⟩))
        .FLIGHT_COMPLETE
        ((schedule_event
          { s with
            flight_start_times :=
              mapInsert s.flight_start_times a.aircraft_id s.current_time_hours,
            draw_index := r.2 }
          .FAULT_OCCURRED
          (({ s with
            flight_start_times :=
              mapInsert s.flight_start_times a.aircraft_id s.current_time_hours,
            draw_index := r.2 } : SimState).current_time_hours + r.1)
          (.fault ⟨a.aircraft_id, r.1⟩)).current_time_hours +
            a.get_flight_time_hours)
        (.flightComplete ⟨a.aircraft_id, a.get_flight_time_hours,
          a.get_flight_distance_miles, true⟩) := by
      rw [schedule_flight]
      simp only []
      rw [← hr, hb]
      simp only [if_true]
    obtain ⟨h1, h2, h3, h4, h5, h6, h7, h8⟩ := schedule_flight_push_pair
      { s with
        flight_start_times :=
          mapInsert s.flight_start_times a.aircraft_id s.current_time_hours,
        draw_index := r.2 }
      a.aircraft_id r.1 a.get_flight_time_hours a.get_flight_distance_miles true
      hInv2 hcur h0 hlt hfaulted hfc hcc hfa hwait
    rw [heq]
    refine ⟨h1, h2, h3, h4, h5, h6, h7, h8⟩

theorem findAircraft_id (fleet : List AircraftState) (id : Int) (a : AircraftState)
    (h : findAircraft fleet id = some a) : a.aircraft_id = id := by
  have h2 := List.find?_some h
  exact beq_iff_eq.mp h2

theorem isFaultedIn_of_find (s : SimState) (id : Int) (a : AircraftState)
    (h : findAircraft s.fleet id = some a) : isFaultedIn s id = a.is_faulty := by
  rw [isFaultedIn, h]

theorem request_charger_nil (m : ChargerManager) (aid : Int)
    (h : m.available_chargers = []) : m.request_charger aid = (false, m) := by
  rw [ChargerManager.request_charger, h]

theorem request_charger_cons (m : ChargerManager) (aid c : Int) (rest : List Int)
    (h : m.available_chargers = c :: rest) :
    m.request_charger aid = (true,
      { m with
        available_chargers := listErase m.available_chargers c
        aircraft_to_charger_map := imapInsert m.aircraft_to_charger_map aid c
        active_chargers := m.active_chargers + 1 }) := by
  rw [ChargerManager.request_charger, h]

theorem get_next_from_queue_nil (m : ChargerManager)
    (h : m.waiting_queue = []) : m.get_next_from_queue = (-1, m) := by
  rw [ChargerManager.get_next_from_queue, h]

theorem get_next_from_queue_cons (m : ChargerManager) (aid : Int) (rest : List Int)
    (h : m.waiting_queue = aid :: rest) :
    m.get_next_from_queue = (aid, { m with waiting_queue := rest }) := by
  rw [ChargerManager.get_next_from_queue, h]

/-- `handle_fault` preserves the invariant when dispatched on a state whose
queue holds no event at all for the faulting aircraft and whose waiting queue
does not hold it (as is the case right after its fault event is popped); the
fault bit of that aircraft is set and nothing is scheduled. -/
theorem handle_fault_inv (s : SimState) (d : FaultData)
    (hInv : Inv s)
    (hcc0 : ∀ c ∈ s.event_queue, isChargingCompleteFor d.aircraft_id c = false)
    (hfa0 : ∀ c ∈ s.event_queue, isFaultFor d.aircraft_id c = false)
    (hwait0 : d.aircraft_id ∉ s.charger.waiting_queue) :
    Inv (handle_fault s d) ∧
    (∀ id, isFaultedIn s id = true → isFaultedIn (handle_fault s d) id = true) ∧
    (∀ id, isFaultedIn (handle_fault s d) id = true →
      (handle_fault s d).event_queue.countP (isEventFor id) ≤
        s.event_queue.countP (isEventFor id)) := by
  cases hfind : findAircraft s.fleet d.aircraft_id with
  | none =>
      have heq : handle_fault s d = s := by
        rw [handle_fault, hfind]
      rw [heq]
      exact ⟨hInv, fun id h => h, fun id h => le_rfl⟩
  | some a0 =>
      have heq : handle_fault s d = { s with
          fleet := updateFirst s.fleet d.aircraft_id (·.set_faulty true)
          stats := s.stats.record_fault a0.ty } := by
        rw [handle_fault, hfind]
      rw [heq]
      have hmono := isFaultedIn_set_faulty_mono s
        { s with
          fleet := updateFirst s.fleet d.aircraft_id (·.set_faulty true)
          stats := s.stats.record_fault a0.ty } d.aircraft_id rfl
      have hne := isFaultedIn_set_faulty_ne s
        { s with
          fleet := updateFirst s.fleet d.aircraft_id (·.set_faulty true)
          stats := s.stats.record_fault a0.ty } d.aircraft_id rfl
      refine ⟨?_, fun id h => hmono id h, fun id h => le_rfl⟩
      constructor
      · exact hInv.heap
      · exact hInv.times
      · exact hInv.fc_unique
      · exact hInv.cc_unique
      · exact hInv.fault_unique
      · intro e he id hf
        by_cases hid : id = d.aircraft_id
        · subst hid
          rw [hfa0 e he] at hf
          exact absurd hf (by simp)
        · obtain ⟨h1, h2, h3, h4⟩ := hInv.fault_ok e he id hf
          exact ⟨by rw [hne id hid]; exact h1, h2, h3, h4⟩
      · intro e he id hce
        obtain ⟨h1, h2⟩ := hInv.cc_ok e he id hce
        refine ⟨?_, h2⟩
        by_cases hid : id = d.aircraft_id
        · subst hid
          rw [hcc0 e he] at hce
          exact absurd hce (by simp)
        · rw [hne id hid]
          exact h1
      · intro id hmem
        obtain ⟨h1, h2, h3⟩ := hInv.waiting_ok id hmem
        refine ⟨?_, h2, h3⟩
        by_cases hid : id = d.aircraft_id
        · subst hid
          exact absurd hmem hwait0
        · rw [hne id hid]
          exact h1
      · exact hInv.waiting_nodup
      · exact hInv.draws_range

/-- `handle_flight_complete` preserves the invariant when dispatched on a
state whose queue holds no event for the landing aircraft and whose waiting
queue does not hold it (as is the case right after its flight-complete event
is popped in-loop); a faulted aircraft is neither queued nor scheduled. -/
theorem handle_flight_complete_inv (s : SimState) (d : FlightCompleteData)
    (hInv : Inv s)
    (hcur : s.current_time_hours < s.simulation_duration_hours)
    (hfc0 : s.event_queue.countP (isFlightCompleteFor d.aircraft_id) = 0)
    (hcc0 : ∀ c ∈ s.event_queue, isChargingCompleteFor d.aircraft_id c = false)
    (hfa0 : ∀ c ∈ s.event_queue, isFaultFor d.aircraft_id c = false)
    (hwait0 : d.aircraft_id ∉ s.charger.waiting_queue) :
    Inv (handle_flight_complete s d) ∧
    (∀ id, isFaultedIn s id = true → isFaultedIn (handle_flight_complete s d) id = true) ∧
    (∀ id, isFaultedIn (handle_flight_complete s d) id = true →
      (handle_flight_complete s d).event_queue.countP (isEventFor id) ≤
        s.event_queue.countP (isEventFor id)) := by
  cases hfind : findAircraft s.fleet d.aircraft_id with
  | none =>
      have heq : handle_flight_complete s d = s := by
        rw [handle_flight_complete, hfind]
      rw [heq]
      exact ⟨hInv, fun id h => h, fun id h => le_rfl⟩
  | some a0 =>
      have hida : a0.aircraft_id = d.aircraft_id := findAircraft_id _ _ _ hfind
      have hfc0pw : ∀ c ∈ s.event_queue, isFlightCompleteFor d.aircraft_id c = false :=
        countP_zero_pointwise _ _ hfc0
      by_cases hfau : a0.is_faulty = true
      · -- faulted aircraft: fleet/stats/map bookkeeping only
        have heq : handle_flight_complete s d = { s with
            fleet := updateFirst s.fleet d.aircraft_id AircraftState.discharge_battery
            stats := s.stats.record_flight a0.ty d.flight_time d.distance
              (passenger_count a0.ty)
            flight_start_times := mapErase s.flight_start_times d.aircraft_id } := by
          rw [handle_flight_complete, hfind]
          simp only [AircraftState.discharge_battery]
          rw [if_neg (not_not_intro hfau)]
        rw [heq]
        have hfI := isFaultedIn_updateFirst s
          { s with
            fleet := updateFirst s.fleet d.aircraft_id AircraftState.discharge_battery
            stats := s.stats.record_flight a0.ty d.flight_time d.distance
              (passenger_count a0.ty)
            flight_start_times := mapErase s.flight_start_times d.aircraft_id }
          d.aircraft_id AircraftState.discharge_battery rfl (fun _ => rfl) (fun _ => rfl)
        refine ⟨inv_mono s _ rfl rfl rfl (fun x h => h) hInv.waiting_nodup hfI rfl hInv,
          fun id h => by rw [hfI id]; exact h, fun id h => le_rfl⟩
      · -- healthy aircraft: discharge, then try to acquire a slot
        have hfau' : a0.is_faulty = false := by
          cases hb : a0.is_faulty
          · rfl
          · exact absurd hb hfau
        have hfaulted_d : isFaultedIn s d.aircraft_id = false := by
          rw [isFaultedIn_of_find s d.aircraft_id a0 hfind]
          exact hfau'
        cases havail : s.charger.available_chargers with
        | nil =>
            -- no free slot: the aircraft is appended to the waiting queue
            have heq : handle_flight_complete s d = { s with
                fleet := updateFirst s.fleet d.aircraft_id
                  AircraftState.discharge_battery
                stats := s.stats.record_flight a0.ty d.flight_time d.distance
                  (passenger_count a0.ty)
                flight_start_times := mapErase s.flight_start_times d.aircraft_id
                charger := s.charger.add_to_queue a0.aircraft_id
                waiting_start_times := mapInsert s.waiting_start_times a0.aircraft_id
                  s.current_time_hours } := by
              rw [handle_flight_complete, hfind]
              simp only [AircraftState.discharge_battery]
              rw [if_pos hfau, request_charger_nil s.charger a0.aircraft_id havail]
              simp only [Bool.false_eq_true, if_false]
            rw [heq]
            have hfI := isFaultedIn_updateFirst s
              { s with
                fleet := updateFirst s.fleet d.aircraft_id
                  AircraftState.discharge_battery
                stats := s.stats.record_flight a0.ty d.flight_time d.distance
                  (passenger_count a0.ty)
                flight_start_times := mapErase s.flight_start_times d.aircraft_id
                charger := s.charger.add_to_queue a0.aircraft_id
                waiting_start_times := mapInsert s.waiting_start_times a0.aircraft_id
                  s.current_time_hours }
              d.aircraft_id AircraftState.discharge_battery rfl (fun _ => rfl)
              (fun _ => rfl)
            refine ⟨?_, fun id h => by rw [hfI id]; exact h, fun id h => le_rfl⟩
            constructor
            · exact hInv.heap
            · exact hInv.times
            · exact hInv.fc_unique
            · exact hInv.cc_unique
            · exact hInv.fault_unique
            · intro e he id hf
              obtain ⟨h1, h2, h3, h4⟩ := hInv.fault_ok e he id hf
              refine ⟨by rw [hfI id]; exact h1, ?_, h3, h4⟩
              intro hmem
              simp only [ChargerManager.add_to_queue, List.mem_append,
                List.mem_singleton] at hmem
              rcases hmem with hmem | hmem
              · exact h2 hmem
              · subst hmem
                rw [hida] at hf
                rw [hfa0 e he] at hf
                exact absurd hf (by simp)
            · intro e he id hce
              obtain ⟨h1, h2⟩ := hInv.cc_ok e he id hce
              exact ⟨by rw [hfI id]; exact h1, h2⟩
            · intro id hmem
              simp only [ChargerManager.add_to_queue, List.mem_append,
                List.mem_singleton] at hmem
              rcases hmem with hmem | hmem
              · obtain ⟨h1, h2, h3⟩ := hInv.waiting_ok id hmem
                exact ⟨by rw [hfI id]; exact h1, h2, h3⟩
              · subst hmem
                refine ⟨by rw [hfI a0.aircraft_id, hida]; exact hfaulted_d, ?_, ?_⟩
                · intro c hc
                  rw [hida]
                  exact hfc0pw c hc
                · intro c hc
                  rw [hida]
                  exact hcc0 c hc
            · show (s.charger.add_to_queue a0.aircraft_id).waiting_queue.Nodup
              simp only [ChargerManager.add_to_queue]
              rw [List.nodup_append]
              refine ⟨hInv.waiting_nodup, List.nodup_singleton _, ?_⟩
              intro x hx hx'
              rw [List.mem_singleton] at hx'
              subst hx'
              rw [hida] at hx
              exact hwait0 hx
            · exact hInv.draws_range
        | cons c rest =>
            -- a slot is free: acquire it and schedule charging
            have heq : handle_flight_complete s d = schedule_charging
                { s with
                  fleet := updateFirst s.fleet d.aircraft_id
                    AircraftState.discharge_battery
                  stats := s.stats.record_flight a0.ty d.flight_time d.distance
                    (passenger_count a0.ty)
                  flight_start_times := mapErase s.flight_start_times d.aircraft_id
                  charger := { s.charger with
                    available_chargers := listErase s.charger.available_chargers c
                    aircraft_to_charger_map :=
                      imapInsert s.charger.aircraft_to_charger_map a0.aircraft_id c
                    active_chargers := s.charger.active_chargers + 1 } }
                { a0 with battery_level := 0 } 0 := by
              rw [handle_flight_complete, hfind]
              simp only [AircraftState.discharge_battery]
              rw [if_pos hfau, request_charger_cons s.charger a0.aircraft_id c rest havail]
              simp only [if_true]
            rw [heq]
            have hfI := isFaultedIn_updateFirst s
              { s with
                fleet := updateFirst s.fleet d.aircraft_id
                  AircraftState.discharge_battery
                stats := s.stats.record_flight a0.ty d.flight_time d.distance
                  (passenger_count a0.ty)
                flight_start_times := mapErase s.flight_start_times d.aircraft_id
                charger := { s.charger with
                  available_chargers := listErase s.charger.available_chargers c
                  aircraft_to_charger_map :=
                    imapInsert s.charger.aircraft_to_charger_map a0.aircraft_id c
                  active_chargers := s.charger.active_chargers + 1 } }
              d.aircraft_id AircraftState.discharge_battery rfl (fun _ => rfl)
              (fun _ => rfl)
            obtain ⟨h1, h2, h3, h4, h5, h6, h7, h8⟩ := schedule_charging_inv
              { s with
                fleet := updateFirst s.fleet d.aircraft_id
                  AircraftState.discharge_battery
                stats := s.stats.record_flight a0.ty d.flight_time d.distance
                  (passenger_count a0.ty)
                flight_start_times := mapErase s.flight_start_times d.aircraft_id
                charger := { s.charger with
                  available_chargers := listErase s.charger.available_chargers c
                  aircraft_to_charger_map :=
                    imapInsert s.charger.aircraft_to_charger_map a0.aircraft_id c
                  active_chargers := s.charger.active_chargers + 1 } }
              { a0 with battery_level := 0 } 0
              (inv_mono s _ rfl rfl rfl (fun x h => h) hInv.waiting_nodup hfI rfl hInv)
              (le_of_lt hcur)
              (by
                show isFaultedIn _ a0.aircraft_id = false
                rw [hfI a0.aircraft_id, hida]
                exact hfaulted_d)
              (by
                intro x hx
                show isFlightCompleteFor a0.aircraft_id x = false
                rw [hida]
                exact hfc0pw x hx)
              (by
                show List.countP (isChargingCompleteFor a0.aircraft_id) _ = 0
                rw [hida]
                exact pointwise_countP_zero _ _ hcc0)
              (by
                intro x hx
                show isFaultFor a0.aircraft_id x = false
                rw [hida]
                exact hfa0 x hx)
              (by
                show a0.aircraft_id ∉ s.charger.waiting_queue
                rw [hida]
                exact hwait0)
            refine ⟨h1, ?_, ?_⟩
            · intro id h
              have := isFaultedIn_congr _ _ h2 id
              rw [this, hfI id]
              exact h
            · intro id h
              have hid_ne : id ≠ a0.aircraft_id := by
                intro hcontra
                subst hcontra
                rw [isFaultedIn_congr _ _ h2 a0.aircraft_id, hfI a0.aircraft_id,
                  hida, hfaulted_d] at h
                exact absurd h (by simp)
              have hcnt := h8 (isEventFor id) (fun x hx =>
                isEventFor_eq_false id x (by rw [hx]; exact fun hc => hid_ne hc.symm))
              rw [hcnt]

theorem schedule_event_fleet (s : SimState) (ty : EventType) (t : ℚ) (data : EventData) :
    (schedule_event s ty t data).fleet = s.fleet := by
  rcases schedule_event_cases s ty t data with h | ⟨-, h⟩ | ⟨-, -, h⟩ <;> rw [h]

theorem schedule_event_counts (s : SimState) (ty : EventType) (t : ℚ)
    (data : EventData) (p : SimEvent → Bool) (hp : ∀ u : ℚ, p ⟨ty, u, data⟩ = false) :
    (schedule_event s ty t data).event_queue.countP p = s.event_queue.countP p := by
  rcases schedule_event_cases s ty t data with h | ⟨-, h⟩ | ⟨-, -, h⟩ <;> rw [h]
  · show (heap_push s.event_queue _).countP p = s.event_queue.countP p
    rw [countP_heap_push, hp t]
    simp
  · show (heap_push s.event_queue _).countP p = s.event_queue.countP p
    rw [countP_heap_push, hp s.simulation_duration_hours]
    simp

theorem schedule_charging_fleet (s : SimState) (a : AircraftState) (wt : ℚ) :
    (schedule_charging s a wt).fleet = s.fleet :=
  schedule_event_fleet _ _ _ _

theorem schedule_charging_counts (s : SimState) (a : AircraftState) (wt : ℚ)
    (p : SimEvent → Bool)
    (hp : ∀ x : SimEvent, x.data.aircraft_id = a.aircraft_id → p x = false) :
    (schedule_charging s a wt).event_queue.countP p = s.event_queue.countP p :=
  schedule_event_counts _ _ _ _ p (fun u => hp ⟨.CHARGING_COMPLETE, u,
    .chargingComplete ⟨a.aircraft_id, a.get_charge_time_hours, wt⟩⟩ rfl)

theorem request_charger_waiting (m : ChargerManager) (aid : Int) :
    (m.request_charger aid).2.waiting_queue = m.waiting_queue := by
  cases havail : m.available_chargers with
  | nil => rw [request_charger_nil m aid havail]
  | cons c rest => rw [request_charger_cons m aid c rest havail]

/-- `handle_charging_complete` preserves the invariant when dispatched on a
state whose queue holds no event for the charging aircraft and whose waiting
queue does not hold it (as is the case right after its charging-complete
event is popped in-loop); promotion only ever schedules charging for an
unfaulted waiting aircraft. -/
theorem handle_charging_complete_inv (s : SimState) (d : ChargingCompleteData)
    (hInv : Inv s)
    (hcur : s.current_time_hours < s.simulation_duration_hours)
    (hfaulted0 : isFaultedIn s d.aircraft_id = false)
    (hfc0 : ∀ c ∈ s.event_queue, isFlightCompleteFor d.aircraft_id c = false)
    (hcc0 : s.event_queue.countP (isChargingCompleteFor d.aircraft_id) = 0)
    (hfa0 : ∀ c ∈ s.event_queue, isFaultFor d.aircraft_id c = false)
    (hwait0 : d.aircraft_id ∉ s.charger.waiting_queue) :
    Inv (handle_charging_complete s d) ∧
    (∀ id, isFaultedIn s id = true →
      isFaultedIn (handle_charging_complete s d) id = true) ∧
    (∀ id, isFaultedIn (handle_charging_complete s d) id = true →
      (handle_charging_complete s d).event_queue.countP (isEventFor id) ≤
        s.event_queue.countP (isEventFor id)) := by
  cases hfind : findAircraft s.fleet d.aircraft_id with
  | none =>
      have heq : handle_charging_complete s d = s := by
        rw [handle_charging_complete, hfind]
      rw [heq]
      exact ⟨hInv, fun id h => h, fun id h => le_rfl⟩
  | some a0 =>
      have hida : a0.aircraft_id = d.aircraft_id := findAircraft_id _ _ _ hfind
      have hfau' : a0.is_faulty = false := by
        have h2 := isFaultedIn_of_find s d.aircraft_id a0 hfind
        rw [hfaulted0] at h2
        exact h2.symm
      have hfau_neg : ¬a0.is_faulty = true := by
        rw [hfau']
        exact Bool.false_ne_true
      have hfI2 : ∀ id, isFaultedIn { s with
          fleet := updateFirst s.fleet d.aircraft_id AircraftState.charge_battery
          stats := s.stats.record_charge_session a0.ty d.charge_time d.waiting_time
          charging_start_times := mapErase s.charging_start_times d.aircraft_id }
          id = isFaultedIn s id :=
        isFaultedIn_updateFirst s _ d.aircraft_id AircraftState.charge_battery rfl
          (fun _ => rfl) (fun _ => rfl)
      have hInv2 : Inv { s with
          fleet := updateFirst s.fleet d.aircraft_id AircraftState.charge_battery
          stats := s.stats.record_charge_session a0.ty d.charge_time d.waiting_time
          charging_start_times := mapErase s.charging_start_times d.aircraft_id } :=
        inv_mono s _ rfl rfl rfl (fun x h => h) hInv.waiting_nodup hfI2 rfl hInv
      obtain ⟨F1, F2, F3, F4, F5, F6, F7, F8⟩ := schedule_flight_inv
        { s with
          fleet := updateFirst s.fleet d.aircraft_id AircraftState.charge_battery
          stats := s.stats.record_charge_session a0.ty d.charge_time d.waiting_time
          charging_start_times := mapErase s.charging_start_times d.aircraft_id }
        { a0 with battery_level := 1 }
        hInv2 (le_of_lt hcur) rfl
        (by
          show isFaultedIn _ a0.aircraft_id = false
          rw [hfI2 a0.aircraft_id, hida]
          exact hfaulted0)
        (by
          show List.countP (isFlightCompleteFor a0.aircraft_id) s.event_queue = 0
          rw [hida]
          exact pointwise_countP_zero _ _ hfc0)
        (by
          intro c hc
          show isChargingCompleteFor a0.aircraft_id c = false
          rw [hida]
          exact countP_zero_pointwise _ _ hcc0 c hc)
        (by
          intro c hc
          show isFaultFor a0.aircraft_id c = false
          rw [hida]
          exact hfa0 c hc)
        (by
          show a0.aircraft_id ∉ s.charger.waiting_queue
          rw [hida]
          exact hwait0)
      have hSFf := fun id => (isFaultedIn_congr _ _ F2 id).trans (hfI2 id)
      rw [handle_charging_complete, hfind]
      simp only [AircraftState.charge_battery]
      rw [if_pos (show s.current_time_hours < s.simulation_duration_hours ∧
        ¬a0.is_faulty = true from ⟨hcur, hfau_neg⟩)]
      rw [F3]
      simp only []
      generalize hSFgen : schedule_flight
        { s with
          fleet := updateFirst s.fleet d.aircraft_id AircraftState.charge_battery
          stats := s.stats.record_charge_session a0.ty d.charge_time d.waiting_time
          charging_start_times := mapErase s.charging_start_times d.aircraft_id }
        { a0 with battery_level := 1 } = sF
      rw [hSFgen] at F1 F2 F3 F4 F5 F6 F7 F8 hSFf
      cases hwq : s.charger.waiting_queue with
      | nil =>
          rw [get_next_from_queue_nil s.charger hwq]
          simp only []
          rw [if_neg (not_not_intro rfl)]
          refine ⟨inv_mono _ _ ?_ ?_ ?_ ?_ ?_ ?_ ?_ F1, ?_, ?_⟩
          · rfl
          · rfl
          · rfl
          · intro x h
            rw [F3]
            exact h
          · exact hInv.waiting_nodup
          · intro id
            rfl
          · rfl
          · intro id h
            exact (hSFf id).trans h
          · intro id h
            have hs : isFaultedIn s id = true := ((hSFf id).symm.trans h)
            have hid_ne_d : d.aircraft_id ≠ id := by
              intro hc
              rw [← hc, hfaulted0] at hs
              exact absurd hs (by simp)
            exact le_of_eq (F8 (isEventFor id) (fun x hx =>
              isEventFor_eq_false id x (by rw [hx, hida]; exact hid_ne_d)))
      | cons w ws =>
          have hw_mem : w ∈ s.charger.waiting_queue := by
            rw [hwq]
            exact List.mem_cons_self _ _
          obtain ⟨hwf, hwfc, hwcc⟩ := hInv.waiting_ok w hw_mem
          have hnodup := hInv.waiting_nodup
          rw [hwq] at hnodup
          have hw_notin_ws : w ∉ ws := (List.nodup_cons.mp hnodup).1
          have hws_nodup : ws.Nodup := (List.nodup_cons.mp hnodup).2
          have hw_ne_d : w ≠ d.aircraft_id := fun hc => hwait0 (hc ▸ hw_mem)
          have hwfa : ∀ c ∈ s.event_queue, isFaultFor w c = false := by
            intro c hc
            cases hb : isFaultFor w c
            · rfl
            · exact absurd hw_mem (hInv.fault_ok c hc w hb).2.1
          rw [get_next_from_queue_cons s.charger w ws hwq]
          simp only []
          by_cases hwm1 : w = -1
          · rw [if_neg (not_not_intro hwm1)]
            refine ⟨inv_mono _ _ ?_ ?_ ?_ ?_ ?_ ?_ ?_ F1, ?_, ?_⟩
            · rfl
            · rfl
            · rfl
            · intro x h
              rw [F3]
              show x ∈ s.charger.waiting_queue
              rw [hwq]
              exact List.mem_cons_of_mem _ h
            · exact hws_nodup
            · intro id
              rfl
            · rfl
            · intro id h
              exact (hSFf id).trans h
            · intro id h
              have hs : isFaultedIn s id = true := ((hSFf id).symm.trans h)
              have hid_ne_d : d.aircraft_id ≠ id := by
                intro hc
                rw [← hc, hfaulted0] at hs
                exact absurd hs (by simp)
              exact le_of_eq (F8 (isEventFor id) (fun x hx =>
                isEventFor_eq_false id x (by rw [hx, hida]; exact hid_ne_d)))
          · rw [if_pos hwm1]
            have hfw : findAircraft sF.fleet w = findAircraft s.fleet w := by
              rw [F2]
              exact findAircraft_updateFirst_ne s.fleet d.aircraft_id w
                AircraftState.charge_battery hw_ne_d (fun _ => rfl)
            rw [hfw]
            cases hfind2 : findAircraft s.fleet w with
            | none =>
                simp only []
                refine ⟨inv_mono _ _ ?_ ?_ ?_ ?_ ?_ ?_ ?_ F1, ?_, ?_⟩
                · rfl
                · rfl
                · rfl
                · intro x h
                  rw [F3]
                  show x ∈ s.charger.waiting_queue
                  rw [hwq]
                  exact List.mem_cons_of_mem _ h
                · exact hws_nodup
                · intro id
                  rfl
                · rfl
                · intro id h
                  exact (hSFf id).trans h
                · intro id h
                  have hs : isFaultedIn s id = true := ((hSFf id).symm.trans h)
                  have hid_ne_d : d.aircraft_id ≠ id := by
                    intro hc
                    rw [← hc, hfaulted0] at hs
                    exact absurd hs (by simp)
                  exact le_of_eq (F8 (isEventFor id) (fun x hx =>
                    isEventFor_eq_false id x (by rw [hx, hida]; exact hid_ne_d)))
            | some na =>
                simp only []
                have hna_id : na.aircraft_id = w := findAircraft_id _ _ _ hfind2
                simp only [ChargerManager.assign_charger]
                cases hml : mapLookup sF.waiting_start_times w with
                | none =>
                    simp only []
                    refine ⟨(schedule_charging_inv _ na _ ?_ ?_ ?_ ?_ ?_ ?_ ?_).1, ?_, ?_⟩
                    · refine inv_mono _ _ ?_ ?_ ?_ ?_ ?_ ?_ ?_ F1
                      · rfl
                      · rfl
                      · rfl
                      · intro x h
                        rw [request_charger_waiting] at h
                        rw [F3]
                        show x ∈ s.charger.waiting_queue
                        rw [hwq]
                        exact List.mem_cons_of_mem _ h
                      · show ((ChargerManager.request_charger _ w).2).waiting_queue.Nodup
                        rw [request_charger_waiting]
                        exact hws_nodup
                      · intro id
                        rfl
                      · rfl
                    · simp only [F4, F5]
                      exact le_of_lt hcur
                    · rw [hna_id]
                      exact (hSFf w).trans hwf
                    · intro c hc
                      rw [hna_id]
                      rcases F7 c hc with hc2 | hc2
                      · exact hwfc c hc2
                      · exact (classifier_eq_false_of_eventFor w c
                          (isEventFor_eq_false w c
                            (by rw [hc2, hida]; exact Ne.symm hw_ne_d))).1
                    · rw [hna_id]
                      exact (F8 (isChargingCompleteFor w) (fun x hx =>
                        (classifier_eq_false_of_eventFor w x
                          (isEventFor_eq_false w x
                            (by rw [hx, hida]; exact Ne.symm hw_ne_d))).2.1)).trans
                        (pointwise_countP_zero _ _ hwcc)
                    · intro c hc
                      rw [hna_id]
                      rcases F7 c hc with hc2 | hc2
                      · exact hwfa c hc2
                      · exact (classifier_eq_false_of_eventFor w c
                          (isEventFor_eq_false w c
                            (by rw [hc2, hida]; exact Ne.symm hw_ne_d))).2.2
                    · rw [hna_id]
                      intro hmem
                      rw [request_charger_waiting] at hmem
                      exact hw_notin_ws hmem
                    · intro id h
                      rw [isFaultedIn_congr _ _ (schedule_charging_fleet _ _ _)]
                      exact (hSFf id).trans h
                    · intro id h
                      rw [isFaultedIn_congr _ _ (schedule_charging_fleet _ _ _)] at h
                      have hs : isFaultedIn s id = true :=
                        (hSFf id).symm.trans h
                      have hid_ne_d : d.aircraft_id ≠ id := by
                        intro hc
                        rw [← hc, hfaulted0] at hs
                        exact absurd hs (by simp)
                      have hid_ne_w : w ≠ id := by
                        intro hc
                        rw [← hc, hwf] at hs
                        exact absurd hs (by simp)
                      refine le_of_eq ((schedule_charging_counts _ na _ (isEventFor id)
                        (fun x hx => isEventFor_eq_false id x
                          (by rw [hx, hna_id]; exact hid_ne_w))).trans
                        (F8 (isEventFor id) (fun x hx =>
                          isEventFor_eq_false id x (by rw [hx, hida]; exact hid_ne_d))))
                | some w0 =>
                    simp only []
                    refine ⟨(schedule_charging_inv _ na _ ?_ ?_ ?_ ?_ ?_ ?_ ?_).1, ?_, ?_⟩
                    · refine inv_mono _ _ ?_ ?_ ?_ ?_ ?_ ?_ ?_ F1
                      · rfl
                      · rfl
                      · rfl
                      · intro x h
                        rw [request_charger_waiting] at h
                        rw [F3]
                        show x ∈ s.charger.waiting_queue
                        rw [hwq]
                        exact List.mem_cons_of_mem _ h
                      · show ((ChargerManager.request_charger _ w).2).waiting_queue.Nodup
                        rw [request_charger_waiting]
                        exact hws_nodup
                      · intro id
                        rfl
                      · rfl
                    · simp only [F4, F5]
                      exact le_of_lt hcur
                    · rw [hna_id]
                      exact (hSFf w).trans hwf
                    · intro c hc
                      rw [hna_id]
                      rcases F7 c hc with hc2 | hc2
                      · exact hwfc c hc2
                      · exact (classifier_eq_false_of_eventFor w c
                          (isEventFor_eq_false w c
                            (by rw [hc2, hida]; exact Ne.symm hw_ne_d))).1
                    · rw [hna_id]
                      exact (F8 (isChargingCompleteFor w) (fun x hx =>
                        (classifier_eq_false_of_eventFor w x
                          (isEventFor_eq_false w x
                            (by rw [hx, hida]; exact Ne.symm hw_ne_d))).2.1)).trans
                        (pointwise_countP_zero _ _ hwcc)
                    · intro c hc
                      rw [hna_id]
                      rcases F7 c hc with hc2 | hc2
                      · exact hwfa c hc2
                      · exact (classifier_eq_false_of_eventFor w c
                          (isEventFor_eq_false w c
                            (by rw [hc2, hida]; exact Ne.symm hw_ne_d))).2.2
                    · rw [hna_id]
                      intro hmem
                      rw [request_charger_waiting] at hmem
                      exact hw_notin_ws hmem
                    · intro id h
                      rw [isFaultedIn_congr _ _ (schedule_charging_fleet _ _ _)]
                      exact (hSFf id).trans h
                    · intro id h
                      rw [isFaultedIn_congr _ _ (schedule_charging_fleet _ _ _)] at h
                      have hs : isFaultedIn s id = true :=
                        (hSFf id).symm.trans h
                      have hid_ne_d : d.aircraft_id ≠ id := by
                        intro hc
                        rw [← hc, hfaulted0] at hs
                        exact absurd hs (by simp)
                      have hid_ne_w : w ≠ id := by
                        intro hc
                        rw [← hc, hwf] at hs
                        exact absurd hs (by simp)
                      refine le_of_eq ((schedule_charging_counts _ na _ (isEventFor id)
                        (fun x hx => isEventFor_eq_false id x
                          (by rw [hx, hna_id]; exact hid_ne_w))).trans
                        (F8 (isEventFor id) (fun x hx =>
                          isEventFor_eq_false id x (by rw [hx, hida]; exact hid_ne_d))))

theorem countP_heap_pop_le (q : List SimEvent) (p : SimEvent → Bool) (h : q ≠ []) :
    (heap_pop q).countP p ≤ q.countP p := by
  conv_rhs => rw [countP_heap_pop q p h]
  exact Nat.le_add_right _ _

/-- Popping the top and advancing the clock to any time below the remaining
events preserves the invariant. -/
theorem inv_pop (s : SimState) (t : ℚ) (hInv : Inv s) (hne : s.event_queue ≠ [])
    (ht : ∀ x ∈ heap_pop s.event_queue, t ≤ x.time_hours) :
    Inv { s with event_queue := heap_pop s.event_queue, current_time_hours := t } := by
  constructor
  · exact (isHeap_heap_pop _ hInv.heap).1
  · exact ht
  · intro id
    exact le_trans (countP_heap_pop_le _ _ hne) (hInv.fc_unique id)
  · intro id
    exact le_trans (countP_heap_pop_le _ _ hne) (hInv.cc_unique id)
  · intro id
    exact le_trans (countP_heap_pop_le _ _ hne) (hInv.fault_unique id)
  · intro x hx id hf
    obtain ⟨h1, h2, h3, h4⟩ := hInv.fault_ok x (mem_heap_pop _ _ hx) id hf
    exact ⟨h1, h2, fun c hc => h3 c (mem_heap_pop _ _ hc),
      fun c hc hfc => h4 c (mem_heap_pop _ _ hc) hfc⟩
  · intro x hx id hce
    obtain ⟨h1, h2⟩ := hInv.cc_ok x (mem_heap_pop _ _ hx) id hce
    exact ⟨h1, fun c hc => h2 c (mem_heap_pop _ _ hc)⟩
  · intro id hmem
    obtain ⟨h1, h2, h3⟩ := hInv.waiting_ok id hmem
    exact ⟨h1, fun c hc => h2 c (mem_heap_pop _ _ hc),
      fun c hc => h3 c (mem_heap_pop _ _ hc)⟩
  · exact hInv.waiting_nodup
  · exact hInv.draws_range

/-- One main-loop iteration preserves the invariant, keeps fault bits sticky
and never adds events for a faulted aircraft. -/
theorem loop_step_inv (s s' : SimState) (hInv : Inv s)
    (hstep : loop_step s = some s') :
    Inv s' ∧ (∀ id, isFaultedIn s id = true → isFaultedIn s' id = true) ∧
    (∀ id, isFaultedIn s' id = true →
      s'.event_queue.countP (isEventFor id) ≤
        s.event_queue.countP (isEventFor id)) := by
  rw [loop_step] at hstep
  by_cases hguard : s.event_queue ≠ [] ∧
      s.current_time_hours < s.simulation_duration_hours
  · rw [if_pos hguard] at hstep
    obtain ⟨hne, hlt⟩ := hguard
    have he_mem : heap_top s.event_queue ∈ s.event_queue :=
      getE_mem _ 0 (List.length_pos.mpr hne)
    have ht : ∀ x ∈ heap_pop s.event_queue,
        (heap_top s.event_queue).time_hours ≤ x.time_hours :=
      fun x hx => isHeap_top_le _ hInv.heap x (mem_heap_pop _ _ hx)
    have hInv1 : Inv { s with
        event_queue := heap_pop s.event_queue
        current_time_hours := (heap_top s.event_queue).time_hours } :=
      inv_pop s _ hInv hne ht
    by_cases hbreak : (heap_top s.event_queue).time_hours ≥
        s.simulation_duration_hours
    · rw [if_pos hbreak] at hstep
      injection hstep with hs'
      subst hs'
      exact ⟨hInv1, fun id h => h,
        fun id h => countP_heap_pop_le _ _ hne⟩
    · rw [if_neg hbreak] at hstep
      injection hstep with hs'
      subst hs'
      rw [process_event]
      cases hed : (heap_top s.event_queue).data with
      | flightComplete dfc =>
          have he_fc : isFlightCompleteFor dfc.aircraft_id (heap_top s.event_queue)
              = true :=
            ((classifier_of_data_fc _ dfc hed _).1).trans (beq_self_eq_true _)
          have hfc0 : (heap_pop s.event_queue).countP
              (isFlightCompleteFor dfc.aircraft_id) = 0 := by
            have h2 := countP_heap_pop s.event_queue
              (isFlightCompleteFor dfc.aircraft_id) hne
            rw [if_pos he_fc] at h2
            have h3 := hInv.fc_unique dfc.aircraft_id
            omega
          have hcc0 : ∀ c ∈ heap_pop s.event_queue,
              isChargingCompleteFor dfc.aircraft_id c = false := by
            intro c hc
            cases hb : isChargingCompleteFor dfc.aircraft_id c
            · rfl
            · have h2 := (hInv.cc_ok c (mem_heap_pop _ _ hc) dfc.aircraft_id hb).2
              rw [h2 _ he_mem] at he_fc
              exact absurd he_fc (by simp)
          have hfa0 : ∀ c ∈ heap_pop s.event_queue,
              isFaultFor dfc.aircraft_id c = false := by
            intro c hc
            cases hb : isFaultFor dfc.aircraft_id c
            · rfl
            · exfalso
              have h4 := (hInv.fault_ok c (mem_heap_pop _ _ hc)
                dfc.aircraft_id hb).2.2.2 _ he_mem he_fc
              have h5 := ht c hc
              rcases h4 with h4 | h4
              · linarith
              · exact hbreak (ge_of_eq h4)
          have hwait0 : dfc.aircraft_id ∉ s.charger.waiting_queue := by
            intro hmem
            have h2 := (hInv.waiting_ok _ hmem).2.1 _ he_mem
            rw [h2] at he_fc
            exact absurd he_fc (by simp)
          obtain ⟨h1, h2, h3⟩ := handle_flight_complete_inv
            { s with
              event_queue := heap_pop s.event_queue
              current_time_hours := (heap_top s.event_queue).time_hours }
            dfc hInv1 (lt_of_not_ge hbreak) hfc0 hcc0 hfa0 hwait0
          exact ⟨h1, fun id h => h2 id h,
            fun id h => le_trans (h3 id h) (countP_heap_pop_le _ _ hne)⟩
      | chargingComplete dcc =>
          have he_cc : isChargingCompleteFor dcc.aircraft_id
              (heap_top s.event_queue) = true :=
            ((classifier_of_data_cc _ dcc hed _).2.1).trans (beq_self_eq_true _)
          obtain ⟨hfau0, hfc0pw⟩ := hInv.cc_ok _ he_mem dcc.aircraft_id he_cc
          have hcc0 : (heap_pop s.event_queue).countP
              (isChargingCompleteFor dcc.aircraft_id) = 0 := by
            have h2 := countP_heap_pop s.event_queue
              (isChargingCompleteFor dcc.aircraft_id) hne
            rw [if_pos he_cc] at h2
            have h3 := hInv.cc_unique dcc.aircraft_id
            omega
          have hfa0 : ∀ c ∈ heap_pop s.event_queue,
              isFaultFor dcc.aircraft_id c = false := by
            intro c hc
            cases hb : isFaultFor dcc.aircraft_id c
            · rfl
            · have h2 := (hInv.fault_ok c (mem_heap_pop _ _ hc)
                dcc.aircraft_id hb).2.2.1 _ he_mem
              rw [h2] at he_cc
              exact absurd he_cc (by simp)
          have hwait0 : dcc.aircraft_id ∉ s.charger.waiting_queue := by
            intro hmem
            have h2 := (hInv.waiting_ok _ hmem).2.2 _ he_mem
            rw [h2] at he_cc
            exact absurd he_cc (by simp)
          obtain ⟨h1, h2, h3⟩ := handle_charging_complete_inv
            { s with
              event_queue := heap_pop s.event_queue
              current_time_hours := (heap_top s.event_queue).time_hours }
            dcc hInv1 (lt_of_not_ge hbreak) hfau0
            (fun c hc => hfc0pw c (mem_heap_pop _ _ hc)) hcc0 hfa0 hwait0
          exact ⟨h1, fun id h => h2 id h,
            fun id h => le_trans (h3 id h) (countP_heap_pop_le _ _ hne)⟩
      | fault dfa =>
          have he_fa : isFaultFor dfa.aircraft_id (heap_top s.event_queue) = true :=
            ((classifier_of_data_fault _ dfa hed _).2.2.1).trans (beq_self_eq_true _)
          obtain ⟨hfau0, hwait0, hcc0pw, hpair0⟩ :=
            hInv.fault_ok _ he_mem dfa.aircraft_id he_fa
          have hfa0 : ∀ c ∈ heap_pop s.event_queue,
              isFaultFor dfa.aircraft_id c = false := by
            have h2 := countP_heap_pop s.event_queue
              (isFaultFor dfa.aircraft_id) hne
            rw [if_pos he_fa] at h2
            have h3 := hInv.fault_unique dfa.aircraft_id
            exact countP_zero_pointwise _ _ (by omega)
          obtain ⟨h1, h2, h3⟩ := handle_fault_inv
            { s with
              event_queue := heap_pop s.event_queue
              current_time_hours := (heap_top s.event_queue).time_hours }
            dfa hInv1
            (fun c hc => hcc0pw c (mem_heap_pop _ _ hc)) hfa0 hwait0
          exact ⟨h1, fun id h => h2 id h,
            fun id h => le_trans (h3 id h) (countP_heap_pop_le _ _ hne)⟩
  · rw [if_neg hguard] at hstep
    exact absurd hstep (by simp)

theorem run_loop_none (k : ℕ) (s : SimState) (h : loop_step s = none) :
    run_loop k s = s := by
  cases k with
  | zero => rfl
  | succ n => rw [run_loop, h]

theorem run_loop_add (a b : ℕ) (s : SimState) :
    run_loop (a + b) s = run_loop b (run_loop a s) := by
  induction a generalizing s with
  | zero =>
      rw [Nat.zero_add]
      rfl
  | succ n ihn =>
      rw [Nat.succ_add, run_loop, run_loop]
      cases hstep : loop_step s with
      | none => exact (run_loop_none b s hstep).symm
      | some s1 => exact ihn s1

/-- The main loop preserves the invariant; along any run fault bits are
sticky and the number of pending events for a faulted aircraft never
grows. -/
theorem run_loop_inv (n : ℕ) (s : SimState) (hInv : Inv s) :
    Inv (run_loop n s) ∧
    (∀ id, isFaultedIn s id = true → isFaultedIn (run_loop n s) id = true ∧
      (run_loop n s).event_queue.countP (isEventFor id) ≤
        s.event_queue.countP (isEventFor id)) := by
  induction n generalizing s with
  | zero => exact ⟨hInv, fun id h => ⟨h, le_rfl⟩⟩
  | succ n ih =>
      rw [run_loop]
      cases hstep : loop_step s with
      | none => exact ⟨hInv, fun id h => ⟨h, le_rfl⟩⟩
      | some s1 =>
          obtain ⟨h1, h2, h3⟩ := loop_step_inv s s1 hInv hstep
          obtain ⟨h4, h5⟩ := ih s1 h1
          refine ⟨h4, fun id h => ?_⟩
          have hf1 := h2 id h
          obtain ⟨hf2, hc2⟩ := h5 id hf1
          exact ⟨hf2, le_trans hc2 (h3 id hf1)⟩

/-- Scheduling the initial flights of a fleet of fresh, distinct, unfaulted
aircraft preserves the invariant. -/
theorem fold_flights_inv (l : List AircraftState) (st : SimState)
    (hInv : Inv st) (hcur : st.current_time_hours ≤ st.simulation_duration_hours)
    (hl : ∀ a ∈ l, a.battery_level = 1 ∧ isFaultedIn st a.aircraft_id = false ∧
      (∀ c ∈ st.event_queue, isEventFor a.aircraft_id c = false) ∧
      a.aircraft_id ∉ st.charger.waiting_queue)
    (hpw : l.Pairwise (fun a b => a.aircraft_id ≠ b.aircraft_id)) :
    Inv (l.foldl (fun st a => schedule_flight st a) st) := by
  induction l generalizing st with
  | nil => exact hInv
  | cons a rest ih =>
      obtain ⟨hbat, hfau, hev, hwait⟩ := hl a (List.mem_cons_self _ _)
      have hev3 := fun c hc => classifier_eq_false_of_eventFor _ c (hev c hc)
      obtain ⟨F1, F2, F3, F4, F5, F6, F7, F8⟩ := schedule_flight_inv st a hInv hcur
        hbat hfau
        (pointwise_countP_zero _ _ (fun c hc => (hev3 c hc).1))
        (fun c hc => (hev3 c hc).2.1)
        (fun c hc => (hev3 c hc).2.2)
        hwait
      rw [List.foldl_cons]
      refine ih (schedule_flight st a) F1 (by rw [F4, F5]; exact hcur) ?_
        (List.pairwise_cons.mp hpw).2
      intro b hb
      obtain ⟨hbat2, hfau2, hev2, hwait2⟩ := hl b (List.mem_cons_of_mem _ hb)
      have hab : a.aircraft_id ≠ b.aircraft_id := (List.pairwise_cons.mp hpw).1 b hb
      refine ⟨hbat2, ?_, ?_, ?_⟩
      · rw [isFaultedIn_congr _ _ F2 b.aircraft_id]
        exact hfau2
      · intro c hc
        rcases F7 c hc with hc2 | hc2
        · exact hev2 c hc2
        · exact isEventFor_eq_false _ c (by rw [hc2]; exact hab)
      · rw [F3]
        exact hwait2

/-- The invariant holds right after `schedule_initial_flights` on a fresh
state over a fleet of fully charged, unfaulted aircraft with distinct ids,
a nonnegative horizon and uniform draws. -/
theorem initial_inv (fleet : List AircraftState) (T : ℚ) (d : ℕ → ℚ)
    (hd : ∀ n, 0 ≤ d n ∧ d n < 1) (hT : 0 ≤ T)
    (hfleet : ∀ a ∈ fleet, a.battery_level = 1 ∧ a.is_faulty = false)
    (hids : fleet.Pairwise (fun a b => a.aircraft_id ≠ b.aircraft_id)) :
    Inv (schedule_initial_flights (SimState.init fleet T d)) := by
  have hInv0 : Inv (SimState.init fleet T d) := by
    constructor
    · intro i h0 hi
      exact absurd hi (by simp [SimState.init])
    · intro e he
      exact absurd he (List.not_mem_nil e)
    · intro id
      simp [SimState.init]
    · intro id
      simp [SimState.init]
    · intro id
      simp [SimState.init]
    · intro e he
      exact absurd he (List.not_mem_nil e)
    · intro e he
      exact absurd he (List.not_mem_nil e)
    · intro id hmem
      exact absurd hmem (List.not_mem_nil id)
    · exact List.nodup_nil
    · exact hd
  rw [schedule_initial_flights]
  refine fold_flights_inv _ (SimState.init fleet T d) hInv0 hT ?_ hids
  intro a ha
  refine ⟨(hfleet a ha).1, ?_, ?_, ?_⟩
  · rw [isFaultedIn]
    simp only [SimState.init]
    cases hf : findAircraft fleet a.aircraft_id with
    | none => rfl
    | some b => exact (hfleet b (List.mem_of_find?_eq_some hf)).2
  · intro c hc
    exact absurd hc (List.not_mem_nil c)
  · exact List.not_mem_nil _

theorem schedule_charging_fc_counts (st : SimState) (a : AircraftState) (wt : ℚ)
    (id : Int) :
    (schedule_charging st a wt).event_queue.countP (isFlightCompleteFor id) =
      st.event_queue.countP (isFlightCompleteFor id) :=
  schedule_event_counts _ _ _ _ _ (fun u => rfl)

/-- C7: faults are sticky and terminal.  (1) `handle_flight_complete` on a
faulted aircraft touches neither the charger manager nor the event queue: it
neither requests a charger nor enqueues the aircraft nor schedules anything.
(2) `handle_charging_complete` on a faulted aircraft schedules no new flight:
the number of pending flight-complete events (for every aircraft) is
unchanged.  (3) Along any run of the event-driven kernel from a fresh fleet
of fully charged, unfaulted, distinct aircraft with uniform draws and a
nonnegative horizon: once an aircraft's fault bit is set it stays set, the
number of pending events targeting it never grows afterwards, and it is
never in the charger waiting queue. -/
theorem c7_sticky_faults :
    (∀ (s : SimState) (d : FlightCompleteData) (a0 : AircraftState),
      findAircraft s.fleet d.aircraft_id = some a0 → a0.is_faulty = true →
        (handle_flight_complete s d).charger = s.charger ∧
        (handle_flight_complete s d).event_queue = s.event_queue) ∧
    (∀ (s : SimState) (d : ChargingCompleteData) (a0 : AircraftState),
      findAircraft s.fleet d.aircraft_id = some a0 → a0.is_faulty = true →
        ∀ id : Int, (handle_charging_complete s d).event_queue.countP
            (isFlightCompleteFor id) =
          s.event_queue.countP (isFlightCompleteFor id)) ∧
    (∀ (fleet : List AircraftState) (T : ℚ) (draws : ℕ → ℚ),
      (∀ k, 0 ≤ draws k ∧ draws k < 1) → 0 ≤ T →
      (∀ a ∈ fleet, a.battery_level = 1 ∧ a.is_faulty = false) →
      fleet.Pairwise (fun a b => a.aircraft_id ≠ b.aircraft_id) →
      ∀ m n : ℕ, m ≤ n → ∀ id : Int,
        isFaultedIn (run_loop m (schedule_initial_flights
          (SimState.init fleet T draws))) id = true →
        isFaultedIn (run_loop n (schedule_initial_flights
          (SimState.init fleet T draws))) id = true ∧
        (run_loop n (schedule_initial_flights
          (SimState.init fleet T draws))).event_queue.countP (isEventFor id) ≤
          (run_loop m (schedule_initial_flights
            (SimState.init fleet T draws))).event_queue.countP (isEventFor id) ∧
        id ∉ (run_loop n (schedule_initial_flights
          (SimState.init fleet T draws))).charger.waiting_queue) := by
  refine ⟨?_, ?_, ?_⟩
  · intro s d a0 hfind hfau
    have heq : handle_flight_complete s d = { s with
        fleet := updateFirst s.fleet d.aircraft_id AircraftState.discharge_battery
        stats := s.stats.record_flight a0.ty d.flight_time d.distance
          (passenger_count a0.ty)
        flight_start_times := mapErase s.flight_start_times d.aircraft_id } := by
      rw [handle_flight_complete, hfind]
      simp only [AircraftState.discharge_battery]
      rw [if_neg (not_not_intro hfau)]
    rw [heq]
    exact ⟨rfl, rfl⟩
  · intro s d a0 hfind hfau id
    rw [handle_charging_complete, hfind]
    simp only [AircraftState.charge_battery]
    rw [if_neg (show ¬(s.current_time_hours < s.simulation_duration_hours ∧
      ¬a0.is_faulty = true) from fun hcond => hcond.2 hfau)]
    cases hwq : s.charger.waiting_queue with
    | nil =>
        rw [get_next_from_queue_nil s.charger hwq]
        simp only []
        rw [if_neg (not_not_intro rfl)]
    | cons w ws =>
        rw [get_next_from_queue_cons s.charger w ws hwq]
        simp only []
        by_cases hwm1 : w = -1
        · rw [if_neg (not_not_intro hwm1)]
        · rw [if_pos hwm1]
          cases hfind2 : findAircraft
              (updateFirst s.fleet d.aircraft_id AircraftState.charge_battery) w with
          | none => rfl
          | some na =>
              simp only [ChargerManager.assign_charger]
              cases hml : mapLookup s.waiting_start_times w with
              | none => exact schedule_charging_fc_counts _ na _ id
              | some w0 => exact schedule_charging_fc_counts _ na _ id
  · intro fleet T draws hd hT hfleet hids m n hmn id hm
    have hInv0 := initial_inv fleet T draws hd hT hfleet hids
    have hadd : m + (n - m) = n := Nat.add_sub_cancel' hmn
    have hsplit : run_loop n (schedule_initial_flights (SimState.init fleet T draws))
        = run_loop (n - m) (run_loop m (schedule_initial_flights
          (SimState.init fleet T draws))) := by
      conv_lhs => rw [← hadd]
      rw [run_loop_add]
    obtain ⟨hInvm, -⟩ := run_loop_inv m _ hInv0
    obtain ⟨hInvd, hmono⟩ := run_loop_inv (n - m) _ hInvm
    obtain ⟨hf2, hc2⟩ := hmono id hm
    refine ⟨?_, ?_, ?_⟩
    · rw [hsplit]
      exact hf2
    · rw [hsplit]
      exact hc2
    · rw [hsplit]
      intro hmem
      rw [(hInvd.waiting_ok id hmem).1] at hf2
      exact absurd hf2 (by simp)

set_option maxRecDepth 10000 in
/-- Concrete instantiation of `c7_sticky_faults`: one Alpha aircraft with
all-zero draws faults at `t = 0`; at step 1 its fault bit is set, and the
run-level part of the theorem applied at `m = 1 ≤ n = 2` yields that the bit
is still set at step 2, the pending-event count for the aircraft has not
grown, and it is not in the charger waiting queue. -/
theorem c7_witness :
    isFaultedIn (run_loop 1 (schedule_initial_flights
      (SimState.init [alpha0] 3 zero_draws))) 0 = true ∧
    isFaultedIn (run_loop 2 (schedule_initial_flights
      (SimState.init [alpha0] 3 zero_draws))) 0 = true ∧
    (run_loop 2 (schedule_initial_flights
      (SimState.init [alpha0] 3 zero_draws))).event_queue.countP (isEventFor 0) ≤
      (run_loop 1 (schedule_initial_flights
        (SimState.init [alpha0] 3 zero_draws))).event_queue.countP (isEventFor 0) ∧
    0 ∉ (run_loop 2 (schedule_initial_flights
      (SimState.init [alpha0] 3 zero_draws))).charger.waiting_queue := by
  have hf1 : isFaultedIn (run_loop 1 (schedule_initial_flights
      (SimState.init [alpha0] 3 zero_draws))) 0 = true :=
    of_decide_eq_true (by with_unfolding_all rfl)
  have hmain := c7_sticky_faults.2.2 [alpha0] 3 zero_draws
    (fun k => ⟨le_refl 0, by norm_num [zero_draws]⟩) (by norm_num)
    (by
      intro a ha
      rw [List.mem_singleton] at ha
      subst ha
      exact ⟨rfl, rfl⟩)
    (by simp)
    1 2 (by norm_num) 0 hf1
  exact ⟨hf1, hmain.1, hmain.2.1, hmain.2.2⟩
end Evtol
